import Mathlib

/-!
# tflint: the required-tags rules and the pretty formatter

A shallow embedding of `rules/awsrules/tags/*.go` and `formatter/pretty.go`.

Go code that mutates an object through a pointer is written as explicit state
passing: a function that receives `runner *tflint.Runner` takes a `tflint.Runner`
and returns the runner it leaves behind, together with its Go result.  A Go
`error` result is an `Option tflint.Error` (`none` is `nil`).  Go `int` is `Int`.
-/

set_option autoImplicit false

/-! ## The hcl library: positions, ranges, attributes -/

namespace hcl

/-- Source position `hcl.Pos`. -/
structure Pos where
  Line : Int
  Column : Int
  Byte : Int
  deriving DecidableEq, Repr

/-- Source range `hcl.Range`; `End` is exclusive. -/
structure Range where
  Filename : String
  Start : Pos
  End : Pos
  deriving DecidableEq, Repr

end hcl

/-- A Go `map[string]string`, given by its entries in the order in which a
`range` loop over it enumerates them in the run under consideration.  Go leaves
that order unspecified: another run may enumerate a permutation of the list.
The `nil` map and the empty map both have no entries. -/
abbrev StringMap := List (String × String)

/-- A Go `map[string]bool`: `none` where the key is absent. -/
abbrev BoolMap := String → Option Bool

/-- The expression `make(map[string]bool)`. -/
def BoolMap.make : BoolMap := fun _ => none

/-- The assignment `hash[k] = v`. -/
def BoolMap.set (hash : BoolMap) (k : String) (v : Bool) : BoolMap :=
  fun x => if x = k then some v else hash x

/-- The `ok` of `_, ok := hash[k]`. -/
def BoolMap.ok (hash : BoolMap) (k : String) : Bool := (hash k).isSome

/-! ## Go standard library -/

namespace strings

/-- Go `strings.Join`. -/
def Join (elems : List String) (sep : String) : String := sep.intercalate elems

end strings

namespace sort

/-- The Go expression `sort.StringSlice(x)`: a conversion of `x` to the named
slice type `sort.StringSlice`.  The result shares the elements of `x` in their
order; no method (such as `Sort`) is called on it by the conversion. -/
def StringSlice (x : List String) : List String := x

end sort

/-! ## The tflint package (runner, issues, errors) -/

namespace tflint

/-- Modelled from the spec: the error taxonomy of section 7 (the declaration of
`tflint.Error` is outside src). -/
inductive ErrorKind where
  | Unresolvable
  | Unevaluable
  | TypeMismatch
  | CycleDetected
  | ParseDiagnostic
  deriving DecidableEq, Repr

end tflint

namespace hcl

/-- Severity of an `hcl.Diagnostic`. -/
inductive DiagnosticSeverity where
  | DiagError
  | DiagWarning
  deriving DecidableEq, Repr

/-- One `hcl.Diagnostic`. -/
structure Diagnostic where
  Severity : DiagnosticSeverity
  Summary : String
  Detail : String
  Subject : Option Range
  deriving DecidableEq, Repr

/-- The type `hcl.Diagnostics`. -/
abbrev Diagnostics := List Diagnostic

/-- The method `Diagnostics.Errs`: the diagnostics of severity `DiagError`. -/
def Diagnostics.Errs (d : Diagnostics) : List Diagnostic :=
  d.filter (fun diag => diag.Severity = DiagnosticSeverity.DiagError)

/-- The method `Diagnostics.HasErrors`. -/
def Diagnostics.HasErrors (d : Diagnostics) : Bool :=
  d.any (fun diag => diag.Severity = DiagnosticSeverity.DiagError)

end hcl

namespace tflint

/-- The dynamic value of the field `Cause` of a `tflint.Error`, a Go `error`
interface: nil, an `hcl.Diagnostics`, or another error, kept as the text of its
`Error()`. -/
inductive Cause where
  | Nil
  | Diagnostics (diags : hcl.Diagnostics)
  | Other (text : String)
  deriving DecidableEq, Repr

/-- Modelled from the spec: `tflint.Error` (declared outside src), with the kind
of section 7 and the fields `Message` and `Cause` read by the formatter. -/
structure Error where
  Kind : ErrorKind
  Message : String
  Cause : Cause
  deriving DecidableEq, Repr

/-- Modelled from the spec: the severity constants (declared outside src);
section 6 names them `ERROR | WARNING | NOTICE`. -/
def ERROR : String := "ERROR"

/-- Modelled from the spec: see `tflint.ERROR`. -/
def WARNING : String := "WARNING"

/-- Modelled from the spec: see `tflint.ERROR`. -/
def NOTICE : String := "NOTICE"

/-- What an issue keeps of the rule that emitted it: the results of the
methods of the `Rule` interface other than `Check`. -/
structure Rule where
  Name : String
  Enabled : Bool
  Severity : String
  Link : String
  deriving DecidableEq, Repr

/-- Modelled from the spec: one entry of a caller chain, a module call with its
range (section 3). -/
structure Caller where
  Name : String
  Range : hcl.Range
  deriving DecidableEq, Repr

/-- The type `tflint.Issue`. -/
structure Issue where
  Rule : Rule
  Message : String
  Range : hcl.Range
  Callers : List Caller
  deriving DecidableEq, Repr

/-- The type `tflint.Issues`. -/
abbrev Issues := List Issue

end tflint

namespace hcl

/-- Modelled from the spec: an expression of the parsed configuration.  The
expression evaluator is outside src; an expression occurrence carries what
`Runner.EvaluateExpr` does with it for a `map[string]string` target in the
module instance it occurs in: the value left in the target and the error
returned. -/
structure Expression where
  SrcRange : Range
  Decoded : StringMap
  Err : Option tflint.Error
  deriving DecidableEq, Repr

/-- The method `Expression.Range`. -/
def Expression.Range (e : Expression) : Range := e.SrcRange

/-- The type `hcl.Attribute`. -/
structure Attribute where
  Name : String
  Expr : Expression
  Range : Range
  deriving DecidableEq, Repr

end hcl

namespace tflint

/-- A resource block. -/
structure Resource where
  TypeName : String
  Name : String
  Attributes : List hcl.Attribute
  deriving DecidableEq, Repr

/-- Modelled from the spec: a module instance (section 3) with its caller chain
and its resource blocks in declaration order. -/
structure ModuleInstance where
  Callers : List Caller
  Resources : List Resource
  deriving DecidableEq, Repr

/-- Modelled from the spec: the runner (declared outside src).  `Modules` holds
the module instances in traversal order (root first, then children depth
first), `Callers` is the caller chain of the instance the runner is positioned
at, `Issues` the issues emitted so far in emission order. -/
structure Runner where
  ConfigTags : List String
  Modules : List ModuleInstance
  Callers : List Caller
  Issues : Issues
  deriving DecidableEq, Repr

/-- Modelled from the spec: `GetConfigTags` exposes the configured tag keys as
already-resolved data (section 4.3). -/
def Runner.GetConfigTags (runner : Runner) : List String := runner.ConfigTags

/-- Modelled from the spec: `EvaluateExpr(expr, &target)` for a
`map[string]string` target; returns the value of the target after the call and
the error. -/
def Runner.EvaluateExpr (_runner : Runner) (expr : hcl.Expression) :
    StringMap × Option Error :=
  (expr.Decoded, expr.Err)

/-- Modelled from the spec: `EnsureNoError(err, continuation)` executes the
continuation only if `err` is nil; an `Unevaluable` error is swallowed; a hard
error is returned (section 4.3). -/
def Runner.EnsureNoError (runner : Runner) (err : Option Error)
    (proc : Runner → Runner × Option Error) : Runner × Option Error :=
  match err with
  | none => proc runner
  | some e => if e.Kind = ErrorKind.Unevaluable then (runner, none) else (runner, some e)

/-- Modelled from the spec: `EmitIssue(rule, message, range)` records an issue
with the current caller chain attached; it never fails (section 4.3). -/
def Runner.EmitIssue (runner : Runner) (rule : Rule) (message : String)
    (location : hcl.Range) : Runner :=
  { runner with
    Issues := runner.Issues ++
      [{ Rule := rule, Message := message, Range := location, Callers := runner.Callers }] }

/-- The attribute occurrences a walk visits: for every module instance in
traversal order, for every resource block of the given type, the attribute of
the given name if the block has one, with the caller chain of the instance. -/
def Runner.occurrences (runner : Runner) (resourceType attributeName : String) :
    List (List Caller × hcl.Attribute) :=
  runner.Modules.flatMap fun inst =>
    (inst.Resources.filter fun res => res.TypeName = resourceType).filterMap fun res =>
      (res.Attributes.find? fun a => a.Name = attributeName).map fun a => (inst.Callers, a)

/-- The callbacks of a walk, run in order; the first error aborts the rest. -/
def Runner.walk (callback : Runner → hcl.Attribute → Runner × Option Error) :
    List (List Caller × hcl.Attribute) → Runner → Runner × Option Error
  | [], runner => (runner, none)
  | (callers, attr) :: rest, runner =>
    match callback { runner with Callers := callers } attr with
    | (runner, some err) => (runner, some err)
    | (runner, none) => Runner.walk callback rest runner

/-- Modelled from the spec: `WalkResourceAttributes(resourceType, attributeName,
callback)` invokes the callback once per matching attribute occurrence with the
runner positioned at the module instance of the occurrence, and returns the
first error raised by a callback, which aborts the remaining walk
(section 4.1). -/
def Runner.WalkResourceAttributes (runner : Runner) (resourceType attributeName : String)
    (callback : Runner → hcl.Attribute → Runner × Option Error) : Runner × Option Error :=
  Runner.walk callback (runner.occurrences resourceType attributeName) runner

end tflint

/-! ## rules/awsrules/tags -/

namespace tags

/-- The call `fmt.Sprintf("Wanted tags: %v, found: %v\n", wanted, found)` on two
strings. -/
def wantedFoundMessage (wanted found : String) : String :=
  "Wanted tags: " ++ wanted ++ ", found: " ++ found ++ "\n"

/-- A tags rule as the driver holds it: the value of the interface
`tflint.Rule` with the fields its constructor set, the results of its methods
(`rule`), the function literal of its `Check` and `Check` itself. -/
structure TagsRule where
  resourceType : String
  attributeName : String
  rule : tflint.Rule
  callback : tflint.Runner → hcl.Attribute → tflint.Runner × Option tflint.Error
  Check : tflint.Runner → tflint.Runner × Option tflint.Error

/-! ### aws_resource_tags_aws_autoscaling_group.go -/

/-- Checks whether the resource is tagged correctly. -/
structure AwsAutoscalingGroupTagsRule where
  resourceType : String
  attributeName : String
  deriving DecidableEq, Repr

/-- Returns new tags rule with default attributes. -/
def NewAwsAutoscalingGroupTagsRule : AwsAutoscalingGroupTagsRule :=
  { resourceType := "aws_autoscaling_group", attributeName := "tags" }

/-- Name returns the rule name. -/
def AwsAutoscalingGroupTagsRule.Name (_r : AwsAutoscalingGroupTagsRule) : String :=
  "aws_resource_tags_aws_autoscaling_group"

/-- Enabled returns whether the rule is enabled by default. -/
def AwsAutoscalingGroupTagsRule.Enabled (_r : AwsAutoscalingGroupTagsRule) : Bool := true

/-- Severity returns the rule severity. -/
def AwsAutoscalingGroupTagsRule.Severity (_r : AwsAutoscalingGroupTagsRule) : String := tflint.ERROR

/-- Link returns the rule reference link. -/
def AwsAutoscalingGroupTagsRule.Link (_r : AwsAutoscalingGroupTagsRule) : String := ""

/-- The receiver as the rule value handed to EmitIssue. -/
def AwsAutoscalingGroupTagsRule.asRule (r : AwsAutoscalingGroupTagsRule) : tflint.Rule :=
  { Name := r.Name, Enabled := r.Enabled, Severity := r.Severity, Link := r.Link }

/-- The function literal that Check passes to WalkResourceAttributes. -/
def AwsAutoscalingGroupTagsRule.callback (r : AwsAutoscalingGroupTagsRule)
    (runner : tflint.Runner) (attr : hcl.Attribute) : tflint.Runner × Option tflint.Error :=
  let (resourceTags, err) := runner.EvaluateExpr attr.Expr
  let tags := resourceTags.foldl (fun tags kv => tags ++ [kv.1]) []
  runner.EnsureNoError err fun runner =>
    let configTags := runner.GetConfigTags
    let hash := tags.foldl (fun hash k => hash.set k true) BoolMap.make
    let found := configTags.foldl
      (fun found tag => if hash.ok tag then found ++ [tag] else found) []
    if found.length ≠ configTags.length then
      let wanted := strings.Join (sort.StringSlice configTags) ","
      let found := strings.Join (sort.StringSlice tags) ","
      (runner.EmitIssue r.asRule (wantedFoundMessage wanted found) attr.Expr.Range, none)
    else
      (runner, none)

/-- Check checks for matching tags. -/
def AwsAutoscalingGroupTagsRule.Check (r : AwsAutoscalingGroupTagsRule)
    (runner : tflint.Runner) : tflint.Runner × Option tflint.Error :=
  runner.WalkResourceAttributes r.resourceType r.attributeName r.callback

/-- The rule as an entry of the catalog. -/
def AwsAutoscalingGroupTagsRule.entry (r : AwsAutoscalingGroupTagsRule) : TagsRule :=
  { resourceType := r.resourceType, attributeName := r.attributeName, rule := r.asRule,
    callback := r.callback, Check := r.Check }

/-! ### aws_resource_tags_aws_cloudformation_stack.go -/

/-- Checks whether the resource is tagged correctly. -/
structure AwsCloudformationStackTagsRule where
  resourceType : String
  attributeName : String
  deriving DecidableEq, Repr

/-- Returns new tags rule with default attributes. -/
def NewAwsCloudformationStackTagsRule : AwsCloudformationStackTagsRule :=
  { resourceType := "aws_cloudformation_stack", attributeName := "tags" }

/-- Name returns the rule name. -/
def AwsCloudformationStackTagsRule.Name (_r : AwsCloudformationStackTagsRule) : String :=
  "aws_resource_tags_aws_cloudformation_stack"

/-- Enabled returns whether the rule is enabled by default. -/
def AwsCloudformationStackTagsRule.Enabled (_r : AwsCloudformationStackTagsRule) : Bool := true

/-- Severity returns the rule severity. -/
def AwsCloudformationStackTagsRule.Severity (_r : AwsCloudformationStackTagsRule) : String := tflint.ERROR

/-- Link returns the rule reference link. -/
def AwsCloudformationStackTagsRule.Link (_r : AwsCloudformationStackTagsRule) : String := ""

/-- The receiver as the rule value handed to EmitIssue. -/
def AwsCloudformationStackTagsRule.asRule (r : AwsCloudformationStackTagsRule) : tflint.Rule :=
  { Name := r.Name, Enabled := r.Enabled, Severity := r.Severity, Link := r.Link }

/-- The function literal that Check passes to WalkResourceAttributes. -/
def AwsCloudformationStackTagsRule.callback (r : AwsCloudformationStackTagsRule)
    (runner : tflint.Runner) (attr : hcl.Attribute) : tflint.Runner × Option tflint.Error :=
  let (resourceTags, err) := runner.EvaluateExpr attr.Expr
  let tags := resourceTags.foldl (fun tags kv => tags ++ [kv.1]) []
  runner.EnsureNoError err fun runner =>
    let configTags := runner.GetConfigTags
    let hash := tags.foldl (fun hash k => hash.set k true) BoolMap.make
    let found := configTags.foldl
      (fun found tag => if hash.ok tag then found ++ [tag] else found) []
    if found.length ≠ configTags.length then
      let wanted := strings.Join (sort.StringSlice configTags) ","
      let found := strings.Join (sort.StringSlice tags) ","
      (runner.EmitIssue r.asRule (wantedFoundMessage wanted found) attr.Expr.Range, none)
    else
      (runner, none)

/-- Check checks for matching tags. -/
def AwsCloudformationStackTagsRule.Check (r : AwsCloudformationStackTagsRule)
    (runner : tflint.Runner) : tflint.Runner × Option tflint.Error :=
  runner.WalkResourceAttributes r.resourceType r.attributeName r.callback

/-- The rule as an entry of the catalog. -/
def AwsCloudformationStackTagsRule.entry (r : AwsCloudformationStackTagsRule) : TagsRule :=
  { resourceType := r.resourceType, attributeName := r.attributeName, rule := r.asRule,
    callback := r.callback, Check := r.Check }

/-! ### aws_resource_tags_aws_db_event_subscription.go -/

/-- Checks whether the resource is tagged correctly. -/
structure AwsDBEventSubscriptionTagsRule where
  resourceType : String
  attributeName : String
  deriving DecidableEq, Repr

/-- Returns new tags rule with default attributes. -/
def NewAwsDBEventSubscriptionTagsRule : AwsDBEventSubscriptionTagsRule :=
  { resourceType := "aws_db_event_subscription", attributeName := "tags" }

/-- Name returns the rule name. -/
def AwsDBEventSubscriptionTagsRule.Name (_r : AwsDBEventSubscriptionTagsRule) : String :=
  "aws_resource_tags_aws_db_event_subscription"

/-- Enabled returns whether the rule is enabled by default. -/
def AwsDBEventSubscriptionTagsRule.Enabled (_r : AwsDBEventSubscriptionTagsRule) : Bool := true

/-- Severity returns the rule severity. -/
def AwsDBEventSubscriptionTagsRule.Severity (_r : AwsDBEventSubscriptionTagsRule) : String := tflint.ERROR

/-- Link returns the rule reference link. -/
def AwsDBEventSubscriptionTagsRule.Link (_r : AwsDBEventSubscriptionTagsRule) : String := ""

/-- The receiver as the rule value handed to EmitIssue. -/
def AwsDBEventSubscriptionTagsRule.asRule (r : AwsDBEventSubscriptionTagsRule) : tflint.Rule :=
  { Name := r.Name, Enabled := r.Enabled, Severity := r.Severity, Link := r.Link }

/-- The function literal that Check passes to WalkResourceAttributes. -/
def AwsDBEventSubscriptionTagsRule.callback (r : AwsDBEventSubscriptionTagsRule)
    (runner : tflint.Runner) (attr : hcl.Attribute) : tflint.Runner × Option tflint.Error :=
  let (resourceTags, err) := runner.EvaluateExpr attr.Expr
  let tags := resourceTags.foldl (fun tags kv => tags ++ [kv.1]) []
  runner.EnsureNoError err fun runner =>
    let configTags := runner.GetConfigTags
    let hash := tags.foldl (fun hash k => hash.set k true) BoolMap.make
    let found := configTags.foldl
      (fun found tag => if hash.ok tag then found ++ [tag] else found) []
    if found.length ≠ configTags.length then
      let wanted := strings.Join (sort.StringSlice configTags) ","
      let found := strings.Join (sort.StringSlice tags) ","
      (runner.EmitIssue r.asRule (wantedFoundMessage wanted found) attr.Expr.Range, none)
    else
      (runner, none)

/-- Check checks for matching tags. -/
def AwsDBEventSubscriptionTagsRule.Check (r : AwsDBEventSubscriptionTagsRule)
    (runner : tflint.Runner) : tflint.Runner × Option tflint.Error :=
  runner.WalkResourceAttributes r.resourceType r.attributeName r.callback

/-- The rule as an entry of the catalog. -/
def AwsDBEventSubscriptionTagsRule.entry (r : AwsDBEventSubscriptionTagsRule) : TagsRule :=
  { resourceType := r.resourceType, attributeName := r.attributeName, rule := r.asRule,
    callback := r.callback, Check := r.Check }

/-! ### aws_resource_tags_aws_db_snapshot.go -/

/-- Checks whether the resource is tagged correctly. -/
structure AwsDBSnapshotTagsRule where
  resourceType : String
  attributeName : String
  deriving DecidableEq, Repr

/-- Returns new tags rule with default attributes. -/
def NewAwsDBSnapshotTagsRule : AwsDBSnapshotTagsRule :=
  { resourceType := "aws_db_snapshot", attributeName := "tags" }

/-- Name returns the rule name. -/
def AwsDBSnapshotTagsRule.Name (_r : AwsDBSnapshotTagsRule) : String :=
  "aws_resource_tags_aws_db_snapshot"

/-- Enabled returns whether the rule is enabled by default. -/
def AwsDBSnapshotTagsRule.Enabled (_r : AwsDBSnapshotTagsRule) : Bool := true

/-- Severity returns the rule severity. -/
def AwsDBSnapshotTagsRule.Severity (_r : AwsDBSnapshotTagsRule) : String := tflint.ERROR

/-- Link returns the rule reference link. -/
def AwsDBSnapshotTagsRule.Link (_r : AwsDBSnapshotTagsRule) : String := ""

/-- The receiver as the rule value handed to EmitIssue. -/
def AwsDBSnapshotTagsRule.asRule (r : AwsDBSnapshotTagsRule) : tflint.Rule :=
  { Name := r.Name, Enabled := r.Enabled, Severity := r.Severity, Link := r.Link }

/-- The function literal that Check passes to WalkResourceAttributes. -/
def AwsDBSnapshotTagsRule.callback (r : AwsDBSnapshotTagsRule)
    (runner : tflint.Runner) (attr : hcl.Attribute) : tflint.Runner × Option tflint.Error :=
  let (resourceTags, err) := runner.EvaluateExpr attr.Expr
  let tags := resourceTags.foldl (fun tags kv => tags ++ [kv.1]) []
  runner.EnsureNoError err fun runner =>
    let configTags := runner.GetConfigTags
    let hash := tags.foldl (fun hash k => hash.set k true) BoolMap.make
    let found := configTags.foldl
      (fun found tag => if hash.ok tag then found ++ [tag] else found) []
    if found.length ≠ configTags.length then
      let wanted := strings.Join (sort.StringSlice configTags) ","
      let found := strings.Join (sort.StringSlice tags) ","
      (runner.EmitIssue r.asRule (wantedFoundMessage wanted found) attr.Expr.Range, none)
    else
      (runner, none)

/-- Check checks for matching tags. -/
def AwsDBSnapshotTagsRule.Check (r : AwsDBSnapshotTagsRule)
    (runner : tflint.Runner) : tflint.Runner × Option tflint.Error :=
  runner.WalkResourceAttributes r.resourceType r.attributeName r.callback

/-- The rule as an entry of the catalog. -/
def AwsDBSnapshotTagsRule.entry (r : AwsDBSnapshotTagsRule) : TagsRule :=
  { resourceType := r.resourceType, attributeName := r.attributeName, rule := r.asRule,
    callback := r.callback, Check := r.Check }

/-! ### aws_resource_tags_aws_default_route_table.go -/

/-- Checks whether the resource is tagged correctly. -/
structure AwsDefaultRouteTableTagsRule where
  resourceType : String
  attributeName : String
  deriving DecidableEq, Repr

/-- Returns new tags rule with default attributes. -/
def NewAwsDefaultRouteTableTagsRule : AwsDefaultRouteTableTagsRule :=
  { resourceType := "aws_default_route_table", attributeName := "tags" }

/-- Name returns the rule name. -/
def AwsDefaultRouteTableTagsRule.Name (_r : AwsDefaultRouteTableTagsRule) : String :=
  "aws_resource_tags_aws_default_route_table"

/-- Enabled returns whether the rule is enabled by default. -/
def AwsDefaultRouteTableTagsRule.Enabled (_r : AwsDefaultRouteTableTagsRule) : Bool := true

/-- Severity returns the rule severity. -/
def AwsDefaultRouteTableTagsRule.Severity (_r : AwsDefaultRouteTableTagsRule) : String := tflint.ERROR

/-- Link returns the rule reference link. -/
def AwsDefaultRouteTableTagsRule.Link (_r : AwsDefaultRouteTableTagsRule) : String := ""

/-- The receiver as the rule value handed to EmitIssue. -/
def AwsDefaultRouteTableTagsRule.asRule (r : AwsDefaultRouteTableTagsRule) : tflint.Rule :=
  { Name := r.Name, Enabled := r.Enabled, Severity := r.Severity, Link := r.Link }

/-- The function literal that Check passes to WalkResourceAttributes. -/
def AwsDefaultRouteTableTagsRule.callback (r : AwsDefaultRouteTableTagsRule)
    (runner : tflint.Runner) (attr : hcl.Attribute) : tflint.Runner × Option tflint.Error :=
  let (resourceTags, err) := runner.EvaluateExpr attr.Expr
  let tags := resourceTags.foldl (fun tags kv => tags ++ [kv.1]) []
  runner.EnsureNoError err fun runner =>
    let configTags := runner.GetConfigTags
    let hash := tags.foldl (fun hash k => hash.set k true) BoolMap.make
    let found := configTags.foldl
      (fun found tag => if hash.ok tag then found ++ [tag] else found) []
    if found.length ≠ configTags.length then
      let wanted := strings.Join (sort.StringSlice configTags) ","
      let found := strings.Join (sort.StringSlice tags) ","
      (runner.EmitIssue r.asRule (wantedFoundMessage wanted found) attr.Expr.Range, none)
    else
      (runner, none)

/-- Check checks for matching tags. -/
def AwsDefaultRouteTableTagsRule.Check (r : AwsDefaultRouteTableTagsRule)
    (runner : tflint.Runner) : tflint.Runner × Option tflint.Error :=
  runner.WalkResourceAttributes r.resourceType r.attributeName r.callback

/-- The rule as an entry of the catalog. -/
def AwsDefaultRouteTableTagsRule.entry (r : AwsDefaultRouteTableTagsRule) : TagsRule :=
  { resourceType := r.resourceType, attributeName := r.attributeName, rule := r.asRule,
    callback := r.callback, Check := r.Check }

/-! ### aws_resource_tags_aws_dms_endpoint.go -/

/-- Checks whether the resource is tagged correctly. -/
structure AwsDmsEndpointTagsRule where
  resourceType : String
  attributeName : String
  deriving DecidableEq, Repr

/-- Returns new tags rule with default attributes. -/
def NewAwsDmsEndpointTagsRule : AwsDmsEndpointTagsRule :=
  { resourceType := "aws_dms_endpoint", attributeName := "tags" }

/-- Name returns the rule name. -/
def AwsDmsEndpointTagsRule.Name (_r : AwsDmsEndpointTagsRule) : String :=
  "aws_resource_tags_aws_dms_endpoint"

/-- Enabled returns whether the rule is enabled by default. -/
def AwsDmsEndpointTagsRule.Enabled (_r : AwsDmsEndpointTagsRule) : Bool := true

/-- Severity returns the rule severity. -/
def AwsDmsEndpointTagsRule.Severity (_r : AwsDmsEndpointTagsRule) : String := tflint.ERROR

/-- Link returns the rule reference link. -/
def AwsDmsEndpointTagsRule.Link (_r : AwsDmsEndpointTagsRule) : String := ""

/-- The receiver as the rule value handed to EmitIssue. -/
def AwsDmsEndpointTagsRule.asRule (r : AwsDmsEndpointTagsRule) : tflint.Rule :=
  { Name := r.Name, Enabled := r.Enabled, Severity := r.Severity, Link := r.Link }

/-- The function literal that Check passes to WalkResourceAttributes. -/
def AwsDmsEndpointTagsRule.callback (r : AwsDmsEndpointTagsRule)
    (runner : tflint.Runner) (attr : hcl.Attribute) : tflint.Runner × Option tflint.Error :=
  let (resourceTags, err) := runner.EvaluateExpr attr.Expr
  let tags := resourceTags.foldl (fun tags kv => tags ++ [kv.1]) []
  runner.EnsureNoError err fun runner =>
    let configTags := runner.GetConfigTags
    let hash := tags.foldl (fun hash k => hash.set k true) BoolMap.make
    let found := configTags.foldl
      (fun found tag => if hash.ok tag then found ++ [tag] else found) []
    if found.length ≠ configTags.length then
      let wanted := strings.Join (sort.StringSlice configTags) ","
      let found := strings.Join (sort.StringSlice tags) ","
      (runner.EmitIssue r.asRule (wantedFoundMessage wanted found) attr.Expr.Range, none)
    else
      (runner, none)

/-- Check checks for matching tags. -/
def AwsDmsEndpointTagsRule.Check (r : AwsDmsEndpointTagsRule)
    (runner : tflint.Runner) : tflint.Runner × Option tflint.Error :=
  runner.WalkResourceAttributes r.resourceType r.attributeName r.callback

/-- The rule as an entry of the catalog. -/
def AwsDmsEndpointTagsRule.entry (r : AwsDmsEndpointTagsRule) : TagsRule :=
  { resourceType := r.resourceType, attributeName := r.attributeName, rule := r.asRule,
    callback := r.callback, Check := r.Check }

/-! ### aws_resource_tags_aws_dynamodb_table.go -/

/-- Checks whether the resource is tagged correctly. -/
structure AwsDynamoDBTableTagsRule where
  resourceType : String
  attributeName : String
  deriving DecidableEq, Repr

/-- Returns new tags rule with default attributes. -/
def NewAwsDynamoDBTableTagsRule : AwsDynamoDBTableTagsRule :=
  { resourceType := "aws_dynamodb_table", attributeName := "tags" }

/-- Name returns the rule name. -/
def AwsDynamoDBTableTagsRule.Name (_r : AwsDynamoDBTableTagsRule) : String :=
  "aws_resource_tags_aws_dynamodb_table"

/-- Enabled returns whether the rule is enabled by default. -/
def AwsDynamoDBTableTagsRule.Enabled (_r : AwsDynamoDBTableTagsRule) : Bool := true

/-- Severity returns the rule severity. -/
def AwsDynamoDBTableTagsRule.Severity (_r : AwsDynamoDBTableTagsRule) : String := tflint.ERROR

/-- Link returns the rule reference link. -/
def AwsDynamoDBTableTagsRule.Link (_r : AwsDynamoDBTableTagsRule) : String := ""

/-- The receiver as the rule value handed to EmitIssue. -/
def AwsDynamoDBTableTagsRule.asRule (r : AwsDynamoDBTableTagsRule) : tflint.Rule :=
  { Name := r.Name, Enabled := r.Enabled, Severity := r.Severity, Link := r.Link }

/-- The function literal that Check passes to WalkResourceAttributes. -/
def AwsDynamoDBTableTagsRule.callback (r : AwsDynamoDBTableTagsRule)
    (runner : tflint.Runner) (attr : hcl.Attribute) : tflint.Runner × Option tflint.Error :=
  let (resourceTags, err) := runner.EvaluateExpr attr.Expr
  let tags := resourceTags.foldl (fun tags kv => tags ++ [kv.1]) []
  runner.EnsureNoError err fun runner =>
    let configTags := runner.GetConfigTags
    let hash := tags.foldl (fun hash k => hash.set k true) BoolMap.make
    let found := configTags.foldl
      (fun found tag => if hash.ok tag then found ++ [tag] else found) []
    if found.length ≠ configTags.length then
      let wanted := strings.Join (sort.StringSlice configTags) ","
      let found := strings.Join (sort.StringSlice tags) ","
      (runner.EmitIssue r.asRule (wantedFoundMessage wanted found) attr.Expr.Range, none)
    else
      (runner, none)

/-- Check checks for matching tags. -/
def AwsDynamoDBTableTagsRule.Check (r : AwsDynamoDBTableTagsRule)
    (runner : tflint.Runner) : tflint.Runner × Option tflint.Error :=
  runner.WalkResourceAttributes r.resourceType r.attributeName r.callback

/-- The rule as an entry of the catalog. -/
def AwsDynamoDBTableTagsRule.entry (r : AwsDynamoDBTableTagsRule) : TagsRule :=
  { resourceType := r.resourceType, attributeName := r.attributeName, rule := r.asRule,
    callback := r.callback, Check := r.Check }

/-! ### aws_resource_tags_aws_elasticache_cluster.go -/

/-- Checks whether the resource is tagged correctly. -/
structure AwsElastiCacheClusterTagsRule where
  resourceType : String
  attributeName : String
  deriving DecidableEq, Repr

/-- Returns new tags rule with default attributes. -/
def NewAwsElastiCacheClusterTagsRule : AwsElastiCacheClusterTagsRule :=
  { resourceType := "aws_elasticache_cluster", attributeName := "tags" }

/-- Name returns the rule name. -/
def AwsElastiCacheClusterTagsRule.Name (_r : AwsElastiCacheClusterTagsRule) : String :=
  "aws_resource_tags_aws_elasticache_cluster"

/-- Enabled returns whether the rule is enabled by default. -/
def AwsElastiCacheClusterTagsRule.Enabled (_r : AwsElastiCacheClusterTagsRule) : Bool := true

/-- Severity returns the rule severity. -/
def AwsElastiCacheClusterTagsRule.Severity (_r : AwsElastiCacheClusterTagsRule) : String := tflint.ERROR

/-- Link returns the rule reference link. -/
def AwsElastiCacheClusterTagsRule.Link (_r : AwsElastiCacheClusterTagsRule) : String := ""

/-- The receiver as the rule value handed to EmitIssue. -/
def AwsElastiCacheClusterTagsRule.asRule (r : AwsElastiCacheClusterTagsRule) : tflint.Rule :=
  { Name := r.Name, Enabled := r.Enabled, Severity := r.Severity, Link := r.Link }

/-- The function literal that Check passes to WalkResourceAttributes. -/
def AwsElastiCacheClusterTagsRule.callback (r : AwsElastiCacheClusterTagsRule)
    (runner : tflint.Runner) (attr : hcl.Attribute) : tflint.Runner × Option tflint.Error :=
  let (resourceTags, err) := runner.EvaluateExpr attr.Expr
  let tags := resourceTags.foldl (fun tags kv => tags ++ [kv.1]) []
  runner.EnsureNoError err fun runner =>
    let configTags := runner.GetConfigTags
    let hash := tags.foldl (fun hash k => hash.set k true) BoolMap.make
    let found := configTags.foldl
      (fun found tag => if hash.ok tag then found ++ [tag] else found) []
    if found.length ≠ configTags.length then
      let wanted := strings.Join (sort.StringSlice configTags) ","
      let found := strings.Join (sort.StringSlice tags) ","
      (runner.EmitIssue r.asRule (wantedFoundMessage wanted found) attr.Expr.Range, none)
    else
      (runner, none)

/-- Check checks for matching tags. -/
def AwsElastiCacheClusterTagsRule.Check (r : AwsElastiCacheClusterTagsRule)
    (runner : tflint.Runner) : tflint.Runner × Option tflint.Error :=
  runner.WalkResourceAttributes r.resourceType r.attributeName r.callback

/-- The rule as an entry of the catalog. -/
def AwsElastiCacheClusterTagsRule.entry (r : AwsElastiCacheClusterTagsRule) : TagsRule :=
  { resourceType := r.resourceType, attributeName := r.attributeName, rule := r.asRule,
    callback := r.callback, Check := r.Check }

/-! ### aws_resource_tags_aws_emr_cluster.go -/

/-- Checks whether the resource is tagged correctly. -/
structure AwsEmrClusterTagsRule where
  resourceType : String
  attributeName : String
  deriving DecidableEq, Repr

/-- Returns new tags rule with default attributes. -/
def NewAwsEmrClusterTagsRule : AwsEmrClusterTagsRule :=
  { resourceType := "aws_emr_cluster", attributeName := "tags" }

/-- Name returns the rule name. -/
def AwsEmrClusterTagsRule.Name (_r : AwsEmrClusterTagsRule) : String :=
  "aws_resource_tags_aws_emr_cluster"

/-- Enabled returns whether the rule is enabled by default. -/
def AwsEmrClusterTagsRule.Enabled (_r : AwsEmrClusterTagsRule) : Bool := true

/-- Severity returns the rule severity. -/
def AwsEmrClusterTagsRule.Severity (_r : AwsEmrClusterTagsRule) : String := tflint.ERROR

/-- Link returns the rule reference link. -/
def AwsEmrClusterTagsRule.Link (_r : AwsEmrClusterTagsRule) : String := ""

/-- The receiver as the rule value handed to EmitIssue. -/
def AwsEmrClusterTagsRule.asRule (r : AwsEmrClusterTagsRule) : tflint.Rule :=
  { Name := r.Name, Enabled := r.Enabled, Severity := r.Severity, Link := r.Link }

/-- The function literal that Check passes to WalkResourceAttributes. -/
def AwsEmrClusterTagsRule.callback (r : AwsEmrClusterTagsRule)
    (runner : tflint.Runner) (attr : hcl.Attribute) : tflint.Runner × Option tflint.Error :=
  let (resourceTags, err) := runner.EvaluateExpr attr.Expr
  let tags := resourceTags.foldl (fun tags kv => tags ++ [kv.1]) []
  runner.EnsureNoError err fun runner =>
    let configTags := runner.GetConfigTags
    let hash := tags.foldl (fun hash k => hash.set k true) BoolMap.make
    let found := configTags.foldl
      (fun found tag => if hash.ok tag then found ++ [tag] else found) []
    if found.length ≠ configTags.length then
      let wanted := strings.Join (sort.StringSlice configTags) ","
      let found := strings.Join (sort.StringSlice tags) ","
      (runner.EmitIssue r.asRule (wantedFoundMessage wanted found) attr.Expr.Range, none)
    else
      (runner, none)

/-- Check checks for matching tags. -/
def AwsEmrClusterTagsRule.Check (r : AwsEmrClusterTagsRule)
    (runner : tflint.Runner) : tflint.Runner × Option tflint.Error :=
  runner.WalkResourceAttributes r.resourceType r.attributeName r.callback

/-- The rule as an entry of the catalog. -/
def AwsEmrClusterTagsRule.entry (r : AwsEmrClusterTagsRule) : TagsRule :=
  { resourceType := r.resourceType, attributeName := r.attributeName, rule := r.asRule,
    callback := r.callback, Check := r.Check }

/-! ### aws_resource_tags_aws_glacier_vault.go -/

/-- Checks whether the resource is tagged correctly. -/
structure AwsGlacierVaultTagsRule where
  resourceType : String
  attributeName : String
  deriving DecidableEq, Repr

/-- Returns new tags rule with default attributes. -/
def NewAwsGlacierVaultTagsRule : AwsGlacierVaultTagsRule :=
  { resourceType := "aws_glacier_vault", attributeName := "tags" }

/-- Name returns the rule name. -/
def AwsGlacierVaultTagsRule.Name (_r : AwsGlacierVaultTagsRule) : String :=
  "aws_resource_tags_aws_glacier_vault"

/-- Enabled returns whether the rule is enabled by default. -/
def AwsGlacierVaultTagsRule.Enabled (_r : AwsGlacierVaultTagsRule) : Bool := true

/-- Severity returns the rule severity. -/
def AwsGlacierVaultTagsRule.Severity (_r : AwsGlacierVaultTagsRule) : String := tflint.ERROR

/-- Link returns the rule reference link. -/
def AwsGlacierVaultTagsRule.Link (_r : AwsGlacierVaultTagsRule) : String := ""

/-- The receiver as the rule value handed to EmitIssue. -/
def AwsGlacierVaultTagsRule.asRule (r : AwsGlacierVaultTagsRule) : tflint.Rule :=
  { Name := r.Name, Enabled := r.Enabled, Severity := r.Severity, Link := r.Link }

/-- The function literal that Check passes to WalkResourceAttributes. -/
def AwsGlacierVaultTagsRule.callback (r : AwsGlacierVaultTagsRule)
    (runner : tflint.Runner) (attr : hcl.Attribute) : tflint.Runner × Option tflint.Error :=
  let (resourceTags, err) := runner.EvaluateExpr attr.Expr
  let tags := resourceTags.foldl (fun tags kv => tags ++ [kv.1]) []
  runner.EnsureNoError err fun runner =>
    let configTags := runner.GetConfigTags
    let hash := tags.foldl (fun hash k => hash.set k true) BoolMap.make
    let found := configTags.foldl
      (fun found tag => if hash.ok tag then found ++ [tag] else found) []
    if found.length ≠ configTags.length then
      let wanted := strings.Join (sort.StringSlice configTags) ","
      let found := strings.Join (sort.StringSlice tags) ","
      (runner.EmitIssue r.asRule (wantedFoundMessage wanted found) attr.Expr.Range, none)
    else
      (runner, none)

/-- Check checks for matching tags. -/
def AwsGlacierVaultTagsRule.Check (r : AwsGlacierVaultTagsRule)
    (runner : tflint.Runner) : tflint.Runner × Option tflint.Error :=
  runner.WalkResourceAttributes r.resourceType r.attributeName r.callback

/-- The rule as an entry of the catalog. -/
def AwsGlacierVaultTagsRule.entry (r : AwsGlacierVaultTagsRule) : TagsRule :=
  { resourceType := r.resourceType, attributeName := r.attributeName, rule := r.asRule,
    callback := r.callback, Check := r.Check }

/-! ### aws_resource_tags_aws_inspector_resource_group.go -/

/-- Checks whether the resource is tagged correctly. -/
structure AwsInspectorResourceGroupTagsRule where
  resourceType : String
  attributeName : String
  deriving DecidableEq, Repr

/-- Returns new tags rule with default attributes. -/
def NewAwsInspectorResourceGroupTagsRule : AwsInspectorResourceGroupTagsRule :=
  { resourceType := "aws_inspector_resource_group", attributeName := "tags" }

/-- Name returns the rule name. -/
def AwsInspectorResourceGroupTagsRule.Name (_r : AwsInspectorResourceGroupTagsRule) : String :=
  "aws_resource_tags_aws_inspector_resource_group"

/-- Enabled returns whether the rule is enabled by default. -/
def AwsInspectorResourceGroupTagsRule.Enabled (_r : AwsInspectorResourceGroupTagsRule) : Bool := true

/-- Severity returns the rule severity. -/
def AwsInspectorResourceGroupTagsRule.Severity (_r : AwsInspectorResourceGroupTagsRule) : String := tflint.ERROR

/-- Link returns the rule reference link. -/
def AwsInspectorResourceGroupTagsRule.Link (_r : AwsInspectorResourceGroupTagsRule) : String := ""

/-- The receiver as the rule value handed to EmitIssue. -/
def AwsInspectorResourceGroupTagsRule.asRule (r : AwsInspectorResourceGroupTagsRule) : tflint.Rule :=
  { Name := r.Name, Enabled := r.Enabled, Severity := r.Severity, Link := r.Link }

/-- The function literal that Check passes to WalkResourceAttributes. -/
def AwsInspectorResourceGroupTagsRule.callback (r : AwsInspectorResourceGroupTagsRule)
    (runner : tflint.Runner) (attr : hcl.Attribute) : tflint.Runner × Option tflint.Error :=
  let (resourceTags, err) := runner.EvaluateExpr attr.Expr
  let tags := resourceTags.foldl (fun tags kv => tags ++ [kv.1]) []
  runner.EnsureNoError err fun runner =>
    let configTags := runner.GetConfigTags
    let hash := tags.foldl (fun hash k => hash.set k true) BoolMap.make
    let found := configTags.foldl
      (fun found tag => if hash.ok tag then found ++ [tag] else found) []
    if found.length ≠ configTags.length then
      let wanted := strings.Join (sort.StringSlice configTags) ","
      let found := strings.Join (sort.StringSlice tags) ","
      (runner.EmitIssue r.asRule (wantedFoundMessage wanted found) attr.Expr.Range, none)
    else
      (runner, none)

/-- Check checks for matching tags. -/
def AwsInspectorResourceGroupTagsRule.Check (r : AwsInspectorResourceGroupTagsRule)
    (runner : tflint.Runner) : tflint.Runner × Option tflint.Error :=
  runner.WalkResourceAttributes r.resourceType r.attributeName r.callback

/-- The rule as an entry of the catalog. -/
def AwsInspectorResourceGroupTagsRule.entry (r : AwsInspectorResourceGroupTagsRule) : TagsRule :=
  { resourceType := r.resourceType, attributeName := r.attributeName, rule := r.asRule,
    callback := r.callback, Check := r.Check }

/-! ### aws_resource_tags_aws_internet_gateway.go -/

/-- Checks whether the resource is tagged correctly. -/
structure AwsInternetGatewayTagsRule where
  resourceType : String
  attributeName : String
  deriving DecidableEq, Repr

/-- Returns new tags rule with default attributes. -/
def NewAwsInternetGatewayTagsRule : AwsInternetGatewayTagsRule :=
  { resourceType := "aws_internet_gateway", attributeName := "tags" }

/-- Name returns the rule name. -/
def AwsInternetGatewayTagsRule.Name (_r : AwsInternetGatewayTagsRule) : String :=
  "aws_resource_tags_aws_internet_gateway"

/-- Enabled returns whether the rule is enabled by default. -/
def AwsInternetGatewayTagsRule.Enabled (_r : AwsInternetGatewayTagsRule) : Bool := true

/-- Severity returns the rule severity. -/
def AwsInternetGatewayTagsRule.Severity (_r : AwsInternetGatewayTagsRule) : String := tflint.ERROR

/-- Link returns the rule reference link. -/
def AwsInternetGatewayTagsRule.Link (_r : AwsInternetGatewayTagsRule) : String := ""

/-- The receiver as the rule value handed to EmitIssue. -/
def AwsInternetGatewayTagsRule.asRule (r : AwsInternetGatewayTagsRule) : tflint.Rule :=
  { Name := r.Name, Enabled := r.Enabled, Severity := r.Severity, Link := r.Link }

/-- The function literal that Check passes to WalkResourceAttributes. -/
def AwsInternetGatewayTagsRule.callback (r : AwsInternetGatewayTagsRule)
    (runner : tflint.Runner) (attr : hcl.Attribute) : tflint.Runner × Option tflint.Error :=
  let (resourceTags, err) := runner.EvaluateExpr attr.Expr
  let tags := resourceTags.foldl (fun tags kv => tags ++ [kv.1]) []
  runner.EnsureNoError err fun runner =>
    let configTags := runner.GetConfigTags
    let hash := tags.foldl (fun hash k => hash.set k true) BoolMap.make
    let found := configTags.foldl
      (fun found tag => if hash.ok tag then found ++ [tag] else found) []
    if found.length ≠ configTags.length then
      let wanted := strings.Join (sort.StringSlice configTags) ","
      let found := strings.Join (sort.StringSlice tags) ","
      (runner.EmitIssue r.asRule (wantedFoundMessage wanted found) attr.Expr.Range, none)
    else
      (runner, none)

/-- Check checks for matching tags. -/
def AwsInternetGatewayTagsRule.Check (r : AwsInternetGatewayTagsRule)
    (runner : tflint.Runner) : tflint.Runner × Option tflint.Error :=
  runner.WalkResourceAttributes r.resourceType r.attributeName r.callback

/-- The rule as an entry of the catalog. -/
def AwsInternetGatewayTagsRule.entry (r : AwsInternetGatewayTagsRule) : TagsRule :=
  { resourceType := r.resourceType, attributeName := r.attributeName, rule := r.asRule,
    callback := r.callback, Check := r.Check }

/-! ### aws_resource_tags_aws_lb_target_group.go -/

/-- Checks whether the resource is tagged correctly. -/
structure AwsLbTargetGroupTagsRule where
  resourceType : String
  attributeName : String
  deriving DecidableEq, Repr

/-- Returns new tags rule with default attributes. -/
def NewAwsLbTargetGroupTagsRule : AwsLbTargetGroupTagsRule :=
  { resourceType := "aws_lb_target_group", attributeName := "tags" }

/-- Name returns the rule name. -/
def AwsLbTargetGroupTagsRule.Name (_r : AwsLbTargetGroupTagsRule) : String :=
  "aws_resource_tags_aws_lb_target_group"

/-- Enabled returns whether the rule is enabled by default. -/
def AwsLbTargetGroupTagsRule.Enabled (_r : AwsLbTargetGroupTagsRule) : Bool := true

/-- Severity returns the rule severity. -/
def AwsLbTargetGroupTagsRule.Severity (_r : AwsLbTargetGroupTagsRule) : String := tflint.ERROR

/-- Link returns the rule reference link. -/
def AwsLbTargetGroupTagsRule.Link (_r : AwsLbTargetGroupTagsRule) : String := ""

/-- The receiver as the rule value handed to EmitIssue. -/
def AwsLbTargetGroupTagsRule.asRule (r : AwsLbTargetGroupTagsRule) : tflint.Rule :=
  { Name := r.Name, Enabled := r.Enabled, Severity := r.Severity, Link := r.Link }

/-- The function literal that Check passes to WalkResourceAttributes. -/
def AwsLbTargetGroupTagsRule.callback (r : AwsLbTargetGroupTagsRule)
    (runner : tflint.Runner) (attr : hcl.Attribute) : tflint.Runner × Option tflint.Error :=
  let (resourceTags, err) := runner.EvaluateExpr attr.Expr
  let tags := resourceTags.foldl (fun tags kv => tags ++ [kv.1]) []
  runner.EnsureNoError err fun runner =>
    let configTags := runner.GetConfigTags
    let hash := tags.foldl (fun hash k => hash.set k true) BoolMap.make
    let found := configTags.foldl
      (fun found tag => if hash.ok tag then found ++ [tag] else found) []
    if found.length ≠ configTags.length then
      let wanted := strings.Join (sort.StringSlice configTags) ","
      let found := strings.Join (sort.StringSlice tags) ","
      (runner.EmitIssue r.asRule (wantedFoundMessage wanted found) attr.Expr.Range, none)
    else
      (runner, none)

/-- Check checks for matching tags. -/
def AwsLbTargetGroupTagsRule.Check (r : AwsLbTargetGroupTagsRule)
    (runner : tflint.Runner) : tflint.Runner × Option tflint.Error :=
  runner.WalkResourceAttributes r.resourceType r.attributeName r.callback

/-- The rule as an entry of the catalog. -/
def AwsLbTargetGroupTagsRule.entry (r : AwsLbTargetGroupTagsRule) : TagsRule :=
  { resourceType := r.resourceType, attributeName := r.attributeName, rule := r.asRule,
    callback := r.callback, Check := r.Check }

/-! ### aws_resource_tags_aws_neptune_cluster_instance.go -/

/-- Checks whether the resource is tagged correctly. -/
structure AwsNeptuneClusterInstanceTagsRule where
  resourceType : String
  attributeName : String
  deriving DecidableEq, Repr

/-- Returns new tags rule with default attributes. -/
def NewAwsNeptuneClusterInstanceTagsRule : AwsNeptuneClusterInstanceTagsRule :=
  { resourceType := "aws_neptune_cluster_instance", attributeName := "tags" }

/-- Name returns the rule name. -/
def AwsNeptuneClusterInstanceTagsRule.Name (_r : AwsNeptuneClusterInstanceTagsRule) : String :=
  "aws_resource_tags_aws_neptune_cluster_instance"

/-- Enabled returns whether the rule is enabled by default. -/
def AwsNeptuneClusterInstanceTagsRule.Enabled (_r : AwsNeptuneClusterInstanceTagsRule) : Bool := true

/-- Severity returns the rule severity. -/
def AwsNeptuneClusterInstanceTagsRule.Severity (_r : AwsNeptuneClusterInstanceTagsRule) : String := tflint.ERROR

/-- Link returns the rule reference link. -/
def AwsNeptuneClusterInstanceTagsRule.Link (_r : AwsNeptuneClusterInstanceTagsRule) : String := ""

/-- The receiver as the rule value handed to EmitIssue. -/
def AwsNeptuneClusterInstanceTagsRule.asRule (r : AwsNeptuneClusterInstanceTagsRule) : tflint.Rule :=
  { Name := r.Name, Enabled := r.Enabled, Severity := r.Severity, Link := r.Link }

/-- The function literal that Check passes to WalkResourceAttributes. -/
def AwsNeptuneClusterInstanceTagsRule.callback (r : AwsNeptuneClusterInstanceTagsRule)
    (runner : tflint.Runner) (attr : hcl.Attribute) : tflint.Runner × Option tflint.Error :=
  let (resourceTags, err) := runner.EvaluateExpr attr.Expr
  let tags := resourceTags.foldl (fun tags kv => tags ++ [kv.1]) []
  runner.EnsureNoError err fun runner =>
    let configTags := runner.GetConfigTags
    let hash := tags.foldl (fun hash k => hash.set k true) BoolMap.make
    let found := configTags.foldl
      (fun found tag => if hash.ok tag then found ++ [tag] else found) []
    if found.length ≠ configTags.length then
      let wanted := strings.Join (sort.StringSlice configTags) ","
      let found := strings.Join (sort.StringSlice tags) ","
      (runner.EmitIssue r.asRule (wantedFoundMessage wanted found) attr.Expr.Range, none)
    else
      (runner, none)

/-- Check checks for matching tags. -/
def AwsNeptuneClusterInstanceTagsRule.Check (r : AwsNeptuneClusterInstanceTagsRule)
    (runner : tflint.Runner) : tflint.Runner × Option tflint.Error :=
  runner.WalkResourceAttributes r.resourceType r.attributeName r.callback

/-- The rule as an entry of the catalog. -/
def AwsNeptuneClusterInstanceTagsRule.entry (r : AwsNeptuneClusterInstanceTagsRule) : TagsRule :=
  { resourceType := r.resourceType, attributeName := r.attributeName, rule := r.asRule,
    callback := r.callback, Check := r.Check }

/-! ### aws_resource_tags_aws_rds_cluster.go -/

/-- Checks whether the resource is tagged correctly. -/
structure AwsRdsClusterTagsRule where
  resourceType : String
  attributeName : String
  deriving DecidableEq, Repr

/-- Returns new tags rule with default attributes. -/
def NewAwsRdsClusterTagsRule : AwsRdsClusterTagsRule :=
  { resourceType := "aws_rds_cluster", attributeName := "tags" }

/-- Name returns the rule name. -/
def AwsRdsClusterTagsRule.Name (_r : AwsRdsClusterTagsRule) : String :=
  "aws_resource_tags_aws_rds_cluster"

/-- Enabled returns whether the rule is enabled by default. -/
def AwsRdsClusterTagsRule.Enabled (_r : AwsRdsClusterTagsRule) : Bool := true

/-- Severity returns the rule severity. -/
def AwsRdsClusterTagsRule.Severity (_r : AwsRdsClusterTagsRule) : String := tflint.ERROR

/-- Link returns the rule reference link. -/
def AwsRdsClusterTagsRule.Link (_r : AwsRdsClusterTagsRule) : String := ""

/-- The receiver as the rule value handed to EmitIssue. -/
def AwsRdsClusterTagsRule.asRule (r : AwsRdsClusterTagsRule) : tflint.Rule :=
  { Name := r.Name, Enabled := r.Enabled, Severity := r.Severity, Link := r.Link }

/-- The function literal that Check passes to WalkResourceAttributes. -/
def AwsRdsClusterTagsRule.callback (r : AwsRdsClusterTagsRule)
    (runner : tflint.Runner) (attr : hcl.Attribute) : tflint.Runner × Option tflint.Error :=
  let (resourceTags, err) := runner.EvaluateExpr attr.Expr
  let tags := resourceTags.foldl (fun tags kv => tags ++ [kv.1]) []
  runner.EnsureNoError err fun runner =>
    let configTags := runner.GetConfigTags
    let hash := tags.foldl (fun hash k => hash.set k true) BoolMap.make
    let found := configTags.foldl
      (fun found tag => if hash.ok tag then found ++ [tag] else found) []
    if found.length ≠ configTags.length then
      let wanted := strings.Join (sort.StringSlice configTags) ","
      let found := strings.Join (sort.StringSlice tags) ","
      (runner.EmitIssue r.asRule (wantedFoundMessage wanted found) attr.Expr.Range, none)
    else
      (runner, none)

/-- Check checks for matching tags. -/
def AwsRdsClusterTagsRule.Check (r : AwsRdsClusterTagsRule)
    (runner : tflint.Runner) : tflint.Runner × Option tflint.Error :=
  runner.WalkResourceAttributes r.resourceType r.attributeName r.callback

/-- The rule as an entry of the catalog. -/
def AwsRdsClusterTagsRule.entry (r : AwsRdsClusterTagsRule) : TagsRule :=
  { resourceType := r.resourceType, attributeName := r.attributeName, rule := r.asRule,
    callback := r.callback, Check := r.Check }

/-! ### aws_resource_tags_aws_ssm_parameter.go -/

/-- Checks whether the resource is tagged correctly. -/
structure AwsSsmParameterTagsRule where
  resourceType : String
  attributeName : String
  deriving DecidableEq, Repr

/-- Returns new tags rule with default attributes. -/
def NewAwsSsmParameterTagsRule : AwsSsmParameterTagsRule :=
  { resourceType := "aws_ssm_parameter", attributeName := "tags" }

/-- Name returns the rule name. -/
def AwsSsmParameterTagsRule.Name (_r : AwsSsmParameterTagsRule) : String :=
  "aws_resource_tags_aws_ssm_parameter"

/-- Enabled returns whether the rule is enabled by default. -/
def AwsSsmParameterTagsRule.Enabled (_r : AwsSsmParameterTagsRule) : Bool := true

/-- Severity returns the rule severity. -/
def AwsSsmParameterTagsRule.Severity (_r : AwsSsmParameterTagsRule) : String := tflint.ERROR

/-- Link returns the rule reference link. -/
def AwsSsmParameterTagsRule.Link (_r : AwsSsmParameterTagsRule) : String := ""

/-- The receiver as the rule value handed to EmitIssue. -/
def AwsSsmParameterTagsRule.asRule (r : AwsSsmParameterTagsRule) : tflint.Rule :=
  { Name := r.Name, Enabled := r.Enabled, Severity := r.Severity, Link := r.Link }

/-- The function literal that Check passes to WalkResourceAttributes. -/
def AwsSsmParameterTagsRule.callback (r : AwsSsmParameterTagsRule)
    (runner : tflint.Runner) (attr : hcl.Attribute) : tflint.Runner × Option tflint.Error :=
  let (resourceTags, err) := runner.EvaluateExpr attr.Expr
  let tags := resourceTags.foldl (fun tags kv => tags ++ [kv.1]) []
  runner.EnsureNoError err fun runner =>
    let configTags := runner.GetConfigTags
    let hash := tags.foldl (fun hash k => hash.set k true) BoolMap.make
    let found := configTags.foldl
      (fun found tag => if hash.ok tag then found ++ [tag] else found) []
    if found.length ≠ configTags.length then
      let wanted := strings.Join (sort.StringSlice configTags) ","
      let found := strings.Join (sort.StringSlice tags) ","
      (runner.EmitIssue r.asRule (wantedFoundMessage wanted found) attr.Expr.Range, none)
    else
      (runner, none)

/-- Check checks for matching tags. -/
def AwsSsmParameterTagsRule.Check (r : AwsSsmParameterTagsRule)
    (runner : tflint.Runner) : tflint.Runner × Option tflint.Error :=
  runner.WalkResourceAttributes r.resourceType r.attributeName r.callback

/-- The rule as an entry of the catalog. -/
def AwsSsmParameterTagsRule.entry (r : AwsSsmParameterTagsRule) : TagsRule :=
  { resourceType := r.resourceType, attributeName := r.attributeName, rule := r.asRule,
    callback := r.callback, Check := r.Check }

/-! ### aws_resource_tags_aws_workspaces_ip_group.go -/

/-- Checks whether the resource is tagged correctly. -/
structure AwsWorkspacesIPGroupTagsRule where
  resourceType : String
  attributeName : String
  deriving DecidableEq, Repr

/-- Returns new tags rule with default attributes. -/
def NewAwsWorkspacesIPGroupTagsRule : AwsWorkspacesIPGroupTagsRule :=
  { resourceType := "aws_workspaces_ip_group", attributeName := "tags" }

/-- Name returns the rule name. -/
def AwsWorkspacesIPGroupTagsRule.Name (_r : AwsWorkspacesIPGroupTagsRule) : String :=
  "aws_resource_tags_aws_workspaces_ip_group"

/-- Enabled returns whether the rule is enabled by default. -/
def AwsWorkspacesIPGroupTagsRule.Enabled (_r : AwsWorkspacesIPGroupTagsRule) : Bool := true

/-- Severity returns the rule severity. -/
def AwsWorkspacesIPGroupTagsRule.Severity (_r : AwsWorkspacesIPGroupTagsRule) : String := tflint.ERROR

/-- Link returns the rule reference link. -/
def AwsWorkspacesIPGroupTagsRule.Link (_r : AwsWorkspacesIPGroupTagsRule) : String := ""

/-- The receiver as the rule value handed to EmitIssue. -/
def AwsWorkspacesIPGroupTagsRule.asRule (r : AwsWorkspacesIPGroupTagsRule) : tflint.Rule :=
  { Name := r.Name, Enabled := r.Enabled, Severity := r.Severity, Link := r.Link }

/-- The function literal that Check passes to WalkResourceAttributes. -/
def AwsWorkspacesIPGroupTagsRule.callback (r : AwsWorkspacesIPGroupTagsRule)
    (runner : tflint.Runner) (attr : hcl.Attribute) : tflint.Runner × Option tflint.Error :=
  let (resourceTags, err) := runner.EvaluateExpr attr.Expr
  let tags := resourceTags.foldl (fun tags kv => tags ++ [kv.1]) []
  runner.EnsureNoError err fun runner =>
    let configTags := runner.GetConfigTags
    let hash := tags.foldl (fun hash k => hash.set k true) BoolMap.make
    let found := configTags.foldl
      (fun found tag => if hash.ok tag then found ++ [tag] else found) []
    if found.length ≠ configTags.length then
      let wanted := strings.Join (sort.StringSlice configTags) ","
      let found := strings.Join (sort.StringSlice tags) ","
      (runner.EmitIssue r.asRule (wantedFoundMessage wanted found) attr.Expr.Range, none)
    else
      (runner, none)

/-- Check checks for matching tags. -/
def AwsWorkspacesIPGroupTagsRule.Check (r : AwsWorkspacesIPGroupTagsRule)
    (runner : tflint.Runner) : tflint.Runner × Option tflint.Error :=
  runner.WalkResourceAttributes r.resourceType r.attributeName r.callback

/-- The rule as an entry of the catalog. -/
def AwsWorkspacesIPGroupTagsRule.entry (r : AwsWorkspacesIPGroupTagsRule) : TagsRule :=
  { resourceType := r.resourceType, attributeName := r.attributeName, rule := r.asRule,
    callback := r.callback, Check := r.Check }

/-- The tags rules of rules/awsrules/tags, each built by its constructor. -/
def catalog : List TagsRule :=
  [NewAwsAutoscalingGroupTagsRule.entry,
   NewAwsCloudformationStackTagsRule.entry,
   NewAwsDBEventSubscriptionTagsRule.entry,
   NewAwsDBSnapshotTagsRule.entry,
   NewAwsDefaultRouteTableTagsRule.entry,
   NewAwsDmsEndpointTagsRule.entry,
   NewAwsDynamoDBTableTagsRule.entry,
   NewAwsElastiCacheClusterTagsRule.entry,
   NewAwsEmrClusterTagsRule.entry,
   NewAwsGlacierVaultTagsRule.entry,
   NewAwsInspectorResourceGroupTagsRule.entry,
   NewAwsInternetGatewayTagsRule.entry,
   NewAwsLbTargetGroupTagsRule.entry,
   NewAwsNeptuneClusterInstanceTagsRule.entry,
   NewAwsRdsClusterTagsRule.entry,
   NewAwsSsmParameterTagsRule.entry,
   NewAwsWorkspacesIPGroupTagsRule.entry]

/-- The generic required-tags rule of the design notes, its callback: the rule
value reported to EmitIssue is a parameter instead of a receiver. -/
def genericCallback (rule : tflint.Rule)
    (runner : tflint.Runner) (attr : hcl.Attribute) : tflint.Runner × Option tflint.Error :=
  let (resourceTags, err) := runner.EvaluateExpr attr.Expr
  let tags := resourceTags.foldl (fun tags kv => tags ++ [kv.1]) []
  runner.EnsureNoError err fun runner =>
    let configTags := runner.GetConfigTags
    let hash := tags.foldl (fun hash k => hash.set k true) BoolMap.make
    let found := configTags.foldl
      (fun found tag => if hash.ok tag then found ++ [tag] else found) []
    if found.length ≠ configTags.length then
      let wanted := strings.Join (sort.StringSlice configTags) ","
      let found := strings.Join (sort.StringSlice tags) ","
      (runner.EmitIssue rule (wantedFoundMessage wanted found) attr.Expr.Range, none)
    else
      (runner, none)

/-- The generic required-tags rule of the design notes, parameterised by
resource type and attribute name: exactly one WalkResourceAttributes call. -/
def genericCheck (rule : tflint.Rule) (resourceType attributeName : String)
    (runner : tflint.Runner) : tflint.Runner × Option tflint.Error :=
  runner.WalkResourceAttributes resourceType attributeName (genericCallback rule)

/-- The keys of a Go map, in enumeration order. -/
def keysOf (m : StringMap) : List String := m.map Prod.fst

end tags

/-! ## The hcl library: range operations and the range scanner -/

/-- A Go byte slice that is not nil; bytes are natural numbers below 256. -/
abbrev Bytes := List Nat

/-- A Go `map[string][]byte`, given by its entries in enumeration order; the
value `none` is the nil slice. -/
abbrev Sources := List (String × Option Bytes)

/-- The index expression `sources[filename]`: nil when the key is absent. -/
def Sources.get (sources : Sources) (filename : String) : Option Bytes :=
  match sources.lookup filename with
  | some src => src
  | none => none

namespace hcl

/-- The method `Range.Empty`. -/
def Range.Empty (r : Range) : Bool := r.Start.Byte == r.End.Byte

/-- The method `Range.ContainsOffset`. -/
def Range.ContainsOffset (r : Range) (offset : Int) : Bool :=
  decide (offset ≥ r.Start.Byte) && decide (offset < r.End.Byte)

/-- The method `Range.Overlaps`. -/
def Range.Overlaps (r other : Range) : Bool :=
  if r.Filename ≠ other.Filename then false
  else if r.Empty || other.Empty then false
  else if r.ContainsOffset other.Start.Byte || r.ContainsOffset other.End.Byte then true
  else if other.ContainsOffset r.Start.Byte || other.ContainsOffset r.End.Byte then true
  else false

/-- The method `Range.Overlap`. -/
def Range.Overlap (r other : Range) : Range :=
  if !r.Overlaps other then
    { Filename := r.Filename, Start := r.Start, End := r.Start }
  else
    let start := if r.Start.Byte > other.Start.Byte then r.Start else other.Start
    let stop := if r.End.Byte < other.End.Byte then r.End else other.End
    { Filename := r.Filename, Start := start, End := stop }

/-- The method `Range.PartitionAround`. -/
def Range.PartitionAround (r other : Range) : Range × Range × Range :=
  let overlap := r.Overlap other
  if overlap.Empty then (overlap, overlap, overlap)
  else
    ({ Filename := r.Filename, Start := r.Start, End := overlap.Start },
     overlap,
     { Filename := r.Filename, Start := overlap.End, End := r.End })

/-- A byte offset clamped to the bounds of a buffer of the given length. -/
def clampOffset (offset : Int) (len : Nat) : Nat :=
  if offset < 0 then 0 else if offset > len then len else offset.toNat

/-- The method `Range.SliceBytes`. -/
def Range.SliceBytes (r : Range) (b : Bytes) : Bytes :=
  let start := clampOffset r.Start.Byte b.length
  let stop := clampOffset r.End.Byte b.length
  let stop := if stop < start then start else stop
  (b.drop start).take (stop - start)

/-- The two ranges have a byte in common: each holds a byte and each starts
before the other ends. -/
def Range.sharesByte (r other : Range) : Bool :=
  decide (r.Start.Byte < r.End.Byte ∧ other.Start.Byte < other.End.Byte ∧
    other.Start.Byte < r.End.Byte ∧ r.Start.Byte < other.End.Byte)

/-- The two ranges touch: each holds a byte and one starts at the byte where the
other ends. -/
def Range.touches (r other : Range) : Bool :=
  decide (r.Start.Byte < r.End.Byte ∧ other.Start.Byte < other.End.Byte ∧
    (other.End.Byte = r.Start.Byte ∨ other.Start.Byte = r.End.Byte))

/-- The value `hcl.InitialPos`. -/
def InitialPos : Pos := { Byte := 0, Line := 1, Column := 1 }

/-- The split function `bufio.ScanLines` applied repeatedly to a whole buffer:
the successive stretches it advances over, each a line with its newline (byte
10) if it has one. -/
def advances : Bytes → List Bytes
  | [] => []
  | c :: rest =>
    if c = 10 then [c] :: advances rest
    else
      match advances rest with
      | [] => [[c]]
      | line :: lines => (c :: line) :: lines

/-- The function `dropCR` of bufio: drops one trailing carriage return. -/
def dropCR (data : Bytes) : Bytes :=
  if data.getLast? = some 13 then data.dropLast else data

/-- The token `bufio.ScanLines` returns for one stretch: the line without its
newline and without one trailing carriage return. -/
def lineToken (adv : Bytes) : Bytes :=
  dropCR (if adv.getLast? = some 10 then adv.dropLast else adv)

/-- The loop of `RangeScanner.Scan` over the stretch advanced over: every
grapheme cluster moves the new position, a cluster that starts with a carriage
return or newline starts a new line, and the end marker follows while the token
is not exhausted.  A carriage return followed by a newline is one cluster;
every other byte is counted as a cluster of its own (the segmentation of
package textseg is not modelled; it changes columns only, which the formatter
never reads from a scanned range). -/
def scanClusters (tokenLen : Nat) : Bytes → Nat → Pos → Pos → Pos × Pos
  | [], _, stop, new => (stop, new)
  | 13 :: 10 :: rest, advanced, stop, new =>
    let new := { new with Byte := new.Byte + 2, Column := 1, Line := new.Line + 1 }
    let stop := if advanced < tokenLen then new else stop
    scanClusters tokenLen rest (advanced + 2) stop new
  | c :: rest, advanced, stop, new =>
    let new := { new with Byte := new.Byte + 1, Column := new.Column + 1 }
    let new := if c = 13 ∨ c = 10 then { new with Column := 1, Line := new.Line + 1 } else new
    let stop := if advanced < tokenLen then new else stop
    scanClusters tokenLen rest (advanced + 1) stop new

/-- The successive values of `sc.Range()` and `sc.Bytes()` of a range scanner
over the given stretches, starting at `pos`. -/
def scanFrom (filename : String) : List Bytes → Pos → List (Range × Bytes)
  | [], _ => []
  | adv :: rest, pos =>
    let token := lineToken adv
    let (stop, new) := scanClusters token.length adv 0 pos pos
    ({ Filename := filename, Start := pos, End := stop }, token) :: scanFrom filename rest new

/-- The iterations of `for sc.Scan()` for
`sc := hcl.NewRangeScanner(src, filename, bufio.ScanLines)`, each with its
`sc.Range()` and `sc.Bytes()`. -/
def scanLines (src : Bytes) (filename : String) : List (Range × Bytes) :=
  scanFrom filename (advances src) InitialPos

/-- A parsed file as `hclparse` returns it; only its source bytes are kept. -/
structure File where
  Bytes : Option Bytes
  deriving DecidableEq, Repr

end hcl

namespace hclparse

/-- The parser `hclparse.NewParser()` returns (an external library): its two
parse methods. -/
structure Parser where
  ParseJSON : Option Bytes → String → hcl.File × hcl.Diagnostics
  ParseHCL : Option Bytes → String → hcl.File × hcl.Diagnostics

end hclparse

/-! ## formatter/pretty.go -/

namespace issue

/-- Modelled from the spec: the severity constants of package issue (declared
outside src); section 6 names them `ERROR | WARNING | NOTICE`. -/
def ERROR : String := "ERROR"

/-- Modelled from the spec: see `issue.ERROR`. -/
def WARNING : String := "WARNING"

/-- Modelled from the spec: see `issue.ERROR`. -/
def NOTICE : String := "NOTICE"

end issue

namespace tflint

/-- Modelled from the spec: the accessor `Type` through which pretty.go reads
the severity of the rule of an issue (section 6 calls it Severity). -/
def Rule.Type (r : Rule) : String := r.Severity

/-- Modelled from the spec: the comparison behind `Issues.Sort` (outside src).
Sort key of section 4.4: filename, then start line, then start column, then
rule name.  Strings compare as Go compares them, lexicographically. -/
def Issue.less (a b : Issue) : Bool :=
  if a.Range.Filename ≠ b.Range.Filename then
    decide (a.Range.Filename.toList < b.Range.Filename.toList)
  else if a.Range.Start.Line ≠ b.Range.Start.Line then
    decide (a.Range.Start.Line < b.Range.Start.Line)
  else if a.Range.Start.Column ≠ b.Range.Start.Column then
    decide (a.Range.Start.Column < b.Range.Start.Column)
  else decide (a.Rule.Name.toList < b.Rule.Name.toList)

/-- The sort key of section 4.4 as a tuple in lexicographic order. -/
def Issue.sortKey (a : Issue) : String ×ₗ Int ×ₗ Int ×ₗ String :=
  toLex (a.Range.Filename, toLex (a.Range.Start.Line, toLex (a.Range.Start.Column, a.Rule.Name)))

/-- Modelled from the spec: `Issues.Sort` (outside src) returns the issues in
the stable total order of section 4.4; issues that agree on the sort key keep
their relative order. -/
def Issues.Sort (issues : Issues) : Issues :=
  issues.insertionSort fun a b => b.less a = false

end tflint

namespace formatter

/-- The package-level colour functions of pretty.go (made by package color). -/
inductive ColorFunc where
  | colorBold
  | colorHighlight
  | colorError
  | colorWarning
  | colorNotice
  deriving DecidableEq, Repr

/-- An operand handed to package fmt. -/
inductive Arg where
  | str (s : String)
  | int (n : Int)
  | bytes (b : Bytes)
  | caller (c : tflint.Caller)
  | diagsError (d : hcl.Diagnostics)
  | colored (fn : ColorFunc) (a : Arg)
  deriving DecidableEq, Repr

/-- One call that writes to a stream. -/
inductive Write where
  | Fprintf (format : String) (args : List Arg)
  | Fprint (text : String)
  | Printf (format : String) (args : List Arg)
  | WriteDiagnostics (files : List (String × hcl.File)) (width : Nat) (color : Bool)
      (diags : hcl.Diagnostics)
  deriving DecidableEq, Repr

/-- The formatter: the calls made so far on its writers `Stdout` and `Stderr`,
oldest first, and on the standard logger of package log (`Log`). -/
structure Formatter where
  Stdout : List Write
  Stderr : List Write
  Log : List Write
  deriving DecidableEq, Repr

/-- A write call on `f.Stdout`. -/
def Formatter.out (f : Formatter) (w : Write) : Formatter :=
  { f with Stdout := f.Stdout ++ [w] }

/-- A write call on `f.Stderr`. -/
def Formatter.err (f : Formatter) (w : Write) : Formatter :=
  { f with Stderr := f.Stderr ++ [w] }

/-- A call of `log.Printf`. -/
def Formatter.log (f : Formatter) (w : Write) : Formatter :=
  { f with Log := f.Log ++ [w] }

/-- The function `colorSeverity`; `Except.error v` is `panic(v)`. -/
def colorSeverity (severity : String) : Except String Arg :=
  if severity = issue.ERROR then
    Except.ok (Arg.colored ColorFunc.colorError (Arg.str severity))
  else if severity = issue.WARNING then
    Except.ok (Arg.colored ColorFunc.colorWarning (Arg.str severity))
  else if severity = issue.NOTICE then
    Except.ok (Arg.colored ColorFunc.colorNotice (Arg.str severity))
  else
    Except.error "Unreachable"

/-- The body of the loop `for filename, src := range sources` of parseSources,
on the formatter and the map `ret` built so far. -/
def parseSource (parser : hclparse.Parser) (acc : Formatter × List (String × hcl.File))
    (entry : String × Option Bytes) : Formatter × List (String × hcl.File) :=
  let (f, ret) := acc
  let (filename, src) := entry
  let (file, diags) :=
    if filename.endsWith ".json" then parser.ParseJSON src filename
    else parser.ParseHCL src filename
  let f :=
    if diags.HasErrors then
      f.log (Write.Printf
        "[WARN] Failed to parse %s. This file is not available in output. Reason: %s"
        [Arg.str filename, Arg.diagsError diags])
    else f
  (f, (ret.filter fun kv => kv.1 ≠ filename) ++ [(filename, file)])

/-- The function `parseSources`: the map returned, in the order the entries
were stored, after the calls of `log.Printf`. -/
def parseSources (parser : hclparse.Parser) (f : Formatter) (sources : Sources) :
    Formatter × List (String × hcl.File) :=
  sources.foldl (parseSource parser) (f, [])

/-- The value of the panic of a method call on a nil interface. -/
def nilDereference : String := "runtime error: invalid memory address or nil pointer dereference"

/-- The method `Formatter.printErrors`; the second component is the value of a
panic, if the call panicked.  The type assertion `err.Cause.(hcl.Diagnostics)`
fails without a panic on a nil `Cause`; the call `err.Cause.Error()`, evaluated
as an operand of the second Fprintf of the else branch, panics on it. -/
def Formatter.printErrors (f : Formatter) (parser : hclparse.Parser) (err : tflint.Error)
    (sources : Sources) : Formatter × Option String :=
  match err.Cause with
  | tflint.Cause.Diagnostics diags =>
    let f := f.err (Write.Fprintf "%s. %d error(s) occurred:\n\n"
      [Arg.str err.Message, Arg.int diags.Errs.length])
    let (f, files) := parseSources parser f sources
    (f.err (Write.WriteDiagnostics files 0 true diags), none)
  | tflint.Cause.Other text =>
    let f := f.err (Write.Fprintf "%s. An error occurred:\n\n" [Arg.str err.Message])
    (f.err (Write.Fprintf "%s: %s\n\n"
      [Arg.colored ColorFunc.colorError (Arg.str "Error"), Arg.str text]), none)
  | tflint.Cause.Nil =>
    let f := f.err (Write.Fprintf "%s. An error occurred:\n\n" [Arg.str err.Message])
    (f, some nilDereference)

/-- The body of the loop `for sc.Scan()` of printIssueWithSource. -/
def printSourceLine (src : Bytes) (issueRange : hcl.Range) (f : Formatter)
    (sc : hcl.Range × Bytes) : Formatter :=
  let lineRange := sc.1
  if !lineRange.Overlaps issueRange then f
  else
    let (beforeRange, highlightedRange, afterRange) := lineRange.PartitionAround issueRange
    if highlightedRange.Empty then
      f.out (Write.Fprintf "%4d: %s\n" [Arg.int lineRange.Start.Line, Arg.bytes sc.2])
    else
      let before := beforeRange.SliceBytes src
      let highlighted := highlightedRange.SliceBytes src
      let after := afterRange.SliceBytes src
      f.out (Write.Fprintf "%4d: %s%s%s\n"
        [Arg.int lineRange.Start.Line, Arg.bytes before,
         Arg.colored ColorFunc.colorHighlight (Arg.bytes highlighted), Arg.bytes after])

/-- The method `Formatter.printIssueWithSource`; the second component is the
value of a panic, if the call panicked. -/
def Formatter.printIssueWithSource (f : Formatter) (issue : tflint.Issue) (sources : Sources) :
    Formatter × Option String :=
  match colorSeverity issue.Rule.Type with
  | Except.error v => (f, some v)
  | Except.ok severity =>
    let f := f.out (Write.Fprintf "%s: %s (%s)\n\n"
      [severity, Arg.colored ColorFunc.colorBold (Arg.str issue.Message),
       Arg.str issue.Rule.Name])
    let f := f.out (Write.Fprintf "  on %s line %d:\n"
      [Arg.str issue.Range.Filename, Arg.int issue.Range.Start.Line])
    let src := sources.get issue.Range.Filename
    let f :=
      match src with
      | none => f.out (Write.Fprintf "   (source code not available)" [])
      | some src =>
        (hcl.scanLines src issue.Range.Filename).foldl (printSourceLine src issue.Range) f
    let f :=
      if issue.Callers.length > 0 then
        issue.Callers.foldl
          (fun f caller => f.out (Write.Fprintf "   %s\n" [Arg.caller caller]))
          (f.out (Write.Fprint "\nCallers:\n"))
      else f
    let f :=
      if issue.Rule.Link ≠ "" then
        f.out (Write.Fprintf "\nReference: %s\n" [Arg.str issue.Rule.Link])
      else f
    (f.out (Write.Fprint "\n\n"), none)

/-- The loop `for _, issue := range issues.Sort()` of prettyPrint; a panic
ends it. -/
def printIssues (sources : Sources) : List tflint.Issue → Formatter → Formatter × Option String
  | [], f => (f, none)
  | issue :: rest, f =>
    match f.printIssueWithSource issue sources with
    | (f, some v) => (f, some v)
    | (f, none) => printIssues sources rest f

/-- The method `Formatter.prettyPrint`; the second component is the value of a
panic, if the call panicked. -/
def Formatter.prettyPrint (f : Formatter) (parser : hclparse.Parser) (issues : tflint.Issues)
    (err : Option tflint.Error) (sources : Sources) : Formatter × Option String :=
  let r :=
    if issues.length > 0 then
      let f := f.out (Write.Fprintf "%d issue(s) found:\n\n" [Arg.int issues.length])
      printIssues sources issues.Sort f
    else (f, none)
  match r with
  | (f, some v) => (f, some v)
  | (f, none) =>
    match err with
    | some e => f.printErrors parser e sources
    | none => (f, none)

/-- A formatter on which nothing has been written. -/
def Formatter.empty : Formatter := { Stdout := [], Stderr := [], Log := [] }

/-- Several write calls on `f.Stdout`, in order. -/
def Formatter.outs (f : Formatter) (ws : List Write) : Formatter :=
  { f with Stdout := f.Stdout ++ ws }

/-- The calls one iteration of the source loop makes on Stdout. -/
def lineWrites (src : Bytes) (issueRange : hcl.Range) (sc : hcl.Range × Bytes) : List Write :=
  (printSourceLine src issueRange Formatter.empty sc).Stdout

/-- The calls printIssueWithSource makes on Stdout for the source of an issue. -/
def sourceWrites (issue : tflint.Issue) (sources : Sources) : List Write :=
  match sources.get issue.Range.Filename with
  | none => [Write.Fprintf "   (source code not available)" []]
  | some src =>
    (hcl.scanLines src issue.Range.Filename).flatMap (lineWrites src issue.Range)

/-- The line printIssueWithSource writes for one caller. -/
def callerLine (caller : tflint.Caller) : Write :=
  Write.Fprintf "   %s\n" [Arg.caller caller]

/-- The calls printIssueWithSource makes on Stdout for one issue, from a
formatter on which nothing has been written: the block of the issue. -/
def issueBlock (sources : Sources) (issue : tflint.Issue) : List Write :=
  (Formatter.empty.printIssueWithSource issue sources).1.Stdout

/-- The header prettyPrint writes before the blocks of n issues. -/
def issuesHeader (n : Nat) : Write :=
  Write.Fprintf "%d issue(s) found:\n\n" [Arg.int n]

/-- The rule contract of section 6 on the severity of the rule of an issue. -/
def severityInContract (i : tflint.Issue) : Prop :=
  i.Rule.Type = issue.ERROR ∨ i.Rule.Type = issue.WARNING ∨ i.Rule.Type = issue.NOTICE

instance (i : tflint.Issue) : Decidable (severityInContract i) :=
  inferInstanceAs (Decidable (i.Rule.Type = issue.ERROR ∨ i.Rule.Type = issue.WARNING ∨
    i.Rule.Type = issue.NOTICE))

/-- The file parseSources stores for one source: the result of ParseJSON when
the filename ends with .json, of ParseHCL otherwise. -/
def parsedFile (parser : hclparse.Parser) (entry : String × Option Bytes) : hcl.File :=
  (if entry.1.endsWith ".json" then parser.ParseJSON entry.2 entry.1
    else parser.ParseHCL entry.2 entry.1).1

/-- The call `w` prints the scanned line `sc` of the source `src` for an issue
of range `issueRange`: when the line shares a byte with the range, as the three
slices before, highlighted and after, which together make up the bytes of the
line, the highlighted slice being the bytes of the source from the later of the
two starts to the earlier of the two ends; otherwise whole. -/
def printsLineAround (src : Bytes) (issueRange : hcl.Range) (sc : hcl.Range × Bytes)
    (w : Write) : Prop :=
  (sc.1.sharesByte issueRange = true ∧
    ∃ before highlighted after,
      w = Write.Fprintf "%4d: %s%s%s\n"
        [Arg.int sc.1.Start.Line, Arg.bytes before,
         Arg.colored ColorFunc.colorHighlight (Arg.bytes highlighted), Arg.bytes after] ∧
      before ++ highlighted ++ after = sc.2 ∧ highlighted ≠ [] ∧
      highlighted
        = (src.drop (max sc.1.Start.Byte issueRange.Start.Byte).toNat).take
            (min sc.1.End.Byte issueRange.End.Byte
              - max sc.1.Start.Byte issueRange.Start.Byte).toNat) ∨
  (sc.1.sharesByte issueRange = false ∧
    w = Write.Fprintf "%4d: %s\n" [Arg.int sc.1.Start.Line, Arg.bytes sc.2])

end formatter

/-! ## Sample inputs -/

namespace sample

/-- The range of a tags expression in main.tf. -/
def tagsRange : hcl.Range := ⟨"main.tf", ⟨2, 10, 42⟩, ⟨2, 22, 54⟩⟩

/-- A tags attribute whose expression evaluates without error to the map m. -/
def tagsAttr (m : StringMap) : hcl.Attribute := ⟨"tags", ⟨tagsRange, m, none⟩, tagsRange⟩

/-- A tags attribute whose expression fails to evaluate with the error e. -/
def failingAttr (e : tflint.Error) : hcl.Attribute := ⟨"tags", ⟨tagsRange, [], some e⟩, tagsRange⟩

/-- A runner with the configured tags c, positioned at the root module. -/
def runnerWith (c : List String) : tflint.Runner := ⟨c, [], [], []⟩

/-- The outcome of an expression known only after provisioning. -/
def unevaluable : tflint.Error :=
  ⟨tflint.ErrorKind.Unevaluable, "unknown value", tflint.Cause.Other "unknown"⟩

/-- A hard evaluation error. -/
def typeMismatch : tflint.Error :=
  ⟨tflint.ErrorKind.TypeMismatch, "map required", tflint.Cause.Other "wrong type"⟩

/-- An error whose Cause is nil. -/
def causeless : tflint.Error :=
  ⟨tflint.ErrorKind.ParseDiagnostic, "failed to load", tflint.Cause.Nil⟩

/-- The call of module a in the root module. -/
def callA : tflint.Caller := ⟨"module.a", ⟨"root.tf", ⟨1, 1, 0⟩, ⟨1, 11, 10⟩⟩⟩

/-- The call of module b in the root module. -/
def callB : tflint.Caller := ⟨"module.b", ⟨"root.tf", ⟨5, 1, 40⟩, ⟨5, 11, 50⟩⟩⟩

/-- The issue of AwsDBSnapshotTagsRule at the tags attribute of main.tf, found
in the module instance with the given caller chain. -/
def issueAt (callers : List tflint.Caller) : tflint.Issue :=
  { Rule := tags.NewAwsDBSnapshotTagsRule.asRule,
    Message := tags.wantedFoundMessage "Env" "Name",
    Range := tagsRange,
    Callers := callers }

/-- The issue found through the call of module a. -/
def issueA : tflint.Issue := issueAt [callA]

/-- The issue found through the call of module b of the same module. -/
def issueB : tflint.Issue := issueAt [callB]

/-- An issue of the same rule in another file, found in the root module. -/
def issueRoot : tflint.Issue :=
  { Rule := tags.NewAwsDBSnapshotTagsRule.asRule,
    Message := tags.wantedFoundMessage "Env" "",
    Range := ⟨"db.tf", ⟨1, 1, 0⟩, ⟨1, 5, 4⟩⟩,
    Callers := [] }

/-- An issue whose rule reports a severity other than ERROR, WARNING and
NOTICE, found through the call of module a. -/
def issueOutsideContract : tflint.Issue :=
  { Rule := ⟨"custom_rule", true, "FATAL", ""⟩,
    Message := "custom",
    Range := tagsRange,
    Callers := [callA] }

/-- An issue of AwsDBSnapshotTagsRule in main.tf whose range ends before it
starts (bytes 50 to 40). -/
def issueInverted : tflint.Issue :=
  { Rule := tags.NewAwsDBSnapshotTagsRule.asRule,
    Message := tags.wantedFoundMessage "Env" "Name",
    Range := ⟨"main.tf", ⟨2, 18, 50⟩, ⟨2, 8, 40⟩⟩,
    Callers := [] }

/-- An issue of AwsDBSnapshotTagsRule in main.tf whose range (bytes 20 to 33)
ends with the newline of line 1, at the byte where line 2 starts. -/
def issueAdjacent : tflint.Issue :=
  { Rule := tags.NewAwsDBSnapshotTagsRule.asRule,
    Message := tags.wantedFoundMessage "Env" "Name",
    Range := ⟨"main.tf", ⟨1, 21, 20⟩, ⟨2, 1, 33⟩⟩,
    Callers := [] }

/-- An issue of AwsDBSnapshotTagsRule in main.tf whose range (bytes 32 to 40)
starts with the newline of line 1, at the byte where line 1 ends. -/
def issueAtLineEnd : tflint.Issue :=
  { Rule := tags.NewAwsDBSnapshotTagsRule.asRule,
    Message := tags.wantedFoundMessage "Env" "Name",
    Range := ⟨"main.tf", ⟨1, 33, 32⟩, ⟨2, 8, 40⟩⟩,
    Callers := [] }

/-- The bytes of a text of ASCII characters. -/
def ascii (text : String) : Bytes := text.toList.map Char.toNat

/-- The sources: main.tf only. -/
def sources : Sources :=
  [("main.tf", some (ascii "resource \"aws_db_snapshot\" \"s\" \x7b\n  tags = \x7bName = \"x\"\x7d\n\x7d\n"))]

/-- Sources with a file in native syntax and a file in JSON syntax. -/
def mixedSources : Sources :=
  [("main.tf", some (ascii "a = 1\n")), ("vars.tf.json", some (ascii "\x7b\x7d\n"))]

/-- A parser that reports no diagnostics. -/
def parser : hclparse.Parser :=
  { ParseJSON := fun src _ => (⟨src⟩, []), ParseHCL := fun src _ => (⟨src⟩, []) }

end sample

/-! ## Theorems -/

namespace tags

/-! ### Loops of the callback -/

theorem foldl_append_keys (m : StringMap) (acc : List String) :
    m.foldl (fun tags kv => tags ++ [kv.1]) acc = acc ++ keysOf m := by
  induction m generalizing acc with
  | nil => simp [keysOf]
  | cons kv rest ih => simp [ih, keysOf]

theorem foldl_hash_ok (tags : List String) (hash : BoolMap) (t : String) :
    (tags.foldl (fun hash k => hash.set k true) hash).ok t = (hash.ok t || decide (t ∈ tags)) := by
  induction tags generalizing hash with
  | nil => simp
  | cons k rest ih =>
    simp only [List.foldl_cons, ih, List.mem_cons]
    by_cases h : t = k
    · simp [BoolMap.ok, BoolMap.set, h]
    · simp [BoolMap.ok, BoolMap.set, h]

theorem foldl_found (p : String → Bool) (c acc : List String) :
    c.foldl (fun found tag => if p tag then found ++ [tag] else found) acc
      = acc ++ c.filter p := by
  induction c generalizing acc with
  | nil => simp
  | cons t rest ih =>
    by_cases h : p t
    · simp [ih, h]
    · simp [ih, h]

theorem filter_length_eq_iff (p : String → Bool) (c : List String) :
    (c.filter p).length = c.length ↔ ∀ t ∈ c, p t = true := by
  constructor
  · intro h
    have h2 : c.filter p = c :=
      (List.filter_sublist c).eq_of_length h
    exact List.filter_eq_self.mp h2
  · intro h
    rw [List.filter_eq_self.mpr h]

/-- The callback in closed form: with the expression evaluated to the map
`m` and error `err`, nothing happens when every configured tag is a key of `m`,
and otherwise one issue is appended. -/
theorem genericCallback_eq (rule : tflint.Rule) (runner : tflint.Runner) (attr : hcl.Attribute) :
    genericCallback rule runner attr =
      runner.EnsureNoError attr.Expr.Err fun runner =>
        if ∀ t ∈ runner.ConfigTags, t ∈ keysOf attr.Expr.Decoded then (runner, none)
        else
          (runner.EmitIssue rule
            (wantedFoundMessage (strings.Join runner.ConfigTags ",")
              (strings.Join (keysOf attr.Expr.Decoded) ",")) attr.Expr.Range, none) := by
  unfold genericCallback
  simp only [tflint.Runner.EvaluateExpr, tflint.Runner.GetConfigTags, sort.StringSlice]
  congr 1
  funext runner
  have hfound : (List.foldl
      (fun found tag =>
        if (List.foldl (fun hash k => hash.set k true) BoolMap.make
            (List.foldl (fun tags kv => tags ++ [kv.1]) [] attr.Expr.Decoded)).ok tag = true
        then found ++ [tag] else found) [] runner.ConfigTags)
      = runner.ConfigTags.filter (fun t => decide (t ∈ keysOf attr.Expr.Decoded)) := by
    rw [foldl_found (fun tag => (List.foldl (fun hash k => hash.set k true) BoolMap.make
            (List.foldl (fun tags kv => tags ++ [kv.1]) [] attr.Expr.Decoded)).ok tag)]
    simp only [foldl_append_keys, List.nil_append, foldl_hash_ok]
    simp [BoolMap.ok, BoolMap.make]
  rw [hfound, foldl_append_keys]
  by_cases h : ∀ t ∈ runner.ConfigTags, t ∈ keysOf attr.Expr.Decoded
  · have := (filter_length_eq_iff (fun t => decide (t ∈ keysOf attr.Expr.Decoded))
      runner.ConfigTags).mpr (by simpa using h)
    rw [if_pos h]
    simp [this]
  · have : ¬ (runner.ConfigTags.filter
        (fun t => decide (t ∈ keysOf attr.Expr.Decoded))).length = runner.ConfigTags.length := by
      intro hlen
      exact h (by simpa using (filter_length_eq_iff _ _).mp hlen)
    rw [if_neg h]
    simp [this]

/-- Every rule of the catalog walks the attribute tags with the generic
callback under its own rule value. -/
theorem catalog_generic (R : TagsRule) (hR : R ∈ catalog) :
    R.attributeName = "tags" ∧ R.callback = genericCallback R.rule ∧
      R.Check = genericCheck R.rule R.resourceType R.attributeName := by
  simp only [catalog, List.mem_cons, List.mem_singleton, List.not_mem_nil, or_false] at hR
  rcases hR with rfl | rfl | rfl | rfl | rfl | rfl | rfl | rfl | rfl | rfl | rfl | rfl | rfl |
    rfl | rfl | rfl | rfl <;> exact ⟨rfl, rfl, rfl⟩

/-- The callback of a catalog rule in closed form. -/
theorem catalog_callback (R : TagsRule) (hR : R ∈ catalog) (runner : tflint.Runner)
    (attr : hcl.Attribute) :
    R.callback runner attr =
      runner.EnsureNoError attr.Expr.Err fun runner =>
        if ∀ t ∈ runner.ConfigTags, t ∈ keysOf attr.Expr.Decoded then (runner, none)
        else
          (runner.EmitIssue R.rule
            (wantedFoundMessage (strings.Join runner.ConfigTags ",")
              (strings.Join (keysOf attr.Expr.Decoded) ",")) attr.Expr.Range, none) := by
  rw [(catalog_generic R hR).2.1, genericCallback_eq]

/-! ### The tags rules -/

/-- C1: for every tags rule, configured tag list `c` and attribute occurrence
whose tags expression evaluates without error to the map `m`, the callback
returns nil, appends exactly one issue to the issues of the runner when some
element of `c` is not a key of `m`, and leaves the runner as it was (no issue)
when every element of `c` is a key of `m`. -/
theorem callback_one_issue_iff_tag_missing (R : TagsRule) (hR : R ∈ catalog)
    (runner : tflint.Runner) (attr : hcl.Attribute) (m : StringMap) (c : List String)
    (hm : runner.EvaluateExpr attr.Expr = (m, none)) (hc : runner.GetConfigTags = c) :
    (R.callback runner attr).2 = none ∧
    ((∃ t ∈ c, t ∉ keysOf m) →
      ∃ issue, (R.callback runner attr).1 = { runner with Issues := runner.Issues ++ [issue] }) ∧
    ((∀ t ∈ c, t ∈ keysOf m) → (R.callback runner attr).1 = runner) := by
  simp only [tflint.Runner.EvaluateExpr, Prod.mk.injEq] at hm
  obtain ⟨hdec, herr⟩ := hm
  simp only [tflint.Runner.GetConfigTags] at hc
  subst hc hdec
  rw [catalog_callback R hR, herr]
  simp only [tflint.Runner.EnsureNoError]
  by_cases h : ∀ t ∈ runner.ConfigTags, t ∈ keysOf attr.Expr.Decoded
  · rw [if_pos h]
    refine ⟨rfl, ?_, fun _ => rfl⟩
    rintro ⟨t, ht, hnot⟩
    exact absurd (h t ht) hnot
  · rw [if_neg h]
    refine ⟨rfl, fun _ => ⟨_, rfl⟩, fun hall => absurd hall h⟩

/-- C1, at the input of the specification: tags `{Name = "x"}` and configured
tags `["Name", "Env"]` give exactly one issue. -/
theorem callback_one_issue_iff_tag_missing_witness :
    ∃ issue, (NewAwsDBSnapshotTagsRule.entry.callback
        (sample.runnerWith ["Name", "Env"]) (sample.tagsAttr [("Name", "x")])).1
      = { sample.runnerWith ["Name", "Env"] with
          Issues := (sample.runnerWith ["Name", "Env"]).Issues ++ [issue] } :=
  (callback_one_issue_iff_tag_missing NewAwsDBSnapshotTagsRule.entry (by simp [catalog])
    (sample.runnerWith ["Name", "Env"]) (sample.tagsAttr [("Name", "x")])
    [("Name", "x")] ["Name", "Env"] rfl rfl).2.1 ⟨"Env", by decide, by decide⟩

/-- C2: with configured tags `["Name", "Env"]` and tags `{Name = "x"}` the
callback of AwsDBSnapshotTagsRule emits the message with the wanted tags in
configured order, `Name,Env`, not in ascending order `Env,Name`. -/
theorem wanted_tags_in_configured_order :
    (NewAwsDBSnapshotTagsRule.callback (sample.runnerWith ["Name", "Env"])
        (sample.tagsAttr [("Name", "x")])).1.Issues.map (fun issue => issue.Message)
      = ["Wanted tags: Name,Env, found: Name\n"] := by
  decide

/-- C3, refuted as stated: with tags `{Name = "x", Extra = "y"}` and configured
tags `["Name", "Env"]` the one message emitted prints `Name,Extra` after
`found: `, which is not the list of configured tags that are keys of the map
(`Name`). -/
theorem found_text_not_configured_subset :
    (NewAwsDBSnapshotTagsRule.callback (sample.runnerWith ["Name", "Env"])
        (sample.tagsAttr [("Name", "x"), ("Extra", "y")])).1.Issues.map
          (fun issue => issue.Message)
      = ["Wanted tags: Name,Env, found: Name,Extra\n"] ∧
    strings.Join (["Name", "Env"].filter
        (fun t => decide (t ∈ keysOf [("Name", "x"), ("Extra", "y")]))) "," = "Name" ∧
    "Wanted tags: Name,Env, found: Name,Extra\n" ≠ wantedFoundMessage "Name,Env" "Name" := by
  decide

/-- C3, amended: for every tags rule, evaluated map `m` and configured tag list
`c` with a configured tag that is not a key of `m`, the issue emitted has the
message `Wanted tags: W, found: F` where `F` joins with commas a list made of
all keys of `m`, each entry once, whether configured or not. -/
theorem found_text_lists_all_keys (R : TagsRule) (hR : R ∈ catalog)
    (runner : tflint.Runner) (attr : hcl.Attribute) (m : StringMap) (c : List String)
    (hm : runner.EvaluateExpr attr.Expr = (m, none)) (hc : runner.GetConfigTags = c)
    (hmiss : ∃ t ∈ c, t ∉ keysOf m) :
    ∃ issue W ks, (R.callback runner attr).1.Issues = runner.Issues ++ [issue] ∧
      List.Perm ks (keysOf m) ∧
      issue.Message = "Wanted tags: " ++ W ++ ", found: " ++ strings.Join ks "," ++ "\n" := by
  simp only [tflint.Runner.EvaluateExpr, Prod.mk.injEq] at hm
  obtain ⟨hdec, herr⟩ := hm
  simp only [tflint.Runner.GetConfigTags] at hc
  subst hc hdec
  have h : ¬ ∀ t ∈ runner.ConfigTags, t ∈ keysOf attr.Expr.Decoded := by
    obtain ⟨t, ht, hnot⟩ := hmiss
    exact fun hall => hnot (hall t ht)
  rw [catalog_callback R hR, herr]
  simp only [tflint.Runner.EnsureNoError]
  rw [if_neg h]
  exact ⟨_, strings.Join runner.ConfigTags ",", keysOf attr.Expr.Decoded, rfl,
    List.Perm.refl _, rfl⟩

/-- C3 amended, at tags `{Name = "x", Extra = "y"}` and configured tags
`["Name", "Env"]`. -/
theorem found_text_lists_all_keys_witness :
    ∃ issue W ks, (NewAwsDBSnapshotTagsRule.entry.callback (sample.runnerWith ["Name", "Env"])
        (sample.tagsAttr [("Name", "x"), ("Extra", "y")])).1.Issues
          = (sample.runnerWith ["Name", "Env"]).Issues ++ [issue] ∧
      List.Perm ks (keysOf [("Name", "x"), ("Extra", "y")]) ∧
      issue.Message = "Wanted tags: " ++ W ++ ", found: " ++ strings.Join ks "," ++ "\n" :=
  found_text_lists_all_keys NewAwsDBSnapshotTagsRule.entry (by simp [catalog])
    (sample.runnerWith ["Name", "Env"]) (sample.tagsAttr [("Name", "x"), ("Extra", "y")])
    [("Name", "x"), ("Extra", "y")] ["Name", "Env"] rfl rfl ⟨"Env", by decide, by decide⟩

/-- C4: for every tags rule and attribute occurrence whose tags expression
fails to evaluate with the error `e`, the callback leaves the runner as it was
(no issue emitted) and returns nil when `e` is Unevaluable and `e` itself when
it is a hard error. -/
theorem callback_on_failed_evaluation (R : TagsRule) (hR : R ∈ catalog)
    (runner : tflint.Runner) (attr : hcl.Attribute) (e : tflint.Error)
    (he : (runner.EvaluateExpr attr.Expr).2 = some e) :
    (R.callback runner attr).1 = runner ∧
    (e.Kind = tflint.ErrorKind.Unevaluable → (R.callback runner attr).2 = none) ∧
    (e.Kind ≠ tflint.ErrorKind.Unevaluable → (R.callback runner attr).2 = some e) := by
  simp only [tflint.Runner.EvaluateExpr] at he
  rw [catalog_callback R hR, he]
  simp only [tflint.Runner.EnsureNoError]
  by_cases hk : e.Kind = tflint.ErrorKind.Unevaluable
  · rw [if_pos hk]
    exact ⟨rfl, fun _ => rfl, fun hne => absurd hk hne⟩
  · rw [if_neg hk]
    exact ⟨rfl, fun heq => absurd heq hk, fun _ => rfl⟩

/-- C4, at a hard error (a type mismatch): the error is returned and nothing
is emitted. -/
theorem callback_on_failed_evaluation_witness :
    (NewAwsDBSnapshotTagsRule.entry.callback (sample.runnerWith ["Name"])
        (sample.failingAttr sample.typeMismatch)).1 = sample.runnerWith ["Name"] ∧
    (NewAwsDBSnapshotTagsRule.entry.callback (sample.runnerWith ["Name"])
        (sample.failingAttr sample.typeMismatch)).2 = some sample.typeMismatch :=
  have h := callback_on_failed_evaluation NewAwsDBSnapshotTagsRule.entry (by simp [catalog])
    (sample.runnerWith ["Name"]) (sample.failingAttr sample.typeMismatch) sample.typeMismatch rfl
  ⟨h.1, h.2.2 (by decide)⟩

/-- C5: the same map `{Name = "x", Team = "y"}` with configured tags `["Env"]`
gives the callback of AwsAutoscalingGroupTagsRule two different messages under
its two enumeration orders. -/
theorem message_follows_enumeration_order :
    (NewAwsAutoscalingGroupTagsRule.callback (sample.runnerWith ["Env"])
        (sample.tagsAttr [("Name", "x"), ("Team", "y")])).1.Issues.map
          (fun issue => issue.Message)
      = ["Wanted tags: Env, found: Name,Team\n"] ∧
    (NewAwsAutoscalingGroupTagsRule.callback (sample.runnerWith ["Env"])
        (sample.tagsAttr [("Team", "y"), ("Name", "x")])).1.Issues.map
          (fun issue => issue.Message)
      = ["Wanted tags: Env, found: Team,Name\n"] ∧
    List.Perm [("Name", "x"), ("Team", "y")] [("Team", "y"), ("Name", "x")] ∧
    "Wanted tags: Env, found: Name,Team\n" ≠ "Wanted tags: Env, found: Team,Name\n" := by
  refine ⟨by decide, by decide, List.Perm.swap _ _ _, by decide⟩

/-- C6: every tags rule of the catalog is the generic required-tags rule at its
resource type and the attribute name tags: its Check is one
WalkResourceAttributes call with the generic callback, which differs between
rules only in the rule value handed to EmitIssue. -/
theorem check_is_generic_instance (R : TagsRule) (hR : R ∈ catalog) (runner : tflint.Runner) :
    R.Check runner = genericCheck R.rule R.resourceType "tags" runner ∧
    genericCheck R.rule R.resourceType "tags" runner
      = runner.WalkResourceAttributes R.resourceType "tags" (genericCallback R.rule) ∧
    R.callback = genericCallback R.rule := by
  obtain ⟨hattr, hcb, hcheck⟩ := catalog_generic R hR
  rw [hcheck, hattr]
  exact ⟨rfl, rfl, hcb⟩

/-- C6, at AwsCloudformationStackTagsRule and a runner without modules. -/
theorem check_is_generic_instance_witness :
    NewAwsCloudformationStackTagsRule.entry.Check (sample.runnerWith ["Name"])
      = genericCheck NewAwsCloudformationStackTagsRule.entry.rule
          "aws_cloudformation_stack" "tags" (sample.runnerWith ["Name"]) :=
  (check_is_generic_instance NewAwsCloudformationStackTagsRule.entry (by simp [catalog])
    (sample.runnerWith ["Name"])).1

/-- C7: for every rule of the tags catalog, Severity is one of ERROR, WARNING,
NOTICE (it is ERROR), Enabled is true and Link is the empty string. -/
theorem catalog_severity_enabled_link (R : TagsRule) (hR : R ∈ catalog) :
    R.rule.Severity ∈ [tflint.ERROR, tflint.WARNING, tflint.NOTICE] ∧
    R.rule.Severity = tflint.ERROR ∧ R.rule.Enabled = true ∧ R.rule.Link = "" := by
  simp only [catalog, List.mem_cons, List.mem_singleton, List.not_mem_nil, or_false] at hR
  rcases hR with rfl | rfl | rfl | rfl | rfl | rfl | rfl | rfl | rfl | rfl | rfl | rfl | rfl |
    rfl | rfl | rfl | rfl <;> exact ⟨List.mem_cons_self _ _, rfl, rfl, rfl⟩

/-- C7, at AwsDBSnapshotTagsRule. -/
theorem catalog_severity_enabled_link_witness :
    NewAwsDBSnapshotTagsRule.entry.rule.Severity
        ∈ [tflint.ERROR, tflint.WARNING, tflint.NOTICE] ∧
    NewAwsDBSnapshotTagsRule.entry.rule.Severity = tflint.ERROR ∧
    NewAwsDBSnapshotTagsRule.entry.rule.Enabled = true ∧
    NewAwsDBSnapshotTagsRule.entry.rule.Link = "" :=
  catalog_severity_enabled_link NewAwsDBSnapshotTagsRule.entry (by simp [catalog])

end tags

namespace formatter

/-! ### Writes of the formatter -/

theorem outs_nil (f : Formatter) : f.outs [] = f := by
  simp [Formatter.outs]

theorem outs_outs (f : Formatter) (a b : List Write) : (f.outs a).outs b = f.outs (a ++ b) := by
  simp [Formatter.outs]

theorem out_eq_outs (f : Formatter) (w : Write) : f.out w = f.outs [w] := rfl

theorem printSourceLine_eq (src : Bytes) (rng : hcl.Range) (f : Formatter)
    (sc : hcl.Range × Bytes) :
    printSourceLine src rng f sc = f.outs (lineWrites src rng sc) := by
  unfold lineWrites printSourceLine
  by_cases h1 : sc.1.Overlaps rng = true
  · by_cases h2 : (sc.1.PartitionAround rng).2.1.Empty = true
    · simp [h1, h2, Formatter.out, Formatter.outs, Formatter.empty]
    · simp [h1, h2, Formatter.out, Formatter.outs, Formatter.empty]
  · simp [h1, Formatter.outs, Formatter.empty]

theorem foldl_printSourceLine (src : Bytes) (rng : hcl.Range) (lines : List (hcl.Range × Bytes))
    (f : Formatter) :
    lines.foldl (printSourceLine src rng) f = f.outs (lines.flatMap (lineWrites src rng)) := by
  induction lines generalizing f with
  | nil => simp [outs_nil]
  | cons sc rest ih => simp [ih, printSourceLine_eq, outs_outs]

theorem foldl_callers (callers : List tflint.Caller) (f : Formatter) :
    callers.foldl (fun f caller => f.outs [Write.Fprintf "   %s\n" [Arg.caller caller]]) f
      = f.outs (callers.map callerLine) := by
  induction callers generalizing f with
  | nil => simp [outs_nil]
  | cons c rest ih =>
    simp only [List.foldl_cons, ih, List.map_cons, outs_outs]
    rfl

theorem colorSeverity_ok (i : tflint.Issue) (h : severityInContract i) :
    ∃ severity, colorSeverity i.Rule.Type = Except.ok severity := by
  unfold colorSeverity
  rcases h with h | h | h <;> rw [h] <;> simp [issue.ERROR, issue.WARNING, issue.NOTICE]

/-- The calls of printIssueWithSource on Stdout when colorSeverity returns. -/
theorem printIssueWithSource_eq (f : Formatter) (i : tflint.Issue) (sources : Sources)
    (severity : Arg) (h : colorSeverity i.Rule.Type = Except.ok severity) :
    f.printIssueWithSource i sources =
      (f.outs
        ([Write.Fprintf "%s: %s (%s)\n\n"
            [severity, Arg.colored ColorFunc.colorBold (Arg.str i.Message), Arg.str i.Rule.Name],
          Write.Fprintf "  on %s line %d:\n"
            [Arg.str i.Range.Filename, Arg.int i.Range.Start.Line]]
          ++ sourceWrites i sources
          ++ (if i.Callers = [] then []
              else Write.Fprint "\nCallers:\n" :: i.Callers.map callerLine)
          ++ ((if i.Rule.Link = "" then []
              else [Write.Fprintf "\nReference: %s\n" [Arg.str i.Rule.Link]])
          ++ [Write.Fprint "\n\n"])), none) := by
  unfold Formatter.printIssueWithSource sourceWrites
  rw [h]
  have hlen : i.Callers.length > 0 ↔ ¬ i.Callers = [] := List.length_pos
  cases Sources.get sources i.Range.Filename with
  | none =>
    by_cases hc : i.Callers = [] <;> by_cases hl : i.Rule.Link = "" <;>
      simp [hc, hl, hlen, out_eq_outs, outs_outs, foldl_callers]
  | some src =>
    by_cases hc : i.Callers = [] <;> by_cases hl : i.Rule.Link = "" <;>
      simp [hc, hl, hlen, out_eq_outs, outs_outs, foldl_callers, foldl_printSourceLine]

theorem printIssueWithSource_block (f : Formatter) (i : tflint.Issue) (sources : Sources)
    (h : severityInContract i) :
    f.printIssueWithSource i sources = (f.outs (issueBlock sources i), none) := by
  obtain ⟨severity, hs⟩ := colorSeverity_ok i h
  rw [issueBlock, printIssueWithSource_eq f i sources severity hs,
    printIssueWithSource_eq Formatter.empty i sources severity hs]
  simp [Formatter.outs, Formatter.empty]

theorem printIssues_eq (sources : Sources) (l : List tflint.Issue) (f : Formatter)
    (h : ∀ i ∈ l, severityInContract i) :
    printIssues sources l f = (f.outs (l.flatMap (issueBlock sources)), none) := by
  induction l generalizing f with
  | nil => simp [printIssues, outs_nil]
  | cons i rest ih =>
    have hi : severityInContract i := h i (List.mem_cons_self _ _)
    have hrest : ∀ j ∈ rest, severityInContract j := fun j hj => h j (List.mem_cons_of_mem _ hj)
    simp only [printIssues, printIssueWithSource_block f i sources hi, ih _ hrest, outs_outs,
      List.flatMap_cons]

theorem parseSource_frame (parser : hclparse.Parser)
    (acc : Formatter × List (String × hcl.File)) (entry : String × Option Bytes) :
    (parseSource parser acc entry).1.Stdout = acc.1.Stdout ∧
      (parseSource parser acc entry).1.Stderr = acc.1.Stderr := by
  unfold parseSource
  simp only
  split <;> split <;> exact ⟨rfl, rfl⟩

theorem foldl_parseSource_frame (parser : hclparse.Parser) (sources : Sources)
    (acc : Formatter × List (String × hcl.File)) :
    (sources.foldl (parseSource parser) acc).1.Stdout = acc.1.Stdout ∧
      (sources.foldl (parseSource parser) acc).1.Stderr = acc.1.Stderr := by
  induction sources generalizing acc with
  | nil => exact ⟨rfl, rfl⟩
  | cons entry rest ih =>
    simp only [List.foldl_cons]
    rw [(ih _).1, (ih _).2]
    exact parseSource_frame parser acc entry

theorem parseSource_files (parser : hclparse.Parser) (f g : Formatter)
    (ret : List (String × hcl.File)) (entry : String × Option Bytes) :
    (parseSource parser (f, ret) entry).2 = (parseSource parser (g, ret) entry).2 := by
  unfold parseSource
  simp only

theorem foldl_parseSource_files (parser : hclparse.Parser) (sources : Sources) (f g : Formatter)
    (ret : List (String × hcl.File)) :
    (sources.foldl (parseSource parser) (f, ret)).2
      = (sources.foldl (parseSource parser) (g, ret)).2 := by
  induction sources generalizing f g ret with
  | nil => rfl
  | cons entry rest ih =>
    simp only [List.foldl_cons]
    have h := parseSource_files parser f g ret entry
    rw [← Prod.mk.eta (p := parseSource parser (f, ret) entry),
      ← Prod.mk.eta (p := parseSource parser (g, ret) entry), h]
    exact ih _ _ _

theorem printErrors_frame (parser : hclparse.Parser) (e : tflint.Error) (sources : Sources)
    (f : Formatter) :
    (f.printErrors parser e sources).1.Stdout = f.Stdout ∧
      (f.printErrors parser e sources).1.Stderr
        = f.Stderr ++ (Formatter.empty.printErrors parser e sources).1.Stderr ∧
      (f.printErrors parser e sources).2 = (Formatter.empty.printErrors parser e sources).2 := by
  unfold Formatter.printErrors
  cases e.Cause with
  | Diagnostics diags =>
    simp only [parseSources, Formatter.err]
    have h1 := foldl_parseSource_frame parser sources
      ({ f with Stderr := f.Stderr ++ [Write.Fprintf "%s. %d error(s) occurred:\n\n"
          [Arg.str e.Message, Arg.int diags.Errs.length]] }, [])
    have h2 := foldl_parseSource_frame parser sources
      ({ Formatter.empty with Stderr := Formatter.empty.Stderr ++
          [Write.Fprintf "%s. %d error(s) occurred:\n\n"
            [Arg.str e.Message, Arg.int diags.Errs.length]] }, [])
    simp only at h1 h2
    refine ⟨h1.1, ?_, trivial⟩
    rw [h1.2, h2.2]
    simp only [Formatter.empty, List.nil_append, List.append_assoc, List.cons_append,
      List.append_cancel_left_eq, List.cons.injEq, true_and, and_true]
    congr 1
    exact foldl_parseSource_files parser sources _ _ _
  | Other text => simp [Formatter.err, Formatter.empty]
  | Nil => simp [Formatter.err, Formatter.empty]

end formatter

namespace tflint

/-! ### The order of Issues.Sort -/

theorem Issue.less_iff (a b : Issue) : a.less b = true ↔ a.sortKey < b.sortKey := by
  unfold Issue.less Issue.sortKey
  simp only [Prod.Lex.lt_iff, ofLex_toLex]
  by_cases h1 : a.Range.Filename = b.Range.Filename <;>
  by_cases h2 : a.Range.Start.Line = b.Range.Start.Line <;>
  by_cases h3 : a.Range.Start.Column = b.Range.Start.Column <;>
  simp [h1, h2, h3]

theorem Issue.not_less_iff (a b : Issue) : b.less a = false ↔ a.sortKey ≤ b.sortKey := by
  rw [← not_lt, ← Issue.less_iff]
  simp

theorem Issue.sortKey_eq_iff (a b : Issue) :
    a.sortKey = b.sortKey ↔
      a.Range.Filename = b.Range.Filename ∧ a.Range.Start.Line = b.Range.Start.Line ∧
        a.Range.Start.Column = b.Range.Start.Column ∧ a.Rule.Name = b.Rule.Name := by
  unfold Issue.sortKey
  simp [Prod.ext_iff]

theorem Issues.sort_perm (l : Issues) : List.Perm (Issues.Sort l) l :=
  List.perm_insertionSort _ l

theorem Issues.sort_sorted (l : Issues) :
    List.Sorted (fun a b => b.less a = false) (Issues.Sort l) := by
  haveI : IsTotal Issue (fun a b => b.less a = false) :=
    ⟨fun a b => by simp only [Issue.not_less_iff]; exact le_total _ _⟩
  haveI : IsTrans Issue (fun a b => b.less a = false) :=
    ⟨fun a b c => by simp only [Issue.not_less_iff]; exact le_trans⟩
  exact List.sorted_insertionSort _ l

theorem Issues.sort_strict (l : Issues)
    (hk : ∀ a ∈ l, ∀ b ∈ l, a.sortKey = b.sortKey → a = b) :
    List.Sorted (fun a b => a.sortKey < b.sortKey ∨ a = b) (Issues.Sort l) := by
  refine List.Pairwise.imp_of_mem ?_ (Issues.sort_sorted l)
  intro a b ha hb hab
  rw [Issue.not_less_iff] at hab
  rcases lt_or_eq_of_le hab with hlt | heq
  · exact Or.inl hlt
  · exact Or.inr (hk a ((Issues.sort_perm l).mem_iff.mp ha) b
      ((Issues.sort_perm l).mem_iff.mp hb) heq)

theorem Issues.sort_eq_of_perm (l l' : Issues) (hp : List.Perm l' l)
    (hk : ∀ a ∈ l, ∀ b ∈ l, a.sortKey = b.sortKey → a = b) :
    Issues.Sort l' = Issues.Sort l := by
  haveI : IsAntisymm Issue (fun a b => a.sortKey < b.sortKey ∨ a = b) :=
    ⟨fun a b hab hba => by
      rcases hab with hab | hab
      · rcases hba with hba | hba
        · exact absurd hab (lt_asymm hba)
        · exact hba.symm
      · exact hab⟩
  have hk' : ∀ a ∈ l', ∀ b ∈ l', a.sortKey = b.sortKey → a = b :=
    fun a ha b hb => hk a (hp.mem_iff.mp ha) b (hp.mem_iff.mp hb)
  exact List.eq_of_perm_of_sorted
    (((Issues.sort_perm l').trans hp).trans (Issues.sort_perm l).symm)
    (Issues.sort_strict l' hk') (Issues.sort_strict l hk)

end tflint

namespace formatter

theorem prettyPrint_eq (f : Formatter) (parser : hclparse.Parser) (issues : tflint.Issues)
    (err : Option tflint.Error) (sources : Sources)
    (h : ∀ i ∈ issues, severityInContract i) :
    f.prettyPrint parser issues err sources =
      match err with
      | some e =>
        (if issues = [] then f else f.outs (issuesHeader issues.length ::
          (tflint.Issues.Sort issues).flatMap (issueBlock sources))).printErrors parser e sources
      | none =>
        (if issues = [] then f else f.outs (issuesHeader issues.length ::
          (tflint.Issues.Sort issues).flatMap (issueBlock sources)), none) := by
  unfold Formatter.prettyPrint
  have hs : ∀ i ∈ tflint.Issues.Sort issues, severityInContract i :=
    fun i hi => h i ((tflint.Issues.sort_perm issues).mem_iff.mp hi)
  by_cases hne : issues = []
  · subst hne
    cases err <;> simp
  · have hlen : issues.length > 0 := List.length_pos.mpr hne
    simp only [hlen, if_true, printIssues_eq sources _ _ hs, out_eq_outs, outs_outs, hne, if_false]
    cases err <;> rfl

end formatter

namespace formatter

theorem mem_lineWrites (src : Bytes) (rng : hcl.Range) (sc : hcl.Range × Bytes) (w : Write)
    (hw : w ∈ lineWrites src rng sc) :
    ∃ args, w = Write.Fprintf "%4d: %s\n" args ∨ w = Write.Fprintf "%4d: %s%s%s\n" args := by
  unfold lineWrites printSourceLine at hw
  by_cases h1 : sc.1.Overlaps rng = true
  · by_cases h2 : (sc.1.PartitionAround rng).2.1.Empty = true
    · simp [h1, h2, Formatter.out, Formatter.empty] at hw
      exact ⟨_, Or.inl hw⟩
    · simp [h1, h2, Formatter.out, Formatter.empty] at hw
      exact ⟨_, Or.inr hw⟩
  · simp [h1, Formatter.empty] at hw

theorem mem_sourceWrites (i : tflint.Issue) (sources : Sources) (w : Write)
    (hw : w ∈ sourceWrites i sources) :
    ∃ args, w = Write.Fprintf "   (source code not available)" args ∨
      w = Write.Fprintf "%4d: %s\n" args ∨ w = Write.Fprintf "%4d: %s%s%s\n" args := by
  unfold sourceWrites at hw
  cases hsrc : Sources.get sources i.Range.Filename with
  | none =>
    rw [hsrc] at hw
    simp only [List.mem_singleton] at hw
    exact ⟨_, Or.inl hw⟩
  | some src =>
    rw [hsrc] at hw
    simp only [List.mem_flatMap] at hw
    obtain ⟨sc, _, hsc⟩ := hw
    obtain ⟨args, h⟩ := mem_lineWrites src i.Range sc w hsc
    exact ⟨args, Or.inr h⟩

/-! ### prettyPrint and printIssueWithSource -/

theorem colorSeverity_panic (i : tflint.Issue) (h : ¬ severityInContract i) :
    colorSeverity i.Rule.Type = Except.error "Unreachable" := by
  unfold severityInContract at h
  simp only [not_or] at h
  unfold colorSeverity
  rw [if_neg h.1, if_neg h.2.1, if_neg h.2.2]

theorem printIssueWithSource_panic (f : Formatter) (i : tflint.Issue) (sources : Sources)
    (h : ¬ severityInContract i) :
    f.printIssueWithSource i sources = (f, some "Unreachable") := by
  unfold Formatter.printIssueWithSource
  rw [colorSeverity_panic i h]

/-- The loop over the issues writes the blocks of the issues up to the first
one whose severity is outside the contract. -/
theorem printIssues_takeWhile (sources : Sources) (l : List tflint.Issue) (f : Formatter) :
    (printIssues sources l f).1
      = f.outs ((l.takeWhile fun i => decide (severityInContract i)).flatMap
          (issueBlock sources)) := by
  induction l generalizing f with
  | nil => simp [printIssues, outs_nil]
  | cons i rest ih =>
    by_cases hi : severityInContract i
    · simp only [printIssues, printIssueWithSource_block f i sources hi, ih,
        List.takeWhile_cons, hi, decide_True, if_true, List.flatMap_cons, outs_outs]
    · simp only [printIssues, printIssueWithSource_panic f i sources hi,
        List.takeWhile_cons, hi, decide_False, List.flatMap_nil, outs_nil]
      simp [outs_nil]

/-- The calls of prettyPrint on Stdout, for every issue list and error. -/
theorem prettyPrint_stdout (f : Formatter) (parser : hclparse.Parser) (issues : tflint.Issues)
    (err : Option tflint.Error) (sources : Sources) :
    (f.prettyPrint parser issues err sources).1.Stdout
      = f.Stdout ++ (if issues = [] then []
          else issuesHeader issues.length ::
            ((tflint.Issues.Sort issues).takeWhile fun i => decide (severityInContract i)).flatMap
              (issueBlock sources)) := by
  unfold Formatter.prettyPrint
  by_cases hne : issues = []
  · subst hne
    cases err with
    | none => simp
    | some e => simpa using (printErrors_frame parser e sources f).1
  · have hlen : issues.length > 0 := List.length_pos.mpr hne
    simp only [hlen, if_true, hne, if_false]
    have hloop := printIssues_takeWhile sources (tflint.Issues.Sort issues)
      (f.out (Write.Fprintf "%d issue(s) found:\n\n" [Arg.int issues.length]))
    generalize printIssues sources (tflint.Issues.Sort issues)
      (f.out (Write.Fprintf "%d issue(s) found:\n\n" [Arg.int issues.length])) = r at hloop
    obtain ⟨g, p⟩ := r
    simp only at hloop
    subst hloop
    cases p with
    | some v => simp [Formatter.outs, Formatter.out, issuesHeader]
    | none =>
      cases err with
      | none => simp [Formatter.outs, Formatter.out, issuesHeader]
      | some e =>
        simp only [(printErrors_frame parser e sources _).1]
        simp [Formatter.outs, Formatter.out, issuesHeader]

/-- C8, refuted as stated: the two issues the same rule emits at the same
attribute through two calls of one module agree on (filename, line, column,
rule name); prettyPrint writes their blocks in the order given, so the two
orders of the same list give different writes on Stdout.  And for a list of two
issues of which the second in sort order has a rule of severity FATAL,
prettyPrint writes the block of the first only and panics. -/
theorem prettyPrint_ties_and_panic :
    List.Perm [sample.issueB, sample.issueA] [sample.issueA, sample.issueB] ∧
    (Formatter.empty.prettyPrint sample.parser [sample.issueB, sample.issueA] none
        sample.sources).1.Stdout
      ≠ (Formatter.empty.prettyPrint sample.parser [sample.issueA, sample.issueB] none
        sample.sources).1.Stdout ∧
    tflint.Issues.Sort [sample.issueOutsideContract, sample.issueA]
      = [sample.issueA, sample.issueOutsideContract] ∧
    Formatter.empty.prettyPrint sample.parser [sample.issueOutsideContract, sample.issueA]
        none sample.sources
      = ({ Formatter.empty with
            Stdout := issuesHeader 2 :: issueBlock sample.sources sample.issueA },
          some "Unreachable") := by
  refine ⟨List.Perm.swap _ _ _, by decide, by decide, by decide⟩

/-- C8, amended: for every non-empty issue list, prettyPrint writes on Stdout
the header and then issue blocks in the order returned by Issues.Sort, which is
a permutation of the list sorted by (filename, line, column, rule name): the
blocks of the sorted issues that precede the first one whose rule has a
severity outside the rule contract, which are the blocks of all issues when
every severity is in the contract.  When no two different issues of the list
agree on all four of filename, line, column and rule name, prettyPrint applied
to any permutation of the list writes the same calls to Stdout. -/
theorem prettyPrint_sorted_blocks (f : Formatter) (parser : hclparse.Parser)
    (issues issues' : tflint.Issues) (err : Option tflint.Error) (sources : Sources)
    (hne : issues ≠ []) :
    List.Sorted (fun a b => b.less a = false) (tflint.Issues.Sort issues) ∧
    List.Perm (tflint.Issues.Sort issues) issues ∧
    (f.prettyPrint parser issues err sources).1.Stdout
      = f.Stdout ++ issuesHeader issues.length ::
          ((tflint.Issues.Sort issues).takeWhile fun i => decide (severityInContract i)).flatMap
            (issueBlock sources) ∧
    ((∀ i ∈ issues, severityInContract i) →
      (f.prettyPrint parser issues err sources).1.Stdout
        = f.Stdout ++ issuesHeader issues.length ::
            (tflint.Issues.Sort issues).flatMap (issueBlock sources)) ∧
    (List.Perm issues' issues →
      (∀ a ∈ issues, ∀ b ∈ issues,
        a.Range.Filename = b.Range.Filename → a.Range.Start.Line = b.Range.Start.Line →
        a.Range.Start.Column = b.Range.Start.Column → a.Rule.Name = b.Rule.Name → a = b) →
      (f.prettyPrint parser issues' err sources).1.Stdout
        = (f.prettyPrint parser issues err sources).1.Stdout) := by
  refine ⟨tflint.Issues.sort_sorted issues, tflint.Issues.sort_perm issues, ?_, ?_, ?_⟩
  · rw [prettyPrint_stdout, if_neg hne]
  · intro hvalid
    rw [prettyPrint_stdout, if_neg hne]
    have hall : ∀ i ∈ tflint.Issues.Sort issues, decide (severityInContract i) = true :=
      fun i hi => decide_eq_true (hvalid i ((tflint.Issues.sort_perm issues).mem_iff.mp hi))
    rw [List.takeWhile_eq_self_iff.mpr hall]
  · intro hperm hkey
    have hsort : tflint.Issues.Sort issues' = tflint.Issues.Sort issues :=
      tflint.Issues.sort_eq_of_perm issues issues' hperm (fun a ha b hb hab => by
        obtain ⟨h1, h2, h3, h4⟩ := (tflint.Issue.sortKey_eq_iff a b).mp hab
        exact hkey a ha b hb h1 h2 h3 h4)
    have hne' : issues' ≠ [] := fun h => hne (by rw [h] at hperm; exact hperm.symm.eq_nil)
    rw [prettyPrint_stdout, prettyPrint_stdout, if_neg hne, if_neg hne', hsort,
      hperm.length_eq]

/-- C8 amended, at two issues in different files given in either order. -/
theorem prettyPrint_sorted_blocks_witness :
    (Formatter.empty.prettyPrint sample.parser [sample.issueA, sample.issueRoot] none
        sample.sources).1.Stdout
      = (Formatter.empty.prettyPrint sample.parser [sample.issueRoot, sample.issueA] none
        sample.sources).1.Stdout :=
  (prettyPrint_sorted_blocks Formatter.empty sample.parser [sample.issueRoot, sample.issueA]
    [sample.issueA, sample.issueRoot] none sample.sources (by decide)).2.2.2.2
    (List.Perm.swap _ _ _) (by decide)

/-- C9, refuted as stated: with an issue whose rule reports the severity FATAL
and a non-nil error, prettyPrint panics in colorSeverity after the header: no
block is written on Stdout and the error is not written on Stderr.  And with an
error whose Cause is nil, printErrors panics after its first call on Stderr:
the cause of the error is not written. -/
theorem prettyPrint_panic_suppresses_error :
    Formatter.empty.prettyPrint sample.parser [sample.issueOutsideContract]
        (some sample.typeMismatch) sample.sources
      = ({ Formatter.empty with Stdout := [issuesHeader 1] }, some "Unreachable") ∧
    (Formatter.empty.printErrors sample.parser sample.typeMismatch sample.sources).1.Stderr
      ≠ [] ∧
    Formatter.empty.prettyPrint sample.parser [sample.issueA] (some sample.causeless)
        sample.sources
      = ({ Formatter.empty with
            Stdout := issuesHeader 1 :: issueBlock sample.sources sample.issueA,
            Stderr := [Write.Fprintf "%s. An error occurred:\n\n"
              [Arg.str sample.causeless.Message]] },
          some nilDereference) := by
  decide

/-- C9, amended: for every issue list whose rules report a severity of the rule
contract (ERROR, WARNING or NOTICE) and every non-nil error whose Cause is not
nil, prettyPrint does not panic, writes on Stdout the header and the block of
every issue of the list (when the list is non-empty) and writes on Stderr the
calls of printErrors: first the message of the error, then its cause (the text
of the cause, or the diagnostics through the diagnostic writer). -/
theorem prettyPrint_reports_issues_and_error (f : Formatter) (parser : hclparse.Parser)
    (issues : tflint.Issues) (e : tflint.Error) (sources : Sources)
    (hvalid : ∀ i ∈ issues, severityInContract i) (hcause : e.Cause ≠ tflint.Cause.Nil) :
    (f.prettyPrint parser issues (some e) sources).2 = none ∧
    (f.prettyPrint parser issues (some e) sources).1.Stdout
      = f.Stdout ++ (if issues = [] then []
          else issuesHeader issues.length ::
            (tflint.Issues.Sort issues).flatMap (issueBlock sources)) ∧
    List.Perm (tflint.Issues.Sort issues) issues ∧
    (∀ i ∈ issues, ∃ severity rest, issueBlock sources i =
        Write.Fprintf "%s: %s (%s)\n\n"
          [severity, Arg.colored ColorFunc.colorBold (Arg.str i.Message), Arg.str i.Rule.Name]
          :: rest) ∧
    (f.prettyPrint parser issues (some e) sources).1.Stderr
      = f.Stderr ++ (Formatter.empty.printErrors parser e sources).1.Stderr ∧
    (∀ text, e.Cause = tflint.Cause.Other text →
      (Formatter.empty.printErrors parser e sources).1.Stderr
        = [Write.Fprintf "%s. An error occurred:\n\n" [Arg.str e.Message],
           Write.Fprintf "%s: %s\n\n"
             [Arg.colored ColorFunc.colorError (Arg.str "Error"), Arg.str text]]) ∧
    (∀ diags, e.Cause = tflint.Cause.Diagnostics diags →
      ∃ files, (Formatter.empty.printErrors parser e sources).1.Stderr
        = [Write.Fprintf "%s. %d error(s) occurred:\n\n"
             [Arg.str e.Message, Arg.int diags.Errs.length],
           Write.WriteDiagnostics files 0 true diags]) := by
  have hpanic : ∀ g : Formatter, (g.printErrors parser e sources).2 = none := by
    intro g
    unfold Formatter.printErrors
    cases hc : e.Cause with
    | Nil => exact absurd hc hcause
    | Diagnostics diags => rfl
    | Other text => rfl
  rw [prettyPrint_eq f parser issues (some e) sources hvalid]
  refine ⟨hpanic _, ?_, tflint.Issues.sort_perm issues, ?_, ?_, ?_, ?_⟩
  · simp only [(printErrors_frame parser e sources _).1]
    by_cases hne : issues = []
    · simp [hne]
    · simp [hne, Formatter.outs]
  · intro i hi
    obtain ⟨severity, hs⟩ := colorSeverity_ok i (hvalid i hi)
    refine ⟨severity, ?_⟩
    rw [issueBlock, printIssueWithSource_eq Formatter.empty i sources severity hs]
    exact ⟨_, rfl⟩
  · by_cases hne : issues = []
    · simp only [hne, if_true]
      exact (printErrors_frame parser e sources f).2.1
    · simp only [hne, if_false]
      exact (printErrors_frame parser e sources _).2.1
  · intro text hc
    unfold Formatter.printErrors
    rw [hc]
    rfl
  · intro diags hc
    unfold Formatter.printErrors
    rw [hc]
    have h := (foldl_parseSource_frame parser sources
      (Formatter.empty.err (Write.Fprintf "%s. %d error(s) occurred:\n\n"
        [Arg.str e.Message, Arg.int diags.Errs.length]), [])).2
    simp only [parseSources, Formatter.err] at h ⊢
    rw [h]
    exact ⟨_, rfl⟩

/-- C9 amended, at one issue and a hard error. -/
theorem prettyPrint_reports_issues_and_error_witness :
    (Formatter.empty.prettyPrint sample.parser [sample.issueA] (some sample.typeMismatch)
        sample.sources).2 = none :=
  (prettyPrint_reports_issues_and_error Formatter.empty sample.parser [sample.issueA]
    sample.typeMismatch sample.sources (by decide) (by decide)).1

/-- C10, refuted as stated: for an issue with a caller chain of one call whose
rule reports the severity FATAL, printIssueWithSource panics in colorSeverity
before it writes anything: no Callers section is written. -/
theorem printIssueWithSource_panic_writes_nothing :
    sample.issueOutsideContract.Callers ≠ [] ∧
    Formatter.empty.printIssueWithSource sample.issueOutsideContract sample.sources
      = (Formatter.empty, some "Unreachable") := by
  decide

/-- C10, amended: for every issue whose rule reports a severity of the rule
contract (ERROR, WARNING or NOTICE),
printIssueWithSource does not panic and its calls on Stdout are some calls,
then the Callers section, then some calls, where the Callers section is empty
when the caller chain is empty and otherwise is the line Callers followed by
one line per caller in the order of the chain, and no other call writes the
Callers line or a caller line. -/
theorem printIssueWithSource_callers_section (f : Formatter) (i : tflint.Issue)
    (sources : Sources) (hvalid : severityInContract i) :
    (f.printIssueWithSource i sources).2 = none ∧
    ∃ before after,
      (f.printIssueWithSource i sources).1.Stdout
        = f.Stdout ++ before ++
          (if i.Callers = [] then []
            else Write.Fprint "\nCallers:\n" ::
              i.Callers.map (fun caller => Write.Fprintf "   %s\n" [Arg.caller caller]))
          ++ after ∧
      ∀ w ∈ before ++ after,
        w ≠ Write.Fprint "\nCallers:\n" ∧
        ∀ caller, w ≠ Write.Fprintf "   %s\n" [Arg.caller caller] := by
  obtain ⟨severity, hs⟩ := colorSeverity_ok i hvalid
  rw [printIssueWithSource_eq f i sources severity hs]
  refine ⟨rfl,
    [Write.Fprintf "%s: %s (%s)\n\n"
        [severity, Arg.colored ColorFunc.colorBold (Arg.str i.Message), Arg.str i.Rule.Name],
      Write.Fprintf "  on %s line %d:\n"
        [Arg.str i.Range.Filename, Arg.int i.Range.Start.Line]] ++ sourceWrites i sources,
    (if i.Rule.Link = "" then []
      else [Write.Fprintf "\nReference: %s\n" [Arg.str i.Rule.Link]]) ++ [Write.Fprint "\n\n"],
    ?_, ?_⟩
  · simp only [Formatter.outs, List.append_assoc]
    rfl
  · intro w hw
    simp only [List.mem_append, List.mem_cons, List.mem_singleton, List.not_mem_nil, or_false]
      at hw
    rcases hw with ((hw | hw) | hw) | hw | hw
    · subst hw
      exact ⟨by simp, fun caller => by simp⟩
    · subst hw
      exact ⟨by simp, fun caller => by simp⟩
    · obtain ⟨args, hfmt | hfmt | hfmt⟩ := mem_sourceWrites i sources w hw <;> subst hfmt <;>
        exact ⟨by simp, fun caller => by simp⟩
    · by_cases hl : i.Rule.Link = ""
      · simp [hl] at hw
      · simp only [hl, if_false, List.mem_singleton] at hw
        subst hw
        exact ⟨by simp, fun caller => by simp⟩
    · subst hw
      exact ⟨by simp, fun caller => by simp⟩

/-- C10 amended, at an issue found through one module call. -/
theorem printIssueWithSource_callers_section_witness :
    ∃ before after,
      (Formatter.empty.printIssueWithSource sample.issueA sample.sources).1.Stdout
        = Formatter.empty.Stdout ++ before ++
          (if sample.issueA.Callers = [] then []
            else Write.Fprint "\nCallers:\n" ::
              sample.issueA.Callers.map
                (fun caller => Write.Fprintf "   %s\n" [Arg.caller caller]))
          ++ after ∧
      ∀ w ∈ before ++ after,
        w ≠ Write.Fprint "\nCallers:\n" ∧
        ∀ caller, w ≠ Write.Fprintf "   %s\n" [Arg.caller caller] :=
  (printIssueWithSource_callers_section Formatter.empty sample.issueA sample.sources
    (by decide)).2

end formatter

namespace tags

/-! ### Issues of a walk -/

/-- The callback of a catalog rule either leaves the runner as it was or
appends one issue of the rule at the range of the expression, with the caller
chain of the runner. -/
theorem catalog_callback_cases (R : TagsRule) (hR : R ∈ catalog) (runner : tflint.Runner)
    (attr : hcl.Attribute) :
    (R.callback runner attr).1 = runner ∨
      ∃ message, (R.callback runner attr).1 =
        { runner with Issues := runner.Issues ++
          [{ Rule := R.rule, Message := message, Range := attr.Expr.Range,
             Callers := runner.Callers }] } := by
  rw [catalog_callback R hR]
  unfold tflint.Runner.EnsureNoError
  cases attr.Expr.Err with
  | none =>
    simp only
    split
    · exact Or.inl rfl
    · exact Or.inr ⟨_, rfl⟩
  | some e =>
    simp only
    split <;> exact Or.inl rfl

/-- Every rule of the catalog reports the severity ERROR. -/
theorem catalog_severity_of_mem (R : TagsRule) (hR : R ∈ catalog) :
    R.rule.Severity = tflint.ERROR := by
  simp only [catalog, List.mem_cons, List.mem_singleton, List.not_mem_nil, or_false] at hR
  rcases hR with rfl | rfl | rfl | rfl | rfl | rfl | rfl | rfl | rfl | rfl | rfl | rfl | rfl |
    rfl | rfl | rfl | rfl <;> rfl

/-- Issues of a walk: every issue after the walk was there before or was
emitted by a callback that satisfies the property `P`. -/
theorem walk_issues (cb : tflint.Runner → hcl.Attribute → tflint.Runner × Option tflint.Error)
    (P : tflint.Issue → Prop)
    (hcb : ∀ runner attr, ∀ i ∈ (cb runner attr).1.Issues, i ∈ runner.Issues ∨ P i)
    (occs : List (List tflint.Caller × hcl.Attribute)) (runner : tflint.Runner) :
    ∀ i ∈ (tflint.Runner.walk cb occs runner).1.Issues, i ∈ runner.Issues ∨ P i := by
  induction occs generalizing runner with
  | nil => intro i hi; exact Or.inl hi
  | cons occ rest ih =>
    obtain ⟨callers, attr⟩ := occ
    intro i hi
    unfold tflint.Runner.walk at hi
    have hstep := hcb { runner with Callers := callers } attr
    generalize cb { runner with Callers := callers } attr = r at hi hstep
    obtain ⟨runner', err⟩ := r
    cases err with
    | some e => exact hstep i hi
    | none =>
      rcases ih runner' i hi with h | h
      · exact hstep i h
      · exact Or.inr h

end tags

namespace formatter

/-- C11: colorSeverity returns a coloured string for each of ERROR, WARNING
and NOTICE and panics with Unreachable for every other severity string; for
every issue whose rule keeps the severity contract it returns, and so it does
for every issue a tags rule of the catalog emits, in its callback and in its
Check. -/
theorem colorSeverity_panics_only_outside_contract :
    colorSeverity issue.ERROR
      = Except.ok (Arg.colored ColorFunc.colorError (Arg.str issue.ERROR)) ∧
    colorSeverity issue.WARNING
      = Except.ok (Arg.colored ColorFunc.colorWarning (Arg.str issue.WARNING)) ∧
    colorSeverity issue.NOTICE
      = Except.ok (Arg.colored ColorFunc.colorNotice (Arg.str issue.NOTICE)) ∧
    (∀ severity, severity ≠ issue.ERROR → severity ≠ issue.WARNING →
      severity ≠ issue.NOTICE → colorSeverity severity = Except.error "Unreachable") ∧
    (∀ i, severityInContract i → ∃ colored, colorSeverity i.Rule.Type = Except.ok colored) ∧
    (∀ R ∈ tags.catalog, ∀ runner attr, ∀ i ∈ (R.callback runner attr).1.Issues,
      i ∈ runner.Issues ∨ colorSeverity i.Rule.Type
        = Except.ok (Arg.colored ColorFunc.colorError (Arg.str issue.ERROR))) ∧
    (∀ R ∈ tags.catalog, ∀ runner, ∀ i ∈ (R.Check runner).1.Issues,
      i ∈ runner.Issues ∨ colorSeverity i.Rule.Type
        = Except.ok (Arg.colored ColorFunc.colorError (Arg.str issue.ERROR))) := by
  have hcb : ∀ R ∈ tags.catalog, ∀ runner attr, ∀ i ∈ (R.callback runner attr).1.Issues,
      i ∈ runner.Issues ∨ colorSeverity i.Rule.Type
        = Except.ok (Arg.colored ColorFunc.colorError (Arg.str issue.ERROR)) := by
    intro R hR runner attr i hi
    have hsev := (tags.catalog_severity_of_mem R hR)
    rcases tags.catalog_callback_cases R hR runner attr with h | ⟨message, h⟩
    · rw [h] at hi
      exact Or.inl hi
    · rw [h] at hi
      simp only [List.mem_append, List.mem_singleton] at hi
      rcases hi with hi | hi
      · exact Or.inl hi
      · right
        subst hi
        simp only [tflint.Rule.Type, hsev]
        rfl
  refine ⟨rfl, rfl, rfl, ?_, colorSeverity_ok, hcb, ?_⟩
  · intro severity h1 h2 h3
    simp [colorSeverity, h1, h2, h3]
  · intro R hR runner
    rw [(tags.catalog_generic R hR).2.2, tags.genericCheck, ← (tags.catalog_generic R hR).2.1]
    exact tags.walk_issues R.callback _ (hcb R hR) _ runner

/-- C11, at the issue of AwsDBSnapshotTagsRule found through module a. -/
theorem colorSeverity_panics_only_outside_contract_witness :
    ∃ colored, colorSeverity sample.issueA.Rule.Type = Except.ok colored :=
  colorSeverity_panics_only_outside_contract.2.2.2.2.1 sample.issueA (by decide)

end formatter

namespace tags

/-- C13: for every tags rule and attribute occurrence, the callback either
emits nothing or emits exactly one issue, through EmitIssue with the rule
itself and the range of the expression of the tags attribute
(attribute.Expr.Range()): every issue it adds carries that rule and that range,
and no other range. -/
theorem callback_issue_rule_and_range (R : TagsRule) (hR : R ∈ catalog)
    (runner : tflint.Runner) (attr : hcl.Attribute) :
    ((R.callback runner attr).1 = runner ∨
      ∃ message, (R.callback runner attr).1
        = runner.EmitIssue R.rule message attr.Expr.Range) ∧
    ∀ i ∈ (R.callback runner attr).1.Issues,
      i ∈ runner.Issues ∨ (i.Rule = R.rule ∧ i.Range = attr.Expr.Range) := by
  rcases catalog_callback_cases R hR runner attr with h | ⟨message, h⟩
  · rw [h]
    exact ⟨Or.inl rfl, fun i hi => Or.inl hi⟩
  · rw [h]
    refine ⟨Or.inr ⟨message, rfl⟩, ?_⟩
    intro i hi
    simp only [List.mem_append, List.mem_singleton] at hi
    rcases hi with hi | hi
    · exact Or.inl hi
    · subst hi
      exact Or.inr ⟨rfl, rfl⟩

/-- C13, at tags `{Name = "x"}` and configured tags `["Name", "Env"]`. -/
theorem callback_issue_rule_and_range_witness :
    (NewAwsDBSnapshotTagsRule.entry.callback (sample.runnerWith ["Name", "Env"])
        (sample.tagsAttr [("Name", "x")])).1 = sample.runnerWith ["Name", "Env"] ∨
      ∃ message, (NewAwsDBSnapshotTagsRule.entry.callback (sample.runnerWith ["Name", "Env"])
          (sample.tagsAttr [("Name", "x")])).1
        = (sample.runnerWith ["Name", "Env"]).EmitIssue NewAwsDBSnapshotTagsRule.entry.rule
            message (sample.tagsAttr [("Name", "x")]).Expr.Range :=
  (callback_issue_rule_and_range NewAwsDBSnapshotTagsRule.entry (by simp [catalog])
    (sample.runnerWith ["Name", "Env"]) (sample.tagsAttr [("Name", "x")])).1

/-- C14: for every tags rule, when the tags expression evaluated without error
the callback returns nil whether or not it emitted an issue, so a walk goes on
with the remaining occurrences; when every occurrence evaluates without error,
Check returns nil. -/
theorem callback_nil_after_evaluation (R : TagsRule) (hR : R ∈ catalog)
    (runner : tflint.Runner) (attr : hcl.Attribute)
    (h : (runner.EvaluateExpr attr.Expr).2 = none) :
    (R.callback runner attr).2 = none ∧
    (∀ callers rest, tflint.Runner.walk R.callback ((callers, attr) :: rest) runner
      = tflint.Runner.walk R.callback rest
          (R.callback { runner with Callers := callers } attr).1) ∧
    ((∀ occ ∈ runner.occurrences R.resourceType R.attributeName,
        (runner.EvaluateExpr occ.2.Expr).2 = none) → (R.Check runner).2 = none) := by
  have hnil : ∀ (r : tflint.Runner) (a : hcl.Attribute), a.Expr.Err = none →
      (R.callback r a).2 = none := by
    intro r a ha
    rw [catalog_callback R hR, ha]
    simp only [tflint.Runner.EnsureNoError]
    split <;> rfl
  simp only [tflint.Runner.EvaluateExpr] at h
  refine ⟨hnil runner attr h, ?_, ?_⟩
  · intro callers rest
    have h2 := hnil { runner with Callers := callers } attr h
    conv_lhs => unfold tflint.Runner.walk
    generalize R.callback { runner with Callers := callers } attr = r at h2
    obtain ⟨runner', err⟩ := r
    simp only at h2
    subst h2
    rfl
  · intro hall
    rw [(catalog_generic R hR).2.2, genericCheck, ← (catalog_generic R hR).2.1]
    unfold tflint.Runner.WalkResourceAttributes
    generalize runner.occurrences R.resourceType R.attributeName = occs at hall
    generalize hr : runner = start
    clear hr h
    induction occs generalizing start with
    | nil => rfl
    | cons occ rest ih =>
      obtain ⟨callers, a⟩ := occ
      have ha : a.Expr.Err = none := hall (callers, a) (List.mem_cons_self _ _)
      have h2 := hnil { start with Callers := callers } a ha
      unfold tflint.Runner.walk
      generalize R.callback { start with Callers := callers } a = r at h2
      obtain ⟨runner', err⟩ := r
      simp only at h2
      subst h2
      exact ih (fun occ hocc => hall occ (List.mem_cons_of_mem _ hocc)) runner'

/-- C14, at tags `{Name = "x"}` with a configured tag missing. -/
theorem callback_nil_after_evaluation_witness :
    (NewAwsDBSnapshotTagsRule.entry.callback (sample.runnerWith ["Name", "Env"])
      (sample.tagsAttr [("Name", "x")])).2 = none :=
  (callback_nil_after_evaluation NewAwsDBSnapshotTagsRule.entry (by simp [catalog])
    (sample.runnerWith ["Name", "Env"]) (sample.tagsAttr [("Name", "x")]) rfl).1

end tags

namespace tags

/-- The callback emits nothing exactly when every configured tag is a key of
the evaluated map. -/
theorem catalog_callback_no_issue_iff (R : TagsRule) (hR : R ∈ catalog)
    (runner : tflint.Runner) (attr : hcl.Attribute) (h : attr.Expr.Err = none) :
    (R.callback runner attr).1.Issues = runner.Issues ↔
      ∀ t ∈ runner.ConfigTags, t ∈ keysOf attr.Expr.Decoded := by
  rw [catalog_callback R hR, h]
  simp only [tflint.Runner.EnsureNoError]
  by_cases hall : ∀ t ∈ runner.ConfigTags, t ∈ keysOf attr.Expr.Decoded
  · rw [if_pos hall]
    exact ⟨fun _ => hall, fun _ => rfl⟩
  · rw [if_neg hall]
    refine ⟨fun hiss => ?_, fun hx => absurd hx hall⟩
    have hlen := congrArg List.length hiss
    simp [tflint.Runner.EmitIssue] at hlen

/-- C15: for every tags rule, configured tag list and evaluated maps `m` and
`m'` where every key of `m` is a key of `m'`, if the callback emits no issue
for `m` it emits none for `m'`; in particular keys added to `m` never cause an
issue. -/
theorem callback_monotone_in_tags (R : TagsRule) (hR : R ∈ catalog)
    (runner : tflint.Runner) (attr attr' : hcl.Attribute) (m m' : StringMap)
    (hm : runner.EvaluateExpr attr.Expr = (m, none))
    (hm' : runner.EvaluateExpr attr'.Expr = (m', none))
    (hsub : ∀ k ∈ keysOf m, k ∈ keysOf m')
    (hno : (R.callback runner attr).1.Issues = runner.Issues) :
    (R.callback runner attr').1.Issues = runner.Issues := by
  simp only [tflint.Runner.EvaluateExpr, Prod.mk.injEq] at hm hm'
  obtain ⟨hdec, herr⟩ := hm
  obtain ⟨hdec', herr'⟩ := hm'
  subst hdec hdec'
  rw [catalog_callback_no_issue_iff R hR runner attr herr] at hno
  rw [catalog_callback_no_issue_iff R hR runner attr' herr']
  exact fun t ht => hsub t (hno t ht)

/-- C15, at `m = {Name = "x"}`, `m' = {Name = "x", Extra = "y"}` and the
configured tags `["Name"]`. -/
theorem callback_monotone_in_tags_witness :
    (NewAwsDBSnapshotTagsRule.entry.callback (sample.runnerWith ["Name"])
      (sample.tagsAttr [("Name", "x"), ("Extra", "y")])).1.Issues
      = (sample.runnerWith ["Name"]).Issues :=
  callback_monotone_in_tags NewAwsDBSnapshotTagsRule.entry (by simp [catalog])
    (sample.runnerWith ["Name"]) (sample.tagsAttr [("Name", "x")])
    (sample.tagsAttr [("Name", "x"), ("Extra", "y")]) [("Name", "x")]
    [("Name", "x"), ("Extra", "y")] rfl rfl (by decide) (by decide)

/-- C16: when the configured tag list is empty, the callback of every tags rule
leaves the runner as it was (no issue) for every attribute occurrence, whatever
its expression evaluates to. -/
theorem callback_no_issue_without_config_tags (R : TagsRule) (hR : R ∈ catalog)
    (runner : tflint.Runner) (attr : hcl.Attribute) (hc : runner.GetConfigTags = []) :
    (R.callback runner attr).1 = runner := by
  simp only [tflint.Runner.GetConfigTags] at hc
  rw [catalog_callback R hR]
  unfold tflint.Runner.EnsureNoError
  cases attr.Expr.Err with
  | none => simp [hc]
  | some e =>
    simp only
    split <;> rfl

/-- C16, at the empty map. -/
theorem callback_no_issue_without_config_tags_witness :
    (NewAwsDBSnapshotTagsRule.entry.callback (sample.runnerWith []) (sample.tagsAttr [])).1
      = sample.runnerWith [] :=
  callback_no_issue_without_config_tags NewAwsDBSnapshotTagsRule.entry (by simp [catalog])
    (sample.runnerWith []) (sample.tagsAttr []) rfl

/-- C17: for every rule of the tags catalog, Name is aws_resource_tags_
followed by the resource type its constructor sets and the attribute name is
tags; the rule names of the catalog are pairwise distinct and so are the
resource types walked. -/
theorem catalog_names_and_types (R : TagsRule) (hR : R ∈ catalog) :
    R.rule.Name = "aws_resource_tags_" ++ R.resourceType ∧ R.attributeName = "tags" ∧
    (catalog.map fun rule => rule.rule.Name).Nodup ∧
    (catalog.map fun rule => rule.resourceType).Nodup := by
  refine ⟨?_, ?_, by decide, by decide⟩
  · simp only [catalog, List.mem_cons, List.mem_singleton, List.not_mem_nil, or_false] at hR
    rcases hR with rfl | rfl | rfl | rfl | rfl | rfl | rfl | rfl | rfl | rfl | rfl | rfl | rfl |
      rfl | rfl | rfl | rfl <;> decide
  · exact (catalog_generic R hR).1

/-- C17, at AwsWorkspacesIPGroupTagsRule. -/
theorem catalog_names_and_types_witness :
    NewAwsWorkspacesIPGroupTagsRule.entry.rule.Name
      = "aws_resource_tags_" ++ NewAwsWorkspacesIPGroupTagsRule.entry.resourceType :=
  (catalog_names_and_types NewAwsWorkspacesIPGroupTagsRule.entry (by simp [catalog])).1

end tags

namespace formatter

/-! ### parseSources -/

/-- The map after one iteration of the loop of parseSources. -/
theorem parseSource_snd (parser : hclparse.Parser) (f : Formatter)
    (ret : List (String × hcl.File)) (entry : String × Option Bytes) :
    (parseSource parser (f, ret) entry).2
      = (ret.filter fun kv => kv.1 ≠ entry.1) ++ [(entry.1, parsedFile parser entry)] := by
  unfold parseSource parsedFile
  simp only

theorem foldl_parseSource_cons (parser : hclparse.Parser) (f : Formatter)
    (ret : List (String × hcl.File)) (entry : String × Option Bytes) (rest : Sources) :
    ∃ g, ((entry :: rest).foldl (parseSource parser) (f, ret)).2
      = (rest.foldl (parseSource parser)
          (g, (ret.filter fun kv => kv.1 ≠ entry.1) ++ [(entry.1, parsedFile parser entry)])).2 := by
  refine ⟨(parseSource parser (f, ret) entry).1, ?_⟩
  rw [List.foldl_cons, ← parseSource_snd parser f ret entry]

theorem mem_keys_filter_append (ret : List (String × hcl.File)) (name : String) (file : hcl.File)
    (k : String) :
    k ∈ ((ret.filter fun kv => kv.1 ≠ name) ++ [(name, file)]).map Prod.fst ↔
      k ∈ ret.map Prod.fst ∨ k = name := by
  rw [List.map_append, List.mem_append]
  constructor
  · rintro (h | h)
    · obtain ⟨kv, hkv, heq⟩ := List.mem_map.mp h
      exact Or.inl (List.mem_map.mpr ⟨kv, (List.mem_filter.mp hkv).1, heq⟩)
    · simp only [List.map_cons, List.map_nil, List.mem_singleton] at h
      exact Or.inr h
  · rintro (h | h)
    · by_cases hk : k = name
      · right
        simp [hk]
      · left
        obtain ⟨kv, hkv, heq⟩ := List.mem_map.mp h
        refine List.mem_map.mpr ⟨kv, List.mem_filter.mpr ⟨hkv, ?_⟩, heq⟩
        simp only [ne_eq, decide_eq_true_eq]
        rw [heq]
        exact hk
    · right
      simp [h]

theorem foldl_parseSource_keys (parser : hclparse.Parser) (sources : Sources) (f : Formatter)
    (ret : List (String × hcl.File)) (k : String) :
    k ∈ (sources.foldl (parseSource parser) (f, ret)).2.map Prod.fst ↔
      k ∈ ret.map Prod.fst ∨ k ∈ sources.map Prod.fst := by
  induction sources generalizing f ret with
  | nil => simp
  | cons entry rest ih =>
    obtain ⟨g, hg⟩ := foldl_parseSource_cons parser f ret entry rest
    rw [hg, ih, mem_keys_filter_append]
    simp only [List.map_cons, List.mem_cons]
    tauto

theorem nodup_keys_filter_append (ret : List (String × hcl.File)) (name : String)
    (file : hcl.File) (h : (ret.map Prod.fst).Nodup) :
    (((ret.filter fun kv => kv.1 ≠ name) ++ [(name, file)]).map Prod.fst).Nodup := by
  rw [List.map_append, List.nodup_append]
  refine ⟨(List.filter_sublist ret).map Prod.fst |>.nodup h, by simp, ?_⟩
  intro a ha hb
  simp only [List.map_cons, List.map_nil, List.mem_singleton] at hb
  subst hb
  simp only [List.mem_map, List.mem_filter, decide_eq_true_eq] at ha
  obtain ⟨kv, ⟨_, hne⟩, heq⟩ := ha
  exact hne heq

theorem foldl_parseSource_nodup (parser : hclparse.Parser) (sources : Sources) (f : Formatter)
    (ret : List (String × hcl.File)) (h : (ret.map Prod.fst).Nodup) :
    ((sources.foldl (parseSource parser) (f, ret)).2.map Prod.fst).Nodup := by
  induction sources generalizing f ret with
  | nil => exact h
  | cons entry rest ih =>
    obtain ⟨g, hg⟩ := foldl_parseSource_cons parser f ret entry rest
    rw [hg]
    exact ih g _ (nodup_keys_filter_append ret _ _ h)

theorem foldl_parseSource_entries (parser : hclparse.Parser) (sources : Sources) (f : Formatter)
    (ret : List (String × hcl.File)) :
    ∀ kv ∈ (sources.foldl (parseSource parser) (f, ret)).2,
      kv ∈ ret ∨ ∃ src, (kv.1, src) ∈ sources ∧ kv.2 = parsedFile parser (kv.1, src) := by
  induction sources generalizing f ret with
  | nil => intro kv hkv; exact Or.inl hkv
  | cons entry rest ih =>
    obtain ⟨g, hg⟩ := foldl_parseSource_cons parser f ret entry rest
    rw [hg]
    obtain ⟨name, src0⟩ := entry
    intro kv hkv
    rcases ih g _ kv hkv with h | ⟨src, hmem, hfile⟩
    · simp only [List.mem_append, List.mem_filter, List.mem_singleton] at h
      rcases h with ⟨h, _⟩ | h
      · exact Or.inl h
      · right
        refine ⟨src0, ?_, ?_⟩
        · rw [h]
          exact List.mem_cons_self _ _
        · rw [h]
    · exact Or.inr ⟨src, List.mem_cons_of_mem _ hmem, hfile⟩

theorem foldl_parseSource_distinct (parser : hclparse.Parser) (sources : Sources) (f : Formatter)
    (ret : List (String × hcl.File))
    (h : (ret.map Prod.fst ++ sources.map Prod.fst).Nodup) :
    (sources.foldl (parseSource parser) (f, ret)).2
      = ret ++ sources.map fun entry => (entry.1, parsedFile parser entry) := by
  induction sources generalizing f ret with
  | nil => simp
  | cons entry rest ih =>
    obtain ⟨g, hg⟩ := foldl_parseSource_cons parser f ret entry rest
    rw [hg]
    have hnot : entry.1 ∉ ret.map Prod.fst := by
      intro hmem
      rw [List.nodup_append] at h
      exact h.2.2 hmem (by simp)
    have hfilter : (ret.filter fun kv => kv.1 ≠ entry.1) = ret := by
      rw [List.filter_eq_self]
      intro kv hkv
      simp only [ne_eq, decide_eq_true_eq]
      intro heq
      exact hnot (List.mem_map.mpr ⟨kv, hkv, heq⟩)
    rw [hfilter, ih g]
    · simp
    · simp only [List.map_append, List.map_cons, List.map_nil, List.append_assoc,
        List.singleton_append]
      simpa using h

/-- C19: for every sources map, the map parseSources returns has exactly the
filenames of the sources as keys, each once, whatever diagnostics the parser
reports, and the file stored under a filename is the result of ParseJSON on a
source of that name if the filename ends with .json and of ParseHCL otherwise;
when the filenames of the sources are distinct (as the keys of a Go map are), it
is the sources with each entry replaced by that parse result. -/
theorem parseSources_keys_and_grammar (parser : hclparse.Parser) (f : Formatter)
    (sources : Sources) :
    (∀ filename, filename ∈ (parseSources parser f sources).2.map Prod.fst ↔
      filename ∈ sources.map Prod.fst) ∧
    ((parseSources parser f sources).2.map Prod.fst).Nodup ∧
    (∀ entry ∈ (parseSources parser f sources).2, ∃ src, (entry.1, src) ∈ sources ∧
      entry.2 = (if entry.1.endsWith ".json" then parser.ParseJSON src entry.1
        else parser.ParseHCL src entry.1).1) ∧
    ((sources.map Prod.fst).Nodup →
      (parseSources parser f sources).2 = sources.map fun entry =>
        (entry.1, (if entry.1.endsWith ".json" then parser.ParseJSON entry.2 entry.1
          else parser.ParseHCL entry.2 entry.1).1)) := by
  unfold parseSources
  refine ⟨fun filename => ?_, ?_, ?_, ?_⟩
  · rw [foldl_parseSource_keys]
    simp
  · exact foldl_parseSource_nodup parser sources f [] List.nodup_nil
  · intro entry hentry
    rcases foldl_parseSource_entries parser sources f [] entry hentry with h | h
    · simp at h
    · exact h
  · intro hnodup
    rw [foldl_parseSource_distinct parser sources f [] (by simpa using hnodup)]
    simp [parsedFile]

end formatter

namespace formatter

/-- C19, at a source in native syntax and a source in JSON syntax. -/
theorem parseSources_keys_and_grammar_witness :
    (parseSources sample.parser Formatter.empty sample.mixedSources).2
      = sample.mixedSources.map fun entry =>
        (entry.1, (if entry.1.endsWith ".json" then sample.parser.ParseJSON entry.2 entry.1
          else sample.parser.ParseHCL entry.2 entry.1).1) :=
  (parseSources_keys_and_grammar sample.parser Formatter.empty sample.mixedSources).2.2.2
    (by decide)

/-- C18, refuted as stated: for a list of two issues of which the second in
sort order has a rule of severity FATAL, prettyPrint writes the header for two
issues followed by the block of the first issue only, and panics. -/
theorem prettyPrint_panic_after_first_block :
    Formatter.empty.prettyPrint sample.parser [sample.issueOutsideContract, sample.issueRoot]
        none sample.sources
      = ({ Formatter.empty with
            Stdout := issuesHeader 2 :: issueBlock sample.sources sample.issueRoot },
          some "Unreachable") ∧
    issueBlock sample.sources sample.issueRoot ≠ [] := by
  decide

/-- C18, amended: for every issue list of length n whose rules report a
severity of the rule contract (ERROR, WARNING or NOTICE): if n > 0, prettyPrint
writes on Stdout the header for n issues followed by the blocks of the n issues
of the sorted list; if n = 0 it writes nothing on Stdout, and nothing at all
when the error is nil as well.  What is written on Stdout does not depend on
the error, and what is written on Stderr does not depend on the issues: with a
nil error nothing, otherwise the calls of printErrors. -/
theorem prettyPrint_header_and_blocks (f : Formatter) (parser : hclparse.Parser)
    (issues : tflint.Issues) (err : Option tflint.Error) (sources : Sources)
    (hvalid : ∀ i ∈ issues, severityInContract i) :
    (issues.length > 0 →
      (f.prettyPrint parser issues err sources).1.Stdout
        = f.Stdout ++ issuesHeader issues.length ::
            (tflint.Issues.Sort issues).flatMap (issueBlock sources) ∧
      (tflint.Issues.Sort issues).length = issues.length) ∧
    (issues.length = 0 → (f.prettyPrint parser issues err sources).1.Stdout = f.Stdout) ∧
    (issues.length = 0 → err = none → f.prettyPrint parser issues err sources = (f, none)) ∧
    (f.prettyPrint parser issues err sources).1.Stdout
      = (f.prettyPrint parser issues none sources).1.Stdout ∧
    (f.prettyPrint parser issues err sources).1.Stderr
      = (f.prettyPrint parser [] err sources).1.Stderr ∧
    (f.prettyPrint parser issues none sources).1.Stderr = f.Stderr ∧
    (∀ e, (f.prettyPrint parser issues (some e) sources).1.Stderr
      = f.Stderr ++ (Formatter.empty.printErrors parser e sources).1.Stderr) := by
  have hnil : ∀ i ∈ ([] : tflint.Issues), severityInContract i := by
    intro i hi
    simp at hi
  have hout : ∀ err', (f.prettyPrint parser issues err' sources).1.Stdout
      = f.Stdout ++ (if issues = [] then []
          else issuesHeader issues.length ::
            (tflint.Issues.Sort issues).flatMap (issueBlock sources)) := by
    intro err'
    rw [prettyPrint_eq f parser issues err' sources hvalid]
    cases err' with
    | none => by_cases hne : issues = [] <;> simp [hne, Formatter.outs]
    | some e =>
      simp only [(printErrors_frame parser e sources _).1]
      by_cases hne : issues = [] <;> simp [hne, Formatter.outs]
  have herr : ∀ (l : tflint.Issues), (∀ i ∈ l, severityInContract i) → ∀ err',
      (f.prettyPrint parser l err' sources).1.Stderr
        = f.Stderr ++ (match err' with
          | some e => (Formatter.empty.printErrors parser e sources).1.Stderr
          | none => []) := by
    intro l hl err'
    rw [prettyPrint_eq f parser l err' sources hl]
    cases err' with
    | none => by_cases hne : l = [] <;> simp [hne, Formatter.outs]
    | some e =>
      by_cases hne : l = []
      · simp only [hne, if_true]
        exact (printErrors_frame parser e sources f).2.1
      · simp only [hne, if_false]
        exact (printErrors_frame parser e sources _).2.1
  refine ⟨?_, ?_, ?_, ?_, ?_, ?_, ?_⟩
  · intro hlen
    have hne : issues ≠ [] := List.length_pos.mp hlen
    rw [hout err, if_neg hne]
    exact ⟨rfl, (tflint.Issues.sort_perm issues).length_eq⟩
  · intro hlen
    have he : issues = [] := List.length_eq_zero.mp hlen
    rw [hout err, if_pos he, List.append_nil]
  · intro hlen herrnil
    have he : issues = [] := List.length_eq_zero.mp hlen
    subst he herrnil
    rfl
  · rw [hout err, hout none]
  · rw [herr issues hvalid err, herr [] hnil err]
  · rw [herr issues hvalid none]
    simp
  · intro e
    rw [herr issues hvalid (some e)]

/-- C18 amended, at two issues and a nil error. -/
theorem prettyPrint_header_and_blocks_witness :
    (Formatter.empty.prettyPrint sample.parser [sample.issueA, sample.issueRoot] none
        sample.sources).1.Stdout
      = Formatter.empty.Stdout ++ issuesHeader [sample.issueA, sample.issueRoot].length ::
          (tflint.Issues.Sort [sample.issueA, sample.issueRoot]).flatMap
            (issueBlock sample.sources) :=
  ((prettyPrint_header_and_blocks Formatter.empty sample.parser
    [sample.issueA, sample.issueRoot] none sample.sources (by decide)).1 (by decide)).1

end formatter

namespace hcl

/-! ### The range scanner -/

theorem advances_flatten (b : Bytes) : (advances b).flatten = b := by
  induction b with
  | nil => rfl
  | cons c rest ih =>
    rw [advances]
    by_cases hc : c = 10
    · simp [hc, ih]
    · simp only [hc, if_false]
      cases hadv : advances rest with
      | nil =>
        rw [hadv] at ih
        simp only [List.flatten_nil] at ih
        simp [← ih]
      | cons line lines =>
        rw [hadv] at ih
        simp only [List.flatten_cons] at ih ⊢
        rw [List.cons_append, ih]

theorem advances_stretch (b : Bytes) : ∀ adv ∈ advances b, adv ≠ [] ∧ 10 ∉ adv.dropLast := by
  induction b with
  | nil => intro adv h; simp [advances] at h
  | cons c rest ih =>
    intro adv h
    rw [advances] at h
    by_cases hc : c = 10
    · simp only [hc, if_true, List.mem_cons] at h
      rcases h with h | h
      · subst h
        simp
      · exact ih adv h
    · simp only [hc, if_false] at h
      cases hadv : advances rest with
      | nil =>
        rw [hadv] at h
        simp only [List.mem_singleton] at h
        subst h
        simp
      | cons line lines =>
        rw [hadv] at h ih
        simp only [List.mem_cons] at h
        rcases h with h | h
        · subst h
          have hline := ih line (List.mem_cons_self _ _)
          refine ⟨by simp, ?_⟩
          obtain ⟨x, xs, hx⟩ := List.exists_cons_of_ne_nil hline.1
          subst hx
          rw [List.dropLast_cons₂]
          simp only [List.mem_cons, not_or]
          exact ⟨fun h10 => hc h10.symm, hline.2⟩
        · exact ih adv (List.mem_cons_of_mem _ h)

theorem advances_chain (b : Bytes) :
    List.Chain' (fun adv _ => adv.getLast? = some 10) (advances b) := by
  induction b with
  | nil => simp [advances]
  | cons c rest ih =>
    rw [advances]
    by_cases hc : c = 10
    · simp only [hc, if_true]
      exact List.Chain'.cons' ih (fun y _ => by simp)
    · simp only [hc, if_false]
      cases hadv : advances rest with
      | nil => simp
      | cons line lines =>
        rw [hadv] at ih
        have hline : line ≠ [] := by
          have := advances_stretch rest line (by rw [hadv]; exact List.mem_cons_self _ _)
          exact this.1
        cases lines with
        | nil => simp
        | cons l2 ls =>
          rw [List.chain'_cons] at ih ⊢
          refine ⟨?_, ih.2⟩
          obtain ⟨x, xs, hx⟩ := List.exists_cons_of_ne_nil hline
          subst hx
          rw [List.getLast?_cons_cons]
          exact ih.1

theorem scanClusters_new_byte (tokenLen : Nat) (l : Bytes) (advanced : Nat) (stop new : Pos) :
    (scanClusters tokenLen l advanced stop new).2.Byte = new.Byte + l.length := by
  induction l, advanced, stop, new using scanClusters.induct tokenLen with
  | case1 x stop new => simp [scanClusters]
  | case2 rest advanced stop new new_1 stop_1 ih =>
    rw [scanClusters.eq_2, ih]
    simp only [new_1, List.length_cons]
    push_cast
    ring
  | case3 c rest advanced stop new hne new_1 new_2 stop_1 ih =>
    rw [scanClusters.eq_3 _ _ _ _ _ _ hne, ih]
    have h2 : new_2.Byte = new.Byte + 1 := by
      simp only [new_2, new_1]
      split <;> rfl
    rw [h2]
    simp only [List.length_cons]
    push_cast
    ring

theorem scanClusters_new_line (tokenLen : Nat) (l : Bytes) (advanced : Nat) (stop new : Pos) :
    new.Line ≤ (scanClusters tokenLen l advanced stop new).2.Line ∧
      (10 ∈ l → new.Line < (scanClusters tokenLen l advanced stop new).2.Line) := by
  induction l, advanced, stop, new using scanClusters.induct tokenLen with
  | case1 x stop new => simp [scanClusters]
  | case2 rest advanced stop new new_1 stop_1 ih =>
    have e : scanClusters tokenLen (13 :: 10 :: rest) advanced stop new
        = scanClusters tokenLen rest (advanced + 2) stop_1 new_1 := scanClusters.eq_2 _ _ _ _ _
    rw [e]
    have h1 : new_1.Line = new.Line + 1 := rfl
    constructor
    · have := ih.1
      omega
    · intro _
      have := ih.1
      omega
  | case3 c rest advanced stop new hne new_1 new_2 stop_1 ih =>
    have e : scanClusters tokenLen (c :: rest) advanced stop new
        = scanClusters tokenLen rest (advanced + 1) stop_1 new_2 :=
      scanClusters.eq_3 _ _ _ _ _ _ hne
    rw [e]
    have h2 : new.Line ≤ new_2.Line ∧ (c = 10 → new.Line < new_2.Line) := by
      simp only [new_2, new_1]
      split
      · exact ⟨by simp, fun _ => by simp⟩
      · rename_i hc
        exact ⟨le_refl _, fun h10 => absurd (Or.inr h10) hc⟩
    constructor
    · have := ih.1
      omega
    · intro hmem
      rcases List.mem_cons.mp hmem with h10 | hrest
      · have := ih.1
        have := h2.2 h10.symm
        omega
      · have := ih.2 hrest
        omega

theorem scanClusters_stop_unchanged (tokenLen : Nat) (l : Bytes) (advanced : Nat)
    (stop new : Pos) (h : tokenLen ≤ advanced) :
    (scanClusters tokenLen l advanced stop new).1 = stop := by
  induction l, advanced, stop, new using scanClusters.induct tokenLen with
  | case1 x stop new => simp [scanClusters]
  | case2 rest advanced stop new new_1 stop_1 ih =>
    rw [scanClusters.eq_2, ih (by omega)]
    simp only [stop_1]
    rw [if_neg (by omega)]
  | case3 c rest advanced stop new hne new_1 new_2 stop_1 ih =>
    rw [scanClusters.eq_3 _ _ _ _ _ _ hne, ih (by omega)]
    simp only [stop_1]
    rw [if_neg (by omega)]

theorem scanClusters_stop_byte (tokenLen : Nat) (t rest : Bytes) (advanced : Nat)
    (stop new : Pos) (ht : t ≠ []) (hlen : advanced + t.length = tokenLen) (h10 : 10 ∉ t)
    (hcr : t.getLast? = some 13 → rest.head? ≠ some 10) :
    (scanClusters tokenLen (t ++ rest) advanced stop new).1.Byte = new.Byte + t.length := by
  induction t generalizing advanced stop new with
  | nil => exact absurd rfl ht
  | cons c t' ih =>
    have hc10 : c ≠ 10 := fun h => h10 (by simp [h])
    have hne : ∀ rest_1 : List Nat, c = 13 → t' ++ rest = 10 :: rest_1 → False := by
      intro rest_1 hc13 heq
      cases t' with
      | nil =>
        simp only [List.nil_append] at heq
        exact hcr (by simp [hc13]) (by simp [heq])
      | cons x xs =>
        simp only [List.cons_append, List.cons.injEq] at heq
        exact h10 (by simp [heq.1])
    rw [List.cons_append, scanClusters.eq_3 _ _ _ _ _ _ hne]
    have hadv : advanced < tokenLen := by
      simp only [List.length_cons] at hlen
      omega
    rw [if_pos hadv]
    by_cases ht' : t' = []
    · subst ht'
      rw [List.nil_append, scanClusters_stop_unchanged _ _ _ _ _
        (by simp only [List.length_cons, List.length_nil] at hlen; omega)]
      split <;> simp
    · rw [ih _ _ _ ht' (by simp only [List.length_cons] at hlen; omega)
        (fun h => h10 (List.mem_cons_of_mem _ h))
        (fun h => hcr (by
          obtain ⟨x, xs, hx⟩ := List.exists_cons_of_ne_nil ht'
          subst hx
          rw [List.getLast?_cons_cons]
          exact h))]
      split <;> simp only [List.length_cons] <;> push_cast <;> ring

theorem lineToken_split (adv : Bytes) (h10 : 10 ∉ adv.dropLast) :
    ∃ rest, adv = lineToken adv ++ rest ∧ 10 ∉ lineToken adv ∧
      ((lineToken adv).getLast? = some 13 → rest.head? ≠ some 10) := by
  unfold lineToken dropCR
  by_cases hnl : adv.getLast? = some 10
  · have hadv : adv.dropLast ++ [10] = adv := List.dropLast_append_getLast? 10 hnl
    simp only [hnl, if_true]
    by_cases hcr : adv.dropLast.getLast? = some 13
    · have hbody : adv.dropLast.dropLast ++ [13] = adv.dropLast :=
        List.dropLast_append_getLast? 13 hcr
      simp only [hcr, if_true]
      refine ⟨[13, 10], ?_, ?_, ?_⟩
      · conv_lhs => rw [← hadv, ← hbody]
        simp
      · intro hmem
        exact h10 ((List.dropLast_sublist _).subset hmem)
      · intro _
        simp
    · simp only [hcr, if_false]
      refine ⟨[10], hadv.symm, h10, ?_⟩
      intro h13
      exact h13.elim
  · simp only [hnl, if_false]
    have hno : 10 ∉ adv := by
      intro hmem
      cases hl : adv.getLast? with
      | none =>
        rw [List.getLast?_eq_none_iff] at hl
        subst hl
        simp at hmem
      | some x =>
        have hadv : adv.dropLast ++ [x] = adv := List.dropLast_append_getLast? x hl
        rw [← hadv, List.mem_append] at hmem
        rcases hmem with hmem | hmem
        · exact h10 hmem
        · simp only [List.mem_singleton] at hmem
          rw [← hmem] at hl
          exact hnl hl
    by_cases hcr : adv.getLast? = some 13
    · simp only [hcr, if_true]
      refine ⟨[13], (List.dropLast_append_getLast? 13 hcr).symm, h10, ?_⟩
      intro _
      simp
    · simp only [hcr, if_false]
      refine ⟨[], by simp, hno, ?_⟩
      intro h13
      exact h13.elim

theorem scanFrom_cons (filename : String) (adv : Bytes) (rest : List Bytes) (pos : Pos) :
    scanFrom filename (adv :: rest) pos =
      ({ Filename := filename, Start := pos,
          End := (scanClusters (lineToken adv).length adv 0 pos pos).1 }, lineToken adv)
        :: scanFrom filename rest (scanClusters (lineToken adv).length adv 0 pos pos).2 := by
  rw [scanFrom]

theorem scanFrom_line_ge (filename : String) (chunks : List Bytes) (pos : Pos) :
    ∀ sc ∈ scanFrom filename chunks pos, pos.Line ≤ sc.1.Start.Line := by
  induction chunks generalizing pos with
  | nil => intro sc h; simp [scanFrom] at h
  | cons adv rest ih =>
    intro sc h
    rw [scanFrom_cons, List.mem_cons] at h
    rcases h with h | h
    · subst h
      exact le_refl _
    · have h1 := ih _ sc h
      have h2 := (scanClusters_new_line (lineToken adv).length adv 0 pos pos).1
      omega

theorem scanFrom_lines_ascending (filename : String) (chunks : List Bytes) (pos : Pos)
    (hchain : List.Chain' (fun adv _ => adv.getLast? = some 10) chunks) :
    List.Pairwise (fun a b : Range × Bytes => a.1.Start.Line < b.1.Start.Line)
      (scanFrom filename chunks pos) := by
  induction chunks generalizing pos with
  | nil => simp [scanFrom]
  | cons adv rest ih =>
    rw [scanFrom_cons, List.pairwise_cons]
    refine ⟨?_, ih _ hchain.tail⟩
    intro sc hsc
    cases rest with
    | nil => simp [scanFrom] at hsc
    | cons adv2 rest2 =>
      have hlast : adv.getLast? = some 10 := (List.chain'_cons.mp hchain).1
      have hmem : 10 ∈ adv := List.mem_of_getLast?_eq_some hlast
      have h1 := (scanClusters_new_line (lineToken adv).length adv 0 pos pos).2 hmem
      have h2 := scanFrom_line_ge filename _ _ sc hsc
      show pos.Line < sc.1.Start.Line
      omega

theorem scanFrom_spec (filename : String) (chunks : List Bytes) (pre : Bytes) (pos : Pos)
    (hpos : pos.Byte = pre.length)
    (hst : ∀ adv ∈ chunks, adv ≠ [] ∧ 10 ∉ adv.dropLast) :
    ∀ sc ∈ scanFrom filename chunks pos,
      sc.1.Filename = filename ∧
      ∃ k : Nat, sc.1.Start.Byte = k ∧ sc.1.End.Byte = k + sc.2.length ∧
        ((pre ++ chunks.flatten).drop k).take sc.2.length = sc.2 := by
  induction chunks generalizing pre pos with
  | nil => intro sc h; simp [scanFrom] at h
  | cons adv rest ih =>
    intro sc h
    rw [scanFrom_cons, List.mem_cons] at h
    obtain ⟨tail, hsplit, hno10, hcr⟩ := lineToken_split adv (hst adv (List.mem_cons_self _ _)).2
    rcases h with h | h
    · subst h
      refine ⟨rfl, pre.length, hpos, ?_, ?_⟩
      · show (scanClusters (lineToken adv).length adv 0 pos pos).1.Byte = _
        by_cases htok : lineToken adv = []
        · rw [htok, List.length_nil, scanClusters_stop_unchanged _ _ _ _ _ (le_refl _), hpos]
          simp
        · have hstop := scanClusters_stop_byte (lineToken adv).length (lineToken adv) tail 0
            pos pos htok (by simp) hno10 hcr
          rw [← hsplit] at hstop
          rw [hstop, hpos]
      · show List.take (lineToken adv).length
            (List.drop pre.length (pre ++ (adv :: rest).flatten)) = lineToken adv
        rw [List.drop_left, List.flatten_cons]
        generalize lineToken adv = tok at hsplit
        subst hsplit
        rw [List.append_assoc, List.take_left]
    · have hnew : (scanClusters (lineToken adv).length adv 0 pos pos).2.Byte
          = ((pre ++ adv).length : Nat) := by
        rw [scanClusters_new_byte, hpos]
        simp
      have := ih (pre ++ adv) _ hnew (fun a ha => hst a (List.mem_cons_of_mem _ ha)) sc h
      simpa [List.flatten_cons, List.append_assoc] using this

/-- Every scanned line lies in the buffer at the bytes of its range. -/
theorem scanLines_spec (src : Bytes) (filename : String) :
    ∀ sc ∈ scanLines src filename,
      sc.1.Filename = filename ∧
      ∃ k : Nat, sc.1.Start.Byte = k ∧ sc.1.End.Byte = k + sc.2.length ∧
        (src.drop k).take sc.2.length = sc.2 := by
  intro sc h
  have := scanFrom_spec filename (advances src) [] InitialPos rfl (advances_stretch src) sc h
  simpa [advances_flatten] using this

/-- The scanned lines have ascending line numbers. -/
theorem scanLines_ascending (src : Bytes) (filename : String) :
    List.Pairwise (fun a b : Range × Bytes => a.1.Start.Line < b.1.Start.Line)
      (scanLines src filename) :=
  scanFrom_lines_ascending filename _ _ (advances_chain src)

end hcl

namespace hcl

/-! ### Partition of a line around a range -/

theorem overlaps_facts (r other : Range) (h : r.Overlaps other = true) :
    r.Start.Byte ≠ r.End.Byte ∧ other.Start.Byte ≠ other.End.Byte ∧
    ((r.Start.Byte ≤ other.Start.Byte ∧ other.Start.Byte < r.End.Byte) ∨
      (r.Start.Byte ≤ other.End.Byte ∧ other.End.Byte < r.End.Byte) ∨
      (other.Start.Byte ≤ r.Start.Byte ∧ r.Start.Byte < other.End.Byte) ∨
      (other.Start.Byte ≤ r.End.Byte ∧ r.End.Byte < other.End.Byte)) := by
  unfold Range.Overlaps at h
  by_cases h1 : r.Filename ≠ other.Filename
  · simp [h1] at h
  · by_cases h2 : (r.Empty || other.Empty) = true
    · simp [h1, h2] at h
    · simp only [h1, h2, if_false] at h
      simp only [Range.Empty, Bool.or_eq_true, beq_iff_eq, not_or] at h2
      refine ⟨h2.1, h2.2, ?_⟩
      by_cases h3 : (r.ContainsOffset other.Start.Byte || r.ContainsOffset other.End.Byte) = true
      · simp only [Range.ContainsOffset, Bool.or_eq_true, Bool.and_eq_true, decide_eq_true_eq,
          ge_iff_le] at h3
        rcases h3 with h3 | h3
        · exact Or.inl h3
        · exact Or.inr (Or.inl h3)
      · by_cases h4 : (other.ContainsOffset r.Start.Byte || other.ContainsOffset r.End.Byte) = true
        · simp only [Range.ContainsOffset, Bool.or_eq_true, Bool.and_eq_true, decide_eq_true_eq,
            ge_iff_le] at h4
          rcases h4 with h4 | h4
          · exact Or.inr (Or.inr (Or.inl h4))
          · exact Or.inr (Or.inr (Or.inr h4))
        · simp [h3, h4] at h

theorem sliceBytes_eq (r : Range) (b : Bytes) (x y : Nat) (hx : r.Start.Byte = x)
    (hy : r.End.Byte = y) (hxy : x ≤ y) (hyl : y ≤ b.length) :
    r.SliceBytes b = (b.drop x).take (y - x) := by
  unfold Range.SliceBytes clampOffset
  rw [hx, hy]
  have h1 : ¬ ((x : Int) < 0) := by omega
  have h2 : ¬ ((x : Int) > (b.length : Nat)) := by omega
  have h3 : ¬ ((y : Int) < 0) := by omega
  have h4 : ¬ ((y : Int) > (b.length : Nat)) := by omega
  simp only [h1, h2, h3, h4, if_false, Int.toNat_ofNat]
  have h5 : ¬ (y < x) := by omega
  simp only [h5, if_false]

theorem take_drop_three {α : Type} (b : List α) (x m1 m2 y : Nat) (h1 : x ≤ m1) (h2 : m1 ≤ m2)
    (h3 : m2 ≤ y) :
    (b.drop x).take (m1 - x) ++ (b.drop m1).take (m2 - m1) ++ (b.drop m2).take (y - m2)
      = (b.drop x).take (y - x) := by
  have e1 : y - x = (m1 - x) + ((m2 - m1) + (y - m2)) := by omega
  rw [e1, List.take_add, List.take_add, List.drop_drop, List.drop_drop, List.append_assoc]
  have e2 : x + (m1 - x) = m1 := by omega
  have e3 : m1 + (m2 - m1) = m2 := by omega
  rw [e2, e3]

/-- For a line that lies in the buffer and a range whose start is not after
its end, the three slices of a partition with a highlighted part that is not
empty make up the line. -/
theorem partition_slices (src : Bytes) (line other : Range) (k n : Nat)
    (hs : line.Start.Byte = k) (he : line.End.Byte = k + n) (hlen : k + n ≤ src.length)
    (hother : other.Start.Byte ≤ other.End.Byte) (hov : line.Overlaps other = true)
    (hne : (line.PartitionAround other).2.1.Empty = false) :
    (line.PartitionAround other).1.SliceBytes src
        ++ (line.PartitionAround other).2.1.SliceBytes src
        ++ (line.PartitionAround other).2.2.SliceBytes src
      = (src.drop k).take n := by
  obtain ⟨hl, ho, hcases⟩ := overlaps_facts line other hov
  have hovl : line.Overlap other =
      { Filename := line.Filename,
        Start := if line.Start.Byte > other.Start.Byte then line.Start else other.Start,
        End := if line.End.Byte < other.End.Byte then line.End else other.End } := by
    unfold Range.Overlap
    simp [hov]
  have hpart : line.PartitionAround other =
      ({ Filename := line.Filename, Start := line.Start, End := (line.Overlap other).Start },
        line.Overlap other,
        { Filename := line.Filename, Start := (line.Overlap other).End, End := line.End }) := by
    unfold Range.PartitionAround at hne ⊢
    by_cases hemp : (line.Overlap other).Empty = true
    · simp [hemp] at hne
    · simp [hemp]
  rw [hpart] at hne ⊢
  simp only at hne ⊢
  have hsb : ∃ m1 : Nat, (line.Overlap other).Start.Byte = m1 ∧ k ≤ m1 := by
    rw [hovl]
    simp only
    split
    · exact ⟨k, hs, le_refl _⟩
    · rename_i hgt
      have h0 : 0 ≤ other.Start.Byte := by omega
      obtain ⟨m, hm⟩ := Int.eq_ofNat_of_zero_le h0
      exact ⟨m, hm, by omega⟩
  have heb : ∃ m2 : Nat, (line.Overlap other).End.Byte = m2 ∧ m2 ≤ k + n := by
    rw [hovl]
    simp only
    split
    · exact ⟨k + n, by rw [he]; push_cast; rfl, le_refl _⟩
    · rename_i hlt
      have h0 : 0 ≤ other.End.Byte := by omega
      obtain ⟨m, hm⟩ := Int.eq_ofNat_of_zero_le h0
      exact ⟨m, hm, by omega⟩
  obtain ⟨m1, hm1, hkm1⟩ := hsb
  obtain ⟨m2, hm2, hm2e⟩ := heb
  have hm12 : m1 ≤ m2 := by
    have h1 := hm1
    have h2 := hm2
    rw [hovl] at h1 h2
    simp only at h1 h2
    split at h1 <;> split at h2 <;> omega
  rw [sliceBytes_eq
      { Filename := line.Filename, Start := line.Start, End := (line.Overlap other).Start }
      src k m1 hs hm1 hkm1 (by omega),
    sliceBytes_eq (line.Overlap other) src m1 m2 hm1 hm2 hm12 (by omega),
    sliceBytes_eq
      { Filename := line.Filename, Start := (line.Overlap other).End, End := line.End }
      src m2 (k + n) hm2 (by rw [he]; push_cast; rfl) hm2e hlen,
    take_drop_three src k m1 m2 (k + n) hkm1 hm12 hm2e]
  congr 1
  omega

end hcl

namespace hcl

/-! ### The overlap test in bytes -/

theorem not_overlaps_facts (r other : Range) (h : r.Overlaps other = false) :
    r.Filename ≠ other.Filename ∨ r.Start.Byte = r.End.Byte ∨
    other.Start.Byte = other.End.Byte ∨
    (¬ (r.Start.Byte ≤ other.Start.Byte ∧ other.Start.Byte < r.End.Byte) ∧
      ¬ (r.Start.Byte ≤ other.End.Byte ∧ other.End.Byte < r.End.Byte) ∧
      ¬ (other.Start.Byte ≤ r.Start.Byte ∧ r.Start.Byte < other.End.Byte) ∧
      ¬ (other.Start.Byte ≤ r.End.Byte ∧ r.End.Byte < other.End.Byte)) := by
  unfold Range.Overlaps at h
  by_cases h1 : r.Filename ≠ other.Filename
  · exact Or.inl h1
  · by_cases h2 : (r.Empty || other.Empty) = true
    · simp only [Range.Empty, Bool.or_eq_true, beq_iff_eq] at h2
      rcases h2 with h2 | h2
      · exact Or.inr (Or.inl h2)
      · exact Or.inr (Or.inr (Or.inl h2))
    · simp only [h1, h2, if_false] at h
      by_cases h3 : (r.ContainsOffset other.Start.Byte || r.ContainsOffset other.End.Byte) = true
      · simp [h3] at h
      · by_cases h4 : (other.ContainsOffset r.Start.Byte || other.ContainsOffset r.End.Byte) = true
        · simp [h3, h4] at h
        · simp only [Range.ContainsOffset, Bool.or_eq_true, Bool.and_eq_true, decide_eq_true_eq,
            ge_iff_le, not_or] at h3 h4
          exact Or.inr (Or.inr (Or.inr ⟨h3.1, h3.2, h4.1, h4.2⟩))

/-- For ranges of one file that do not end before they start, the overlap test
of the library holds exactly when the ranges share a byte or touch. -/
theorem overlaps_eq_shares_or_touches (r other : Range) (hfile : r.Filename = other.Filename)
    (hr : r.Start.Byte ≤ r.End.Byte) (ho : other.Start.Byte ≤ other.End.Byte) :
    r.Overlaps other = (r.sharesByte other || r.touches other) := by
  cases hov : r.Overlaps other with
  | true =>
    obtain ⟨h1, h2, h3⟩ := overlaps_facts r other hov
    symm
    simp only [Range.sharesByte, Range.touches, Bool.or_eq_true, decide_eq_true_eq]
    omega
  | false =>
    have hfacts := not_overlaps_facts r other hov
    symm
    simp only [Range.sharesByte, Range.touches, Bool.or_eq_false_iff, decide_eq_false_iff_not]
    rcases hfacts with h | h | h | h
    · exact absurd hfile h
    · constructor <;> omega
    · constructor <;> omega
    · constructor <;> omega

/-- The highlighted range of a line that passes the overlap test is empty
exactly when the line shares no byte with the range. -/
theorem partition_empty_iff (line other : Range) (hr : line.Start.Byte ≤ line.End.Byte)
    (ho : other.Start.Byte ≤ other.End.Byte) (hov : line.Overlaps other = true) :
    (line.PartitionAround other).2.1.Empty = !line.sharesByte other := by
  obtain ⟨h1, h2, h3⟩ := overlaps_facts line other hov
  have hmid : (line.PartitionAround other).2.1 = line.Overlap other := by
    unfold Range.PartitionAround
    simp only
    split <;> rfl
  have hovl : line.Overlap other =
      { Filename := line.Filename,
        Start := if line.Start.Byte > other.Start.Byte then line.Start else other.Start,
        End := if line.End.Byte < other.End.Byte then line.End else other.End } := by
    unfold Range.Overlap
    simp [hov]
  rw [hmid, hovl]
  simp only [Range.Empty, Range.sharesByte]
  by_cases hs : line.Start.Byte > other.Start.Byte <;>
  by_cases he : line.End.Byte < other.End.Byte <;>
  simp only [hs, he, if_true, if_false] <;>
  rw [Bool.eq_iff_iff] <;>
  simp only [beq_iff_eq, Bool.not_eq_true', decide_eq_false_iff_not] <;>
  omega

end hcl

namespace hcl

theorem overlap_bounds (line other : Range) (hov : line.Overlaps other = true) :
    (line.PartitionAround other).2.1.Start.Byte = max line.Start.Byte other.Start.Byte ∧
    (line.PartitionAround other).2.1.End.Byte = min line.End.Byte other.End.Byte := by
  have hmid : (line.PartitionAround other).2.1 = line.Overlap other := by
    unfold Range.PartitionAround
    simp only
    split <;> rfl
  have hovl : line.Overlap other =
      { Filename := line.Filename,
        Start := if line.Start.Byte > other.Start.Byte then line.Start else other.Start,
        End := if line.End.Byte < other.End.Byte then line.End else other.End } := by
    unfold Range.Overlap
    simp [hov]
  rw [hmid, hovl]
  by_cases hs : line.Start.Byte > other.Start.Byte <;>
  by_cases he : line.End.Byte < other.End.Byte <;>
  simp only [hs, he, if_true, if_false] <;>
  constructor <;> omega

/-- The highlighted slice of a line that shares a byte with the range: the bytes
of the source from the later start to the earlier end, at least one. -/
theorem partition_highlight (src : Bytes) (line other : Range) (k n : Nat)
    (hs : line.Start.Byte = k) (he : line.End.Byte = k + n) (hlen : k + n ≤ src.length)
    (hov : line.Overlaps other = true) (hshare : line.sharesByte other = true) :
    (line.PartitionAround other).2.1.SliceBytes src
      = (src.drop (max line.Start.Byte other.Start.Byte).toNat).take
          (min line.End.Byte other.End.Byte - max line.Start.Byte other.Start.Byte).toNat ∧
    (line.PartitionAround other).2.1.SliceBytes src ≠ [] := by
  obtain ⟨hb, hen⟩ := overlap_bounds line other hov
  simp only [Range.sharesByte, decide_eq_true_eq] at hshare
  have hslice := sliceBytes_eq (line.PartitionAround other).2.1 src
    (max line.Start.Byte other.Start.Byte).toNat (min line.End.Byte other.End.Byte).toNat
    (by rw [hb]; omega) (by rw [hen]; omega) (by omega) (by omega)
  have hsub : (min line.End.Byte other.End.Byte).toNat
        - (max line.Start.Byte other.Start.Byte).toNat
      = (min line.End.Byte other.End.Byte - max line.Start.Byte other.Start.Byte).toNat := by
    omega
  rw [hsub] at hslice
  refine ⟨hslice, ?_⟩
  rw [hslice]
  intro hnil
  have hl := congrArg List.length hnil
  simp only [List.length_take, List.length_drop, List.length_nil] at hl
  omega

end hcl

namespace formatter

/-! ### The source lines of an issue -/

theorem lineWrites_not_overlap (src : Bytes) (rng : hcl.Range) (sc : hcl.Range × Bytes)
    (h : sc.1.Overlaps rng = false) : lineWrites src rng sc = [] := by
  unfold lineWrites printSourceLine
  simp [h, Formatter.empty]

theorem lineWrites_overlap (src : Bytes) (rng : hcl.Range) (sc : hcl.Range × Bytes) (k : Nat)
    (hs : sc.1.Start.Byte = k) (he : sc.1.End.Byte = k + sc.2.length)
    (htok : (src.drop k).take sc.2.length = sc.2) (hrng : rng.Start.Byte ≤ rng.End.Byte)
    (hov : sc.1.Overlaps rng = true) :
    ∃ w, lineWrites src rng sc = [w] ∧ printsLineAround src rng sc w := by
  have hempty := hcl.partition_empty_iff sc.1 rng (by omega) hrng hov
  unfold lineWrites printSourceLine
  by_cases hemp : (sc.1.PartitionAround rng).2.1.Empty = true
  · have hshare : sc.1.sharesByte rng = false := by
      rw [hemp] at hempty
      simpa using hempty.symm
    refine ⟨_, ?_, Or.inr ⟨hshare, rfl⟩⟩
    simp [hov, hemp, Formatter.out, Formatter.empty]
  · have hshare : sc.1.sharesByte rng = true := by
      have hfalse : (sc.1.PartitionAround rng).2.1.Empty = false := by simpa using hemp
      rw [hfalse] at hempty
      simpa using hempty.symm
    have hlen : k + sc.2.length ≤ src.length := by
      have h1 := congrArg List.length htok
      simp only [List.length_take, List.length_drop] at h1
      have hpos : sc.2.length ≠ 0 := by
        intro h0
        have hfacts := (hcl.overlaps_facts sc.1 rng hov).1
        rw [hs, he, h0] at hfacts
        simp at hfacts
      omega
    obtain ⟨hhigh, hne⟩ := hcl.partition_highlight src sc.1 rng k sc.2.length hs he hlen hov hshare
    refine ⟨Write.Fprintf "%4d: %s%s%s\n"
        [Arg.int sc.1.Start.Line, Arg.bytes ((sc.1.PartitionAround rng).1.SliceBytes src),
         Arg.colored ColorFunc.colorHighlight
           (Arg.bytes ((sc.1.PartitionAround rng).2.1.SliceBytes src)),
         Arg.bytes ((sc.1.PartitionAround rng).2.2.SliceBytes src)], ?_,
      Or.inl ⟨hshare, (sc.1.PartitionAround rng).1.SliceBytes src,
        (sc.1.PartitionAround rng).2.1.SliceBytes src,
        (sc.1.PartitionAround rng).2.2.SliceBytes src, rfl, ?_, hne, hhigh⟩⟩
    · simp [hov, hemp, Formatter.out, Formatter.empty]
    · rw [hcl.partition_slices src sc.1 rng k sc.2.length hs he hlen hrng hov
        (by simpa using hemp), htok]

theorem forall₂_filter_flatMap {α β : Type} (l : List α) (p : α → Bool) (g : α → List β)
    (R : α → β → Prop) (h0 : ∀ x ∈ l, p x = false → g x = [])
    (h1 : ∀ x ∈ l, p x = true → ∃ w, g x = [w] ∧ R x w) :
    List.Forall₂ R (l.filter p) (l.flatMap g) := by
  induction l with
  | nil => simp
  | cons x rest ih =>
    have ih' := ih (fun y hy => h0 y (List.mem_cons_of_mem _ hy))
      (fun y hy => h1 y (List.mem_cons_of_mem _ hy))
    rw [List.flatMap_cons]
    by_cases hp : p x = true
    · obtain ⟨w, hw, hR⟩ := h1 x (List.mem_cons_self _ _) hp
      rw [List.filter_cons_of_pos hp, hw]
      exact List.Forall₂.cons hR ih'
    · have hp' : p x = false := by simpa using hp
      rw [List.filter_cons_of_neg hp, h0 x (List.mem_cons_self _ _) hp']
      exact ih'

/-- C12, refuted as stated, at three issues of main.tf whose source is
available. For an issue whose rule reports the severity FATAL,
printIssueWithSource panics and prints none of the lines that overlap the range
of the issue. For an issue of a tags rule whose range ends before it starts,
line 2 is printed as slices that do not make up the line. For an issue of a tags
rule whose range (bytes 20 to 33) ends at the byte where line 2 (bytes 33 to 54)
starts, line 2 is printed though it has no byte in common with the range, and it
is printed whole: the before, highlighted and after slices of its partition are
empty and do not make up the line. For an issue of a tags rule whose range
(bytes 32 to 40) starts at the byte where line 1 (bytes 0 to 32) ends, line 1 is
printed, whole, though it has no byte in common with the range. -/
theorem printIssueWithSource_lines_not_always_printed :
    (sample.sources.get sample.issueOutsideContract.Range.Filename ≠ none ∧
      (∃ sc ∈ hcl.scanLines (sample.ascii
            "resource \"aws_db_snapshot\" \"s\" \x7b\n  tags = \x7bName = \"x\"\x7d\n\x7d\n")
            "main.tf",
          sc.1.Overlaps sample.issueOutsideContract.Range = true) ∧
      (Formatter.empty.printIssueWithSource sample.issueOutsideContract sample.sources).1.Stdout
        = []) ∧
    (Write.Fprintf "%4d: %s%s%s\n"
          [Arg.int 2, Arg.bytes (sample.ascii "  tags = \x7bName = "),
           Arg.colored ColorFunc.colorHighlight (Arg.bytes []),
           Arg.bytes (sample.ascii "= \x7bName = \"x\"\x7d")]
        ∈ (Formatter.empty.printIssueWithSource sample.issueInverted sample.sources).1.Stdout ∧
      sample.ascii "  tags = \x7bName = " ++ [] ++ sample.ascii "= \x7bName = \"x\"\x7d"
        ≠ sample.ascii "  tags = \x7bName = \"x\"\x7d") ∧
    (severityInContract sample.issueAdjacent ∧
      sample.issueAdjacent.Range.Start.Byte ≤ sample.issueAdjacent.Range.End.Byte ∧
      ((⟨"main.tf", ⟨2, 1, 33⟩, ⟨2, 22, 54⟩⟩ : hcl.Range),
          sample.ascii "  tags = \x7bName = \"x\"\x7d")
        ∈ hcl.scanLines (sample.ascii
            "resource \"aws_db_snapshot\" \"s\" \x7b\n  tags = \x7bName = \"x\"\x7d\n\x7d\n")
            "main.tf" ∧
      (∀ b : Int, ¬ (33 ≤ b ∧ b < 54 ∧ sample.issueAdjacent.Range.Start.Byte ≤ b ∧
        b < sample.issueAdjacent.Range.End.Byte)) ∧
      hcl.Range.sharesByte ⟨"main.tf", ⟨2, 1, 33⟩, ⟨2, 22, 54⟩⟩ sample.issueAdjacent.Range
        = false ∧
      Write.Fprintf "%4d: %s\n" [Arg.int 2, Arg.bytes (sample.ascii "  tags = \x7bName = \"x\"\x7d")]
        ∈ (Formatter.empty.printIssueWithSource sample.issueAdjacent sample.sources).1.Stdout ∧
      (let parts := hcl.Range.PartitionAround ⟨"main.tf", ⟨2, 1, 33⟩, ⟨2, 22, 54⟩⟩
          sample.issueAdjacent.Range;
        hcl.Range.SliceBytes parts.1 (sample.ascii
            "resource \"aws_db_snapshot\" \"s\" \x7b\n  tags = \x7bName = \"x\"\x7d\n\x7d\n")
          ++ hcl.Range.SliceBytes parts.2.1 (sample.ascii
            "resource \"aws_db_snapshot\" \"s\" \x7b\n  tags = \x7bName = \"x\"\x7d\n\x7d\n")
          ++ hcl.Range.SliceBytes parts.2.2 (sample.ascii
            "resource \"aws_db_snapshot\" \"s\" \x7b\n  tags = \x7bName = \"x\"\x7d\n\x7d\n")
          = [])) ∧
    (severityInContract sample.issueAtLineEnd ∧
      sample.issueAtLineEnd.Range.Start.Byte ≤ sample.issueAtLineEnd.Range.End.Byte ∧
      ((⟨"main.tf", ⟨1, 1, 0⟩, ⟨1, 33, 32⟩⟩ : hcl.Range),
          sample.ascii "resource \"aws_db_snapshot\" \"s\" \x7b")
        ∈ hcl.scanLines (sample.ascii
            "resource \"aws_db_snapshot\" \"s\" \x7b\n  tags = \x7bName = \"x\"\x7d\n\x7d\n")
            "main.tf" ∧
      (∀ b : Int, ¬ (0 ≤ b ∧ b < 32 ∧ sample.issueAtLineEnd.Range.Start.Byte ≤ b ∧
        b < sample.issueAtLineEnd.Range.End.Byte)) ∧
      hcl.Range.sharesByte ⟨"main.tf", ⟨1, 1, 0⟩, ⟨1, 33, 32⟩⟩ sample.issueAtLineEnd.Range
        = false ∧
      Write.Fprintf "%4d: %s\n"
          [Arg.int 1, Arg.bytes (sample.ascii "resource \"aws_db_snapshot\" \"s\" \x7b")]
        ∈ (Formatter.empty.printIssueWithSource sample.issueAtLineEnd sample.sources).1.Stdout)
    := by
  refine ⟨by decide, by decide, ⟨by decide, by decide, by decide, ?_, by decide, by decide,
    by decide⟩, by decide, by decide, by decide, ?_, by decide, by decide⟩
  · intro b hb
    have h1 : sample.issueAdjacent.Range.End.Byte = 33 := rfl
    omega
  · intro b hb
    have h1 : sample.issueAtLineEnd.Range.Start.Byte = 32 := rfl
    omega

/-- C12, amended: for every issue whose rule reports a severity of the rule
contract, whose range does not end before it starts and whose source file is
available, the calls of printIssueWithSource on Stdout are some calls, then one
call per scanned line whose range shares a byte with the range of the issue or
touches it (each holds a byte and one starts at the byte where the other ends),
in scan order, which is ascending line order, then some calls; the call of a
line that shares a byte with the range prints the slices before, highlighted and
after, whose concatenation is the bytes of the line, the highlighted slice being
the bytes the line and the range have in common, at least one; the call of a
line that only touches the range prints the line whole; the bytes of a line are
the bytes of the source at the range of the line; no other call prints a source
line. -/
theorem printIssueWithSource_source_lines (f : Formatter) (i : tflint.Issue)
    (sources : Sources) (src : Bytes) (hvalid : severityInContract i)
    (hrange : i.Range.Start.Byte ≤ i.Range.End.Byte)
    (hsrc : sources.get i.Range.Filename = some src) :
    (f.printIssueWithSource i sources).2 = none ∧
    ∃ before lines after,
      (f.printIssueWithSource i sources).1.Stdout = f.Stdout ++ before ++ lines ++ after ∧
      List.Forall₂ (printsLineAround src i.Range)
        ((hcl.scanLines src i.Range.Filename).filter fun sc =>
          sc.1.sharesByte i.Range || sc.1.touches i.Range) lines ∧
      List.Pairwise (fun a b : hcl.Range × Bytes => a.1.Start.Line < b.1.Start.Line)
        ((hcl.scanLines src i.Range.Filename).filter fun sc =>
          sc.1.sharesByte i.Range || sc.1.touches i.Range) ∧
      (∀ sc ∈ hcl.scanLines src i.Range.Filename, sc.1.SliceBytes src = sc.2) ∧
      ∀ w ∈ before ++ after, ∀ args,
        w ≠ Write.Fprintf "%4d: %s\n" args ∧ w ≠ Write.Fprintf "%4d: %s%s%s\n" args := by
  obtain ⟨severity, hs⟩ := colorSeverity_ok i hvalid
  rw [printIssueWithSource_eq f i sources severity hs]
  have hscan := hcl.scanLines_spec src i.Range.Filename
  have hlines : sourceWrites i sources
      = (hcl.scanLines src i.Range.Filename).flatMap (lineWrites src i.Range) := by
    unfold sourceWrites
    rw [hsrc]
  have htest : ∀ sc ∈ hcl.scanLines src i.Range.Filename,
      sc.1.Overlaps i.Range = (sc.1.sharesByte i.Range || sc.1.touches i.Range) := by
    intro sc hsc
    obtain ⟨hfile, k, hk, he, _⟩ := hscan sc hsc
    exact hcl.overlaps_eq_shares_or_touches sc.1 i.Range hfile (by omega) hrange
  refine ⟨rfl,
    [Write.Fprintf "%s: %s (%s)\n\n"
        [severity, Arg.colored ColorFunc.colorBold (Arg.str i.Message), Arg.str i.Rule.Name],
      Write.Fprintf "  on %s line %d:\n"
        [Arg.str i.Range.Filename, Arg.int i.Range.Start.Line]],
    sourceWrites i sources,
    (if i.Callers = [] then [] else Write.Fprint "\nCallers:\n" :: i.Callers.map callerLine)
      ++ ((if i.Rule.Link = "" then []
        else [Write.Fprintf "\nReference: %s\n" [Arg.str i.Rule.Link]])
      ++ [Write.Fprint "\n\n"]),
    ?_, ?_, ?_, ?_, ?_⟩
  · simp only [Formatter.outs, List.append_assoc]
  · rw [hlines]
    apply forall₂_filter_flatMap
    · intro sc hsc hov
      exact lineWrites_not_overlap src i.Range sc ((htest sc hsc).trans hov)
    · intro sc hsc hov
      obtain ⟨_, k, hk, he, htok⟩ := hscan sc hsc
      exact lineWrites_overlap src i.Range sc k hk he htok hrange ((htest sc hsc).trans hov)
  · exact (hcl.scanLines_ascending src i.Range.Filename).sublist (List.filter_sublist _)
  · intro sc hsc
    obtain ⟨_, k, hk, he, htok⟩ := hscan sc hsc
    by_cases hzero : sc.2.length = 0
    · have hnil : sc.2 = [] := List.length_eq_zero.mp hzero
      rw [hnil]
      unfold hcl.Range.SliceBytes
      rw [he, hk, hzero]
      simp
    · have hlen : k + sc.2.length ≤ src.length := by
        have h1 := congrArg List.length htok
        simp only [List.length_take, List.length_drop] at h1
        omega
      rw [hcl.sliceBytes_eq sc.1 src k (k + sc.2.length) hk (by rw [he]; push_cast; rfl)
        (by omega) hlen]
      simpa using htok
  · intro w hw args
    simp only [List.mem_append, List.mem_cons, List.mem_singleton, List.not_mem_nil, or_false]
      at hw
    rcases hw with (hw | hw) | hw | hw | hw
    · subst hw
      exact ⟨by simp, by simp⟩
    · subst hw
      exact ⟨by simp, by simp⟩
    · by_cases hc : i.Callers = []
      · simp [hc] at hw
      · simp only [hc, if_false, List.mem_cons, List.mem_map] at hw
        rcases hw with hw | ⟨c, _, hw⟩
        · subst hw
          exact ⟨by simp, by simp⟩
        · subst hw
          exact ⟨by simp [callerLine], by simp [callerLine]⟩
    · by_cases hl : i.Rule.Link = ""
      · simp [hl] at hw
      · simp only [hl, if_false, List.mem_singleton] at hw
        subst hw
        exact ⟨by simp, by simp⟩
    · subst hw
      exact ⟨by simp, by simp⟩

/-- C12 amended, at the issue on the tags attribute of main.tf. -/
theorem printIssueWithSource_source_lines_witness :
    (Formatter.empty.printIssueWithSource sample.issueA sample.sources).2 = none :=
  (printIssueWithSource_source_lines Formatter.empty sample.issueA sample.sources
    (sample.ascii
      "resource \"aws_db_snapshot\" \"s\" \x7b\n  tags = \x7bName = \"x\"\x7d\n\x7d\n")
    (by decide) (by decide) (by decide)).1

end formatter
